import Mathlib

/-!
Verification development for `nedko/mx`.

Shallow embedding of the two algorithmic cores of the repository:

* the reflowing grid layout of `src/nbtk/nbtk-grid.c`
  (`compute_row_height`, `compute_row_start`, `nbtk_grid_do_allocate`);
* the kinetic scroll engine of `src/mx/mx-finger-scroll.c`
  (`motion_event_cb`, `clamp_adjustments`, `deceleration_new_frame_cb`,
  `button_release_event_cb`, `captured_event_cb`).

`ClutterUnit`, `gfloat` and `gdouble` quantities are embedded as exact
rationals (`ℚ`); `guint` counters are naturals reduced modulo `2^32`.
-/

set_option autoImplicit false

namespace NbtkGrid

/-- A child actor as the layout sees it: the natural size reported by
`clutter_actor_get_preferred_size` and the `CLUTTER_ACTOR_IS_VISIBLE` flag. -/
structure Child where
  natural_width : ℚ
  natural_height : ℚ
  visible : Bool
  deriving DecidableEq

/-- The fields of `struct _NbtkGridPrivate` that the layout reads or writes. -/
structure NbtkGridPrivate where
  alloc_width : ℚ
  alloc_height : ℚ
  list : List Child
  homogenous_rows : Bool
  homogenous_columns : Bool
  end_align : Bool
  column_gap : ℚ
  row_gap : ℚ
  valign : ℚ
  halign : ℚ
  column_major : Bool
  first_of_batch : Bool
  a_wrap : ℚ
  max_extent_a : ℚ
  max_extent_b : ℚ
  deriving DecidableEq

/-- The `ClutterActorBox` of a child or of the allocation. -/
structure ClutterActorBox where
  x1 : ℚ
  y1 : ℚ
  x2 : ℚ
  y2 : ℚ
  deriving DecidableEq

/-- The local `homogenous_a` of the three layout functions. -/
def homogenous_a (priv : NbtkGridPrivate) : Bool :=
  if priv.column_major then priv.homogenous_rows else priv.homogenous_columns

/-- The local `homogenous_b` of the three layout functions. -/
def homogenous_b (priv : NbtkGridPrivate) : Bool :=
  if priv.column_major then priv.homogenous_columns else priv.homogenous_rows

/-- The local `agap` of `nbtk_grid_do_allocate`, which is also the local `gap`
of `compute_row_height` and `compute_row_start`. -/
def agap (priv : NbtkGridPrivate) : ℚ :=
  if priv.column_major then priv.row_gap else priv.column_gap

/-- The local `bgap` of `nbtk_grid_do_allocate`. -/
def bgap (priv : NbtkGridPrivate) : ℚ :=
  if priv.column_major then priv.column_gap else priv.row_gap

/-- The local `aalign` of `nbtk_grid_do_allocate`. -/
def aalign (priv : NbtkGridPrivate) : ℚ :=
  if priv.column_major then priv.valign else priv.halign

/-- The local `balign` of `nbtk_grid_do_allocate`. -/
def balign (priv : NbtkGridPrivate) : ℚ :=
  if priv.column_major then priv.halign else priv.valign

/-- The function `compute_row_height`: scan ahead through `siblings` (hidden
children included, as in the source) for the largest minor-axis size. -/
def compute_row_height (siblings : List Child) (best_yet current_a : ℚ)
    (priv : NbtkGridPrivate) : ℚ :=
  match siblings with
  | [] => best_yet
  | child :: l =>
    let natural_width0 := child.natural_width
    let natural_height0 := child.natural_height
    let natural_height := if priv.column_major then natural_width0 else natural_height0
    let natural_width1 := if priv.column_major then natural_height0 else natural_width0
    let natural_width := if homogenous_a priv then priv.max_extent_a else natural_width1
    let best_yet := if natural_height > best_yet then natural_height else best_yet
    if current_a + natural_width + agap priv > priv.a_wrap then
      best_yet
    else
      compute_row_height l best_yet (current_a + natural_width + agap priv) priv

/-- The `for` loop of `compute_row_start`, with the loop variable `current_a`
made explicit (hidden children are counted, as in the source). -/
def compute_row_start_loop (siblings : List Child) (start_x current_a : ℚ)
    (priv : NbtkGridPrivate) : ℚ :=
  match siblings with
  | [] => priv.a_wrap - current_a
  | child :: l =>
    let natural_width1 :=
      if priv.column_major then child.natural_height else child.natural_width
    let natural_width := if homogenous_a priv then priv.max_extent_a else natural_width1
    if current_a + natural_width + agap priv > priv.a_wrap then
      if current_a = start_x then start_x else priv.a_wrap - current_a
    else
      compute_row_start_loop l start_x (current_a + natural_width + agap priv) priv

/-- The function `compute_row_start`. -/
def compute_row_start (siblings : List Child) (start_x : ℚ)
    (priv : NbtkGridPrivate) : ℚ :=
  compute_row_start_loop siblings start_x start_x priv

/-- The measurement loop of `nbtk_grid_do_allocate` (source lines 923-940),
threading `priv->max_extent_a` and `priv->max_extent_b`. -/
def measure_loop (list : List Child) (max_extent_a max_extent_b : ℚ) : ℚ × ℚ :=
  match list with
  | [] => (max_extent_a, max_extent_b)
  | child :: l =>
    if !child.visible then measure_loop l max_extent_a max_extent_b
    else
      let max_extent_a1 :=
        if child.natural_width > max_extent_a then child.natural_width else max_extent_a
      let max_extent_b1 :=
        if child.natural_height > max_extent_b then child.natural_width else max_extent_b
      measure_loop l max_extent_a1 max_extent_b1

/-- The locals of the placement loop of `nbtk_grid_do_allocate`, together with
`priv->first_of_batch` and the two out-parameters. -/
structure LoopState where
  current_a : ℚ
  current_b : ℚ
  next_b : ℚ
  first_of_batch : Bool
  actual_width : ℚ
  actual_height : ℚ
  deriving DecidableEq

/-- What one iteration of the placement loop emits for a visible child: the
`child_box` handed to `clutter_actor_allocate`, and an observation of the loop
variables at that point (`wrapped`: the wrap test of source lines 972-973 fired
for this child; `current_a`, `current_b`: their values when the box was
computed; `row_height`: the local of that name). -/
structure Placed where
  child_box : ClutterActorBox
  wrapped : Bool
  current_a : ℚ
  current_b : ℚ
  row_height : ℚ
  deriving DecidableEq

/-- The body of the placement loop (source lines 959-1053) for a visible
`child` whose list cell is `iter = child :: rest`. -/
def allocate_child (priv : NbtkGridPrivate) (st : LoopState) (child : Child)
    (rest : List Child) : LoopState × Placed :=
  let natural_a := if priv.column_major then child.natural_height else child.natural_width
  let natural_b := if priv.column_major then child.natural_width else child.natural_height
  let wrapped : Bool :=
    decide (st.current_a + natural_a > priv.a_wrap) ||
      (homogenous_a priv && decide (st.current_a + priv.max_extent_a > priv.a_wrap))
  let current_b := if wrapped then st.next_b + bgap priv else st.current_b
  let current_a0 := if wrapped then 0 else st.current_a
  let next_b0 := if wrapped then current_b + bgap priv else st.next_b
  let first_of_batch0 := if wrapped then true else st.first_of_batch
  let start : Bool := priv.end_align && first_of_batch0
  let current_a :=
    if start then compute_row_start (child :: rest) current_a0 priv else current_a0
  let first_of_batch := if start then false else first_of_batch0
  let next_b := if next_b0 - current_b < natural_b then current_b + natural_b else next_b0
  let row_height :=
    if homogenous_b priv then priv.max_extent_b
    else compute_row_height (child :: rest) (next_b - current_b) current_a priv
  let x1 :=
    if homogenous_a priv then current_a + (priv.max_extent_a - natural_a) * aalign priv
    else current_a
  let x2 := x1 + natural_a
  let y1 := current_b + (row_height - natural_b) * balign priv
  let y2 := y1 + natural_b
  let child_box : ClutterActorBox :=
    if priv.column_major then ⟨y1, x1, y2, x2⟩ else ⟨x1, y1, x2, y2⟩
  let actual_width :=
    if child_box.x2 > st.actual_width then child_box.x2 else st.actual_width
  let actual_height :=
    if child_box.y2 > st.actual_height then child_box.y2 else st.actual_height
  let current_a1 :=
    if homogenous_a priv then current_a + priv.max_extent_a + agap priv
    else current_a + natural_a + agap priv
  (⟨current_a1, current_b, next_b, first_of_batch, actual_width, actual_height⟩,
   ⟨child_box, wrapped, current_a, current_b, row_height⟩)

/-- The placement loop of `nbtk_grid_do_allocate` (source lines 950-1054): one
entry per child of the list, `none` for a hidden child (`continue`). -/
def allocate_loop (priv : NbtkGridPrivate) (st : LoopState) (iter : List Child) :
    LoopState × List (Option Placed) :=
  match iter with
  | [] => (st, [])
  | child :: rest =>
    if !child.visible then
      let r := allocate_loop priv st rest
      (r.1, none :: r.2)
    else
      let s := allocate_child priv st child rest
      let r := allocate_loop priv s.1 rest
      (r.1, some s.2 :: r.2)

/-- The result of `nbtk_grid_do_allocate`: the private structure it leaves
behind, the per-child placements and the two out-parameters. -/
structure AllocateResult where
  priv : NbtkGridPrivate
  placed : List (Option Placed)
  actual_width : ℚ
  actual_height : ℚ
  deriving DecidableEq

/-- The set-up of `nbtk_grid_do_allocate` before the placement loop (source
lines 890-948): allocation size, wrap extent, measurement pass and the
column-major swap of the two maxima. -/
def allocate_setup (priv : NbtkGridPrivate) (box : ClutterActorBox) : NbtkGridPrivate :=
  let priv1 := { priv with alloc_width := box.x2 - box.x1, alloc_height := box.y2 - box.y1 }
  let priv2 :=
    { priv1 with a_wrap := if priv1.column_major then priv1.alloc_height else priv1.alloc_width }
  let m : ℚ × ℚ :=
    if homogenous_a priv2 || homogenous_b priv2 then measure_loop priv2.list 0 0 else (0, 0)
  let priv3 := { priv2 with max_extent_a := m.1, max_extent_b := m.2, first_of_batch := true }
  if priv3.column_major then
    { priv3 with max_extent_a := priv3.max_extent_b, max_extent_b := priv3.max_extent_a }
  else priv3

/-- The function `nbtk_grid_do_allocate`. The boxes are computed whether or not
`calculate_extents_only` is set (the flag only decides whether they are handed
to `clutter_actor_allocate`), and both out-pointers are taken to be non-NULL. -/
def nbtk_grid_do_allocate (priv : NbtkGridPrivate) (box : ClutterActorBox) : AllocateResult :=
  let priv1 := allocate_setup priv box
  let r := allocate_loop priv1 ⟨0, 0, 0, true, 0, 0⟩ priv1.list
  { priv := { priv1 with first_of_batch := r.1.first_of_batch }
    placed := r.2
    actual_width := r.1.actual_width
    actual_height := r.1.actual_height }

/-- Major-axis start of a box: `y1` when column-major, `x1` otherwise. -/
def major1 (priv : NbtkGridPrivate) (b : ClutterActorBox) : ℚ :=
  if priv.column_major then b.y1 else b.x1

/-- Major-axis end of a box: `y2` when column-major, `x2` otherwise. -/
def major2 (priv : NbtkGridPrivate) (b : ClutterActorBox) : ℚ :=
  if priv.column_major then b.y2 else b.x2

/-- Minor-axis start of a box: `x1` when column-major, `y1` otherwise. -/
def minor1 (priv : NbtkGridPrivate) (b : ClutterActorBox) : ℚ :=
  if priv.column_major then b.x1 else b.y1

/-- Minor-axis end of a box: `x2` when column-major, `y2` otherwise. -/
def minor2 (priv : NbtkGridPrivate) (b : ClutterActorBox) : ℚ :=
  if priv.column_major then b.x2 else b.y2

/-- Natural size of a child along the major axis. -/
def natural_a (priv : NbtkGridPrivate) (c : Child) : ℚ :=
  if priv.column_major then c.natural_height else c.natural_width

/-- Natural size of a child along the minor axis. -/
def natural_b (priv : NbtkGridPrivate) (c : Child) : ℚ :=
  if priv.column_major then c.natural_width else c.natural_height

/-- The size a child occupies along the major axis when the line advances:
`priv->max_extent_a` if the major axis is homogeneous, its natural size otherwise. -/
def cell_a (priv : NbtkGridPrivate) (c : Child) : ℚ :=
  if homogenous_a priv then priv.max_extent_a else natural_a priv c

/-- The wrap test of source lines 972-973. -/
def wrap_test (priv : NbtkGridPrivate) (st : LoopState) (c : Child) : Bool :=
  decide (st.current_a + natural_a priv c > priv.a_wrap) ||
    (homogenous_a priv && decide (st.current_a + priv.max_extent_a > priv.a_wrap))

/-- The inputs the layout accepts: non-negative natural sizes, non-negative
gaps and alignments in `[0, 1]`. -/
def well_formed (priv : NbtkGridPrivate) : Prop :=
  (∀ c ∈ priv.list, 0 ≤ c.natural_width ∧ 0 ≤ c.natural_height) ∧
    0 ≤ priv.column_gap ∧ 0 ≤ priv.row_gap ∧
    0 ≤ priv.halign ∧ priv.halign ≤ 1 ∧ 0 ≤ priv.valign ∧ priv.valign ≤ 1

/-- The placement of the first visible child after position `i`, if any. -/
def next_placed (placed : List (Option Placed)) (i : ℕ) : Option Placed :=
  ((placed.drop (i + 1)).reduceOption).head?

/-- The child placed as `p` at position `i` is alone on its line: the wrap test
fired for it, and fires again for the next visible child (if any). -/
def alone_on_line (placed : List (Option Placed)) (i : ℕ) (p : Placed) : Prop :=
  p.wrapped = true ∧ ∀ q, next_placed placed i = some q → q.wrapped = true

/-- The major-axis containment property as the specification words it: every
placed box lies within `[0, a_wrap]` on the major axis, except for a child whose
own major size exceeds `a_wrap` and which is alone on its line. -/
def within_wrap (priv : NbtkGridPrivate) (box : ClutterActorBox) : Prop :=
  ∀ (i : ℕ) (p : Placed) (c : Child),
    (nbtk_grid_do_allocate priv box).placed[i]? = some (some p) → priv.list[i]? = some c →
    (0 ≤ major1 priv p.child_box ∧
        major2 priv p.child_box ≤ (nbtk_grid_do_allocate priv box).priv.a_wrap) ∨
      ((nbtk_grid_do_allocate priv box).priv.a_wrap < natural_a priv c ∧
        alone_on_line (nbtk_grid_do_allocate priv box).placed i p)

/-- A row-major grid with homogeneous columns and `halign = 1` holding children
of widths 5 and 20; it is laid out below in a box of width 10. -/
def homogeneous_sample : NbtkGridPrivate :=
  { alloc_width := 0, alloc_height := 0
    list := [⟨5, 1, true⟩, ⟨20, 1, true⟩]
    homogenous_rows := false, homogenous_columns := true, end_align := false
    column_gap := 0, row_gap := 0, valign := 0, halign := 1, column_major := false
    first_of_batch := false, a_wrap := 0, max_extent_a := 0, max_extent_b := 0 }

/-- The position at which the forward simulation of `compute_row_start` stops
when started at `cur`: it advances by cell size plus gap while the next child
still fits together with its gap. -/
def row_extent (priv : NbtkGridPrivate) (l : List Child) (cur : ℚ) : ℚ :=
  match l with
  | [] => cur
  | c :: l =>
    if cur + cell_a priv c + agap priv > priv.a_wrap then cur
    else row_extent priv l (cur + cell_a priv c + agap priv)

/-- The state between two children of an end-aligned line: at the start of the
layout `current_a = 0`; afterwards either the line has reached the wrap
boundary, or the rest of the simulated row ends exactly on it. -/
def end_align_inv (priv : NbtkGridPrivate) (st : LoopState) (iter : List Child) : Prop :=
  (st.first_of_batch = true → st.current_a = 0) ∧
    (st.first_of_batch = false →
      priv.a_wrap ≤ st.current_a ∨
        ∃ s : ℚ, row_extent priv iter (st.current_a - s) = priv.a_wrap - s)

/-- The index of the line on which position `i` lies: the number of children up
to and including `i` for which the wrap test fired. -/
def line_index (placed : List (Option Placed)) (i : ℕ) : ℕ :=
  (((placed.take (i + 1)).reduceOption).filter fun q => q.wrapped).length

/-- The child at position `i` is the last one on its line: the wrap test fires
for the next visible child, or there is none. -/
def last_on_line (placed : List (Option Placed)) (i : ℕ) : Prop :=
  ∀ q, next_placed placed i = some q → q.wrapped = true

/-- No visible child on the line of position `i` has a major size above `a_wrap`. -/
def line_without_oversized (priv : NbtkGridPrivate) (box : ClutterActorBox) (i : ℕ) : Prop :=
  ∀ (j : ℕ) (c : Child), priv.list[j]? = some c → c.visible = true →
    line_index (nbtk_grid_do_allocate priv box).placed j
      = line_index (nbtk_grid_do_allocate priv box).placed i →
    natural_a priv c ≤ (nbtk_grid_do_allocate priv box).priv.a_wrap

/-- The end-align property as the specification words it: the last item of
every line without an oversized item ends within one gap of the wrap
boundary, and exactly on it when the gap is zero. -/
def end_flush (priv : NbtkGridPrivate) (box : ClutterActorBox) : Prop :=
  ∀ (i : ℕ) (p : Placed),
    (nbtk_grid_do_allocate priv box).placed[i]? = some (some p) →
    last_on_line (nbtk_grid_do_allocate priv box).placed i →
    line_without_oversized priv box i →
    ((nbtk_grid_do_allocate priv box).priv.a_wrap - agap priv ≤ major2 priv p.child_box ∧
      major2 priv p.child_box ≤ (nbtk_grid_do_allocate priv box).priv.a_wrap) ∧
    (agap priv = 0 →
      major2 priv p.child_box = (nbtk_grid_do_allocate priv box).priv.a_wrap)

/-- A row-major, end-aligned grid with homogeneous columns and `halign = 0`
holding children of widths 10 and 2; it is laid out below in a width of 30. -/
def end_align_homogeneous_sample : NbtkGridPrivate :=
  { alloc_width := 0, alloc_height := 0
    list := [⟨10, 1, true⟩, ⟨2, 1, true⟩]
    homogenous_rows := false, homogenous_columns := true, end_align := true
    column_gap := 0, row_gap := 0, valign := 0, halign := 0, column_major := false
    first_of_batch := false, a_wrap := 0, max_extent_a := 0, max_extent_b := 0 }

/-- A row-major, end-aligned grid without homogeneity holding children of
widths 10, 10 and 10 with a column gap of 2; it is laid out below in a width of 30. -/
def end_align_sample : NbtkGridPrivate :=
  { alloc_width := 0, alloc_height := 0
    list := [⟨10, 1, true⟩, ⟨10, 1, true⟩, ⟨10, 1, true⟩]
    homogenous_rows := false, homogenous_columns := false, end_align := true
    column_gap := 2, row_gap := 0, valign := 0, halign := 0, column_major := false
    first_of_batch := false, a_wrap := 0, max_extent_a := 0, max_extent_b := 0 }

/-- A row-major grid with homogeneous rows and `valign = 1` holding one child
of width 1 and height 10. -/
def homogeneous_rows_sample : NbtkGridPrivate :=
  { alloc_width := 0, alloc_height := 0
    list := [⟨1, 10, true⟩]
    homogenous_rows := true, homogenous_columns := false, end_align := false
    column_gap := 0, row_gap := 0, valign := 1, halign := 0, column_major := false
    first_of_batch := false, a_wrap := 0, max_extent_a := 0, max_extent_b := 0 }

/-- Two private structures describe the same grid: they agree on the children
and on every configuration field, and may differ in the scratch fields
(`alloc_width`, `alloc_height`, `first_of_batch`, `a_wrap`, `max_extent_a`,
`max_extent_b`) that a layout call overwrites. -/
def same_config (p q : NbtkGridPrivate) : Prop :=
  p.list = q.list ∧ p.homogenous_rows = q.homogenous_rows ∧
    p.homogenous_columns = q.homogenous_columns ∧ p.end_align = q.end_align ∧
    p.column_gap = q.column_gap ∧ p.row_gap = q.row_gap ∧ p.valign = q.valign ∧
    p.halign = q.halign ∧ p.column_major = q.column_major

/-- The oversized-item property as the specification words it: a child whose
major size exceeds `a_wrap` is placed at major position 0 with its full natural
size and is alone on its line. -/
def oversized_alone (priv : NbtkGridPrivate) (box : ClutterActorBox) : Prop :=
  ∀ (i : ℕ) (p : Placed) (c : Child),
    (nbtk_grid_do_allocate priv box).placed[i]? = some (some p) → priv.list[i]? = some c →
    (nbtk_grid_do_allocate priv box).priv.a_wrap < natural_a priv c →
    major1 priv p.child_box = 0 ∧
      major2 priv p.child_box = natural_a priv c ∧
      minor2 priv p.child_box - minor1 priv p.child_box = natural_b priv c ∧
      alone_on_line (nbtk_grid_do_allocate priv box).placed i p

/-- A row-major grid with homogeneous columns and `halign = 1` holding children
of widths 20 and 30; it is laid out below in a box of width 10. -/
def oversized_homogeneous_sample : NbtkGridPrivate :=
  { alloc_width := 0, alloc_height := 0
    list := [⟨20, 1, true⟩, ⟨30, 1, true⟩]
    homogenous_rows := false, homogenous_columns := true, end_align := false
    column_gap := 0, row_gap := 0, valign := 0, halign := 1, column_major := false
    first_of_batch := false, a_wrap := 0, max_extent_a := 0, max_extent_b := 0 }

/-- The sum, over all children of `l` (hidden ones included), of the size the
child occupies along the major axis plus one major-axis gap. -/
def total_a (priv : NbtkGridPrivate) (l : List Child) : ℚ :=
  match l with
  | [] => 0
  | c :: l => cell_a priv c + agap priv + total_a priv l

/-- The sum, over the visible children of `l`, of the size the child occupies
along the major axis plus one major-axis gap. -/
def visible_total_a (priv : NbtkGridPrivate) (l : List Child) : ℚ :=
  match l with
  | [] => 0
  | c :: l => (if c.visible then cell_a priv c + agap priv else 0) + visible_total_a priv l

/-- The single-line property as the specification words it: when `a_wrap` is at
least the sum of the (possibly homogenized) sizes and gaps, the wrap test is
false for every item, every item has minor line origin 0 and, with `end_align`
off, the major origin of item `i` is the sum of the sizes and gaps before it. -/
def single_line (priv : NbtkGridPrivate) (box : ClutterActorBox) : Prop :=
  total_a (allocate_setup priv box) priv.list ≤ (allocate_setup priv box).a_wrap →
  ∀ (i : ℕ) (p : Placed),
    (nbtk_grid_do_allocate priv box).placed[i]? = some (some p) →
    p.wrapped = false ∧ p.current_b = 0 ∧
      (priv.end_align = false →
        major1 priv p.child_box = visible_total_a (allocate_setup priv box) (priv.list.take i))

/-- The state between two children of a layout that fits on one line: the
line has not wrapped, what is left of the list still fits, and with `end_align`
off `current_a` is the sum of the cells and gaps of the visible children
already placed. -/
def single_line_inv (P : NbtkGridPrivate) (st : LoopState) (iter : List Child) : Prop :=
  0 ≤ st.current_a ∧ st.current_b = 0 ∧ st.current_a + total_a P iter ≤ P.a_wrap ∧
    (∀ c ∈ iter, 0 ≤ cell_a P c ∧ (c.visible = true → natural_a P c ≤ cell_a P c)) ∧
    (P.end_align = false →
      ∃ pre, P.list = pre ++ iter ∧ st.current_a = visible_total_a P pre)

/-- The largest natural width among the visible children (0 if there is none). -/
def max_natural_width (l : List Child) : ℚ :=
  match l with
  | [] => 0
  | c :: l => if c.visible then max c.natural_width (max_natural_width l) else max_natural_width l

/-- The largest natural height among the visible children (0 if there is none). -/
def max_natural_height (l : List Child) : ℚ :=
  match l with
  | [] => 0
  | c :: l => if c.visible then max c.natural_height (max_natural_height l) else max_natural_height l

/-- A grid with homogeneous rows holding children of sizes 3x10 and 7x4, in
the orientation given. -/
def measure_sample (column_major : Bool) : NbtkGridPrivate :=
  { alloc_width := 0, alloc_height := 0
    list := [⟨3, 10, true⟩, ⟨7, 4, true⟩]
    homogenous_rows := true, homogenous_columns := false, end_align := false
    column_gap := 0, row_gap := 0, valign := 0, halign := 0, column_major := column_major
    first_of_batch := false, a_wrap := 0, max_extent_a := 0, max_extent_b := 0 }

/-- A row-major grid without homogeneity and `valign = 1` holding children of
sizes 10x1 and 10x5; it is laid out below in a width of 15, where the second
child wraps to a second line. -/
def row_height_sample : NbtkGridPrivate :=
  { alloc_width := 0, alloc_height := 0
    list := [⟨10, 1, true⟩, ⟨10, 5, true⟩]
    homogenous_rows := false, homogenous_columns := false, end_align := false
    column_gap := 0, row_gap := 0, valign := 1, halign := 0, column_major := false
    first_of_batch := false, a_wrap := 0, max_extent_a := 0, max_extent_b := 0 }

/-- The wrap rule as the specification words it, for items of major sizes
`sizes` entering at major position `cur`: an item stays on the line when
`cur + size <= a_wrap` and is placed at `cur`; otherwise it starts a new line
at major position 0. The next item enters one gap after the end of this one.
Each entry is `(wrapped, major start, major end)`. -/
def flow_reference (a_wrap gap : ℚ) (sizes : List ℚ) (cur : ℚ) : List (Bool × ℚ × ℚ) :=
  match sizes with
  | [] => []
  | s :: rest =>
    if cur + s ≤ a_wrap then (false, cur, cur + s) :: flow_reference a_wrap gap rest (cur + s + gap)
    else (true, 0, s) :: flow_reference a_wrap gap rest (s + gap)

/-- What the wrap rule observes of a placement: the wrap flag and the
major-axis interval of the box. -/
def flow_observed (priv : NbtkGridPrivate) (p : Placed) : Bool × ℚ × ℚ :=
  (p.wrapped, major1 priv p.child_box, major2 priv p.child_box)

/-- The major sizes of the visible children of a list. -/
def visible_sizes (priv : NbtkGridPrivate) (l : List Child) : List ℚ :=
  match l with
  | [] => []
  | c :: l => if c.visible then natural_a priv c :: visible_sizes priv l else visible_sizes priv l

/-- A row-major grid without homogeneity or end-alignment holding five
children of width 10 with a column gap of 2; it is laid out below in a width
of 33. -/
def flow_sample : NbtkGridPrivate :=
  { alloc_width := 0, alloc_height := 0
    list := [⟨10, 1, true⟩, ⟨10, 1, true⟩, ⟨10, 1, true⟩, ⟨10, 1, true⟩, ⟨10, 1, true⟩]
    homogenous_rows := false, homogenous_columns := false, end_align := false
    column_gap := 2, row_gap := 0, valign := 0, halign := 0, column_major := false
    first_of_batch := false, a_wrap := 0, max_extent_a := 0, max_extent_b := 0 }

/-- A child with width and height exchanged. -/
def transpose_child (c : Child) : Child :=
  ⟨c.natural_height, c.natural_width, c.visible⟩

/-- A box with x and y exchanged. -/
def transpose_box (b : ClutterActorBox) : ClutterActorBox :=
  ⟨b.y1, b.x1, b.y2, b.x2⟩

/-- The transposed layout problem: every child transposed, rows and columns
exchanged in the homogeneity flags, gaps and alignments, and the orientation
flipped. -/
def transpose_priv (priv : NbtkGridPrivate) : NbtkGridPrivate :=
  { priv with
    list := priv.list.map transpose_child
    homogenous_rows := priv.homogenous_columns
    homogenous_columns := priv.homogenous_rows
    column_gap := priv.row_gap
    row_gap := priv.column_gap
    valign := priv.halign
    halign := priv.valign
    column_major := !priv.column_major }

/-- The transposition symmetry as the specification words it: the layout of
`priv` in `box` gives every child the transposed box of the layout of the
transposed problem, and the total width and height are exchanged. -/
def transposition_symmetric (priv : NbtkGridPrivate) (box : ClutterActorBox) : Prop :=
  (nbtk_grid_do_allocate priv box).placed.map (Option.map fun p => p.child_box) =
      (nbtk_grid_do_allocate (transpose_priv priv) (transpose_box box)).placed.map
        (Option.map fun p => transpose_box p.child_box) ∧
    (nbtk_grid_do_allocate priv box).actual_width =
      (nbtk_grid_do_allocate (transpose_priv priv) (transpose_box box)).actual_height ∧
    (nbtk_grid_do_allocate priv box).actual_height =
      (nbtk_grid_do_allocate (transpose_priv priv) (transpose_box box)).actual_width

/-- A column-major grid with homogeneous rows and `valign = 1` holding one
child of width 1 and height 10. -/
def column_major_sample : NbtkGridPrivate :=
  { alloc_width := 0, alloc_height := 0
    list := [⟨1, 10, true⟩]
    homogenous_rows := true, homogenous_columns := false, end_align := false
    column_gap := 0, row_gap := 0, valign := 1, halign := 0, column_major := true
    first_of_batch := false, a_wrap := 0, max_extent_a := 0, max_extent_b := 0 }

/-- The largest natural minor-axis size among the visible children of `l`, and
at least 0. -/
def max_natural_b (priv : NbtkGridPrivate) (l : List Child) : ℚ :=
  match l with
  | [] => 0
  | c :: l =>
    if c.visible then max (natural_b priv c) (max_natural_b priv l) else max_natural_b priv l

/-- The line-origin rule as the specification words it: when the child at
position `i` is the first of its line and the child at position `j` is the
first of the next line, the minor origin of the second line is that of the
first plus the largest natural minor size on the first line plus one
minor-axis gap. -/
def line_origin_rule (priv : NbtkGridPrivate) (box : ClutterActorBox) : Prop :=
  ∀ (i j : ℕ) (p q : Placed),
    (nbtk_grid_do_allocate priv box).placed[i]? = some (some p) →
    (nbtk_grid_do_allocate priv box).placed[j]? = some (some q) →
    i < j →
    (p.wrapped = false → ∀ (k : ℕ) (c : Child), k < i → priv.list[k]? = some c →
      c.visible = false) →
    (∀ (k : ℕ) (r : Placed), i < k → k < j →
      (nbtk_grid_do_allocate priv box).placed[k]? = some (some r) → r.wrapped = false) →
    q.wrapped = true →
    q.current_b = p.current_b + max_natural_b priv ((priv.list.drop i).take (j - i)) + bgap priv

/-- A row-major grid holding three children of size 10x1 with a row gap of 5;
it is laid out below in a width of 10, one child per line. -/
def line_gap_sample : NbtkGridPrivate :=
  { alloc_width := 0, alloc_height := 0
    list := [⟨10, 1, true⟩, ⟨10, 1, true⟩, ⟨10, 1, true⟩]
    homogenous_rows := false, homogenous_columns := false, end_align := false
    column_gap := 0, row_gap := 5, valign := 0, halign := 0, column_major := false
    first_of_batch := false, a_wrap := 0, max_extent_a := 0, max_extent_b := 0 }

/-- Two boxes overlap: their interiors have a point in common. -/
def boxes_overlap (a b : ClutterActorBox) : Prop :=
  max a.x1 b.x1 < min a.x2 b.x2 ∧ max a.y1 b.y1 < min a.y2 b.y2

/-- The no-overlap property as the claim words it: the boxes given to two
distinct children of positive width and height do not overlap. -/
def no_overlap (priv : NbtkGridPrivate) (box : ClutterActorBox) : Prop :=
  ∀ (i j : ℕ) (p q : Placed) (c d : Child), i ≠ j →
    (nbtk_grid_do_allocate priv box).placed[i]? = some (some p) →
    (nbtk_grid_do_allocate priv box).placed[j]? = some (some q) →
    priv.list[i]? = some c → priv.list[j]? = some d →
    0 < c.natural_width → 0 < c.natural_height → 0 < d.natural_width → 0 < d.natural_height →
    ¬ boxes_overlap p.child_box q.child_box

/-- A column-major grid with homogeneous columns and `halign = 1` holding
children of sizes 1x10 and 5x10; it is laid out below in a height of 10, one
child per column. -/
def overlap_sample : NbtkGridPrivate :=
  { alloc_width := 0, alloc_height := 0
    list := [⟨1, 10, true⟩, ⟨5, 10, true⟩]
    homogenous_rows := false, homogenous_columns := true, end_align := false
    column_gap := 0, row_gap := 0, valign := 0, halign := 1, column_major := true
    first_of_batch := false, a_wrap := 0, max_extent_a := 0, max_extent_b := 0 }

/-- The loop state `st` lies past the placement `p`: the line has moved beyond
the major end of `p`, or a later line has started beyond its minor end. -/
def line_separated (priv : NbtkGridPrivate) (p : Placed) (st : LoopState) : Prop :=
  (priv.end_align = true → st.first_of_batch = false) ∧
    minor2 priv p.child_box ≤ st.next_b ∧ st.current_b ≤ st.next_b ∧
    (major2 priv p.child_box ≤ st.current_a ∨ minor2 priv p.child_box ≤ st.current_b)

/-- The sizes of a child as the placement loop needs them: non-negative, with
the major cell at least as large as the child. -/
def cell_ok (priv : NbtkGridPrivate) (c : Child) : Prop :=
  0 ≤ natural_a priv c ∧ 0 ≤ natural_b priv c ∧ 0 ≤ cell_a priv c ∧
    natural_a priv c ≤ cell_a priv c

/-- The grid `priv` with the `end_align` property set to `b`. -/
def with_end_align (priv : NbtkGridPrivate) (b : Bool) : NbtkGridPrivate :=
  { priv with end_align := b }

/-- The end-alignment property as the claim words it: laid out with
`end_align` on, every child is on the same line (the wrap test gives the same
result) and at the same minor-axis position as with `end_align` off. -/
def end_align_only_justifies (priv : NbtkGridPrivate) (box : ClutterActorBox) : Prop :=
  ∀ (i : ℕ) (p q : Placed),
    (nbtk_grid_do_allocate (with_end_align priv false) box).placed[i]? = some (some p) →
    (nbtk_grid_do_allocate (with_end_align priv true) box).placed[i]? = some (some q) →
    q.wrapped = p.wrapped ∧ minor1 priv q.child_box = minor1 priv p.child_box ∧
      minor2 priv q.child_box = minor2 priv p.child_box

/-- A row-major grid without homogeneity holding three children of width 10
with a column gap of 2; it is laid out below in a width of 34. -/
def end_align_gap_sample : NbtkGridPrivate :=
  { alloc_width := 0, alloc_height := 0
    list := [⟨10, 1, true⟩, ⟨10, 1, true⟩, ⟨10, 1, true⟩]
    homogenous_rows := false, homogenous_columns := false, end_align := false
    column_gap := 2, row_gap := 0, valign := 0, halign := 0, column_major := false
    first_of_batch := false, a_wrap := 0, max_extent_a := 0, max_extent_b := 0 }

/-- The states of the placement loop without (`a`) and with (`b`) end
alignment between two children, `iter` being the children still to place: the
two runs agree on the minor axis and `b` is ahead of `a` by the offset `s` of
the current line. At the start of the layout nothing is placed yet; afterwards
either the line is already past the wrap boundary (after an oversized child),
or what is left of the simulated row ends `s` short of the boundary. -/
def end_align_rel (P : NbtkGridPrivate) (s : ℚ) (a b : LoopState) (iter : List Child) : Prop :=
  b.current_b = a.current_b ∧ b.next_b = a.next_b ∧ b.current_a = a.current_a + s ∧ 0 ≤ s ∧
    ((b.first_of_batch = true ∧ a.current_a = 0 ∧ s = 0) ∨
      (b.first_of_batch = false ∧
        ((s = 0 ∧ P.a_wrap < a.current_a) ∨ row_extent P iter a.current_a = P.a_wrap - s)))

/-- A child the two runs can be compared on: visible, of positive major size
that does not exceed its cell. -/
def flow_ok (P : NbtkGridPrivate) (c : Child) : Prop :=
  c.visible = true ∧ 0 < natural_a P c ∧ natural_a P c ≤ cell_a P c
/-- A row-major grid without homogeneity holding three children of width 10
with no column gap; it is laid out below in a width of 25, two children on the
first line and one on the second. -/
def zero_gap_sample : NbtkGridPrivate :=
  { alloc_width := 0, alloc_height := 0
    list := [⟨10, 1, true⟩, ⟨10, 1, true⟩, ⟨10, 1, true⟩]
    homogenous_rows := false, homogenous_columns := false, end_align := false
    column_gap := 0, row_gap := 0, valign := 0, halign := 0, column_major := false
    first_of_batch := false, a_wrap := 0, max_extent_a := 0, max_extent_b := 0 }

/-- The private structure `T` poses the transposed problem of `P` to the
placement loop: the orientation is flipped and every quantity the loop reads
along the major or minor axis is the same. -/
def transposed (P T : NbtkGridPrivate) : Prop :=
  T.column_major = !P.column_major ∧ homogenous_a T = homogenous_a P ∧
    homogenous_b T = homogenous_b P ∧ agap T = agap P ∧ bgap T = bgap P ∧
    aalign T = aalign P ∧ balign T = balign P ∧ T.a_wrap = P.a_wrap ∧
    T.max_extent_a = P.max_extent_a ∧ T.max_extent_b = P.max_extent_b ∧
    T.end_align = P.end_align

/-- A loop state with the two out-parameters exchanged. -/
def transpose_state (st : LoopState) : LoopState :=
  { st with actual_width := st.actual_height, actual_height := st.actual_width }

/-- A placement with its box transposed. -/
def transpose_placed (p : Placed) : Placed :=
  { p with child_box := transpose_box p.child_box }

end NbtkGrid

namespace MxFingerScroll

/-- The GLib `GTimeVal`: seconds and microseconds. -/
structure GTimeVal where
  tv_sec : ℤ
  tv_usec : ℤ
  deriving DecidableEq

/-- The `MxFingerScrollMotion` sample of the motion buffer. -/
structure MxFingerScrollMotion where
  x : ℚ
  y : ℚ
  time : GTimeVal
  deriving DecidableEq

/-- The values of an `MxAdjustment` that the scroll engine reads through
`mx_adjustment_get_values`. -/
structure MxAdjustment where
  value : ℚ
  lower : ℚ
  upper : ℚ
  step_increment : ℚ
  page_size : ℚ
  deriving DecidableEq

/-- Modelled from the spec: `mx_adjustment_set_value` lives in `mx-adjustment.c`,
which is not among the sources. The spec describes the scroll target as a range
adjustment "supporting get/set of `value`"; the setter stores the value as given
(an unclamped axis). -/
def mx_adjustment_set_value (adj : MxAdjustment) (v : ℚ) : MxAdjustment :=
  { adj with value := v }

/-- The scrollable child of the bin, reduced to the two adjustments returned by
`mx_scrollable_get_adjustments`. -/
structure MxScrollable where
  hadjust : MxAdjustment
  vadjust : MxAdjustment
  deriving DecidableEq

/-- The enumeration `MxFingerScrollMode`. -/
inductive MxFingerScrollMode where
  | push
  | kinetic
  deriving DecidableEq

/-- A `ClutterTimeline`, reduced to the duration it was created with. -/
structure ClutterTimeline where
  duration : ℤ
  deriving DecidableEq

/-- The record `struct _MxFingerScrollPrivate`; `child` is the result of
`mx_bin_get_child`. -/
structure MxFingerScrollPrivate where
  child : Option MxScrollable
  mode : MxFingerScrollMode
  motion_buffer : List MxFingerScrollMotion
  last_motion : ℕ
  deceleration_timeline : Option ClutterTimeline
  dx : ℚ
  dy : ℚ
  decel_rate : ℚ
  accumulated_delta : ℚ
  deriving DecidableEq

/-- The zero-filled element that `g_array_set_size` appends to an array created
with `clear_ = TRUE`. -/
def zero_motion : MxFingerScrollMotion := ⟨0, 0, ⟨0, 0⟩⟩

/-- The GLib call `g_array_remove_index`. -/
def g_array_remove_index (a : List MxFingerScrollMotion) (i : ℕ) : List MxFingerScrollMotion :=
  a.eraseIdx i

/-- The GLib call `g_array_set_size`: truncate, or grow with zero-filled elements. -/
def g_array_set_size (a : List MxFingerScrollMotion) (n : ℕ) : List MxFingerScrollMotion :=
  a.take n ++ List.replicate (n - a.length) zero_motion

/-- The GLib accessor `g_array_index` used as an rvalue. -/
def g_array_index (a : List MxFingerScrollMotion) (i : ℕ) : MxFingerScrollMotion :=
  a.getD i zero_motion

/-- The function `motion_event_cb`. `pos` is the result of
`clutter_actor_transform_stage_point` (`none` when it returns FALSE) and `now`
the result of `g_get_current_time`. -/
def motion_event_cb (priv : MxFingerScrollPrivate) (pos : Option (ℚ × ℚ)) (now : GTimeVal) :
    MxFingerScrollPrivate :=
  match pos with
  | none => priv
  | some (x, y) =>
    let child1 :=
      match priv.child with
      | none => none
      | some c =>
        let motion := g_array_index priv.motion_buffer priv.last_motion
        let dx := (motion.x - x) + c.hadjust.value
        let dy := (motion.y - y) + c.vadjust.value
        some { hadjust := mx_adjustment_set_value c.hadjust dx
               vadjust := mx_adjustment_set_value c.vadjust dy }
    let last_motion1 := (priv.last_motion + 1) % 2 ^ 32
    let full : Bool := decide (last_motion1 = priv.motion_buffer.length)
    let motion_buffer1 :=
      if full then g_array_set_size (g_array_remove_index priv.motion_buffer 0) last_motion1
      else priv.motion_buffer
    let last_motion2 := if full then (last_motion1 + (2 ^ 32 - 1)) % 2 ^ 32 else last_motion1
    { priv with
      child := child1
      last_motion := last_motion2
      motion_buffer := motion_buffer1.set last_motion2 ⟨x, y, now⟩ }

/-- The round-to-nearest function `rint` of the C library in its default
rounding mode (ties go to the even integer), on exact rationals. -/
def rint (q : ℚ) : ℤ :=
  if q - ⌊q⌋ < 1 / 2 then ⌊q⌋
  else if q - ⌊q⌋ > 1 / 2 then ⌊q⌋ + 1
  else if ⌊q⌋ % 2 = 0 then ⌊q⌋ else ⌊q⌋ + 1

/-- The snap expression of `clamp_adjustments` (source lines 400-401 and
407-408): `rint ((value - lower) / step_increment) * step_increment + lower`. -/
def snap (value lower step_increment : ℚ) : ℚ :=
  (rint ((value - lower) / step_increment) : ℚ) * step_increment + lower

/-- One axis of `clamp_adjustments`: read the values, snap, write the value. -/
def clamp_adjustment (adj : MxAdjustment) : MxAdjustment :=
  mx_adjustment_set_value adj (snap adj.value adj.lower adj.step_increment)

/-- The snap property as the specification words it: the value written to an
axis is `lower + round ((value - lower) / step_increment) * step_increment`,
with `round` taking a tie to the larger integer, and it differs from the input value
by at most `step_increment / 2`. -/
def snaps_to_round (adj : MxAdjustment) : Prop :=
  (clamp_adjustment adj).value
      = adj.lower + (round ((adj.value - adj.lower) / adj.step_increment) : ℚ)
        * adj.step_increment ∧
    |(clamp_adjustment adj).value - adj.value| ≤ adj.step_increment / 2

/-- The function `clamp_adjustments`. -/
def clamp_adjustments (priv : MxFingerScrollPrivate) : MxFingerScrollPrivate :=
  match priv.child with
  | none => priv
  | some c =>
    { priv with
      child := some { hadjust := clamp_adjustment c.hadjust
                      vadjust := clamp_adjustment c.vadjust } }

/-- The function `deceleration_completed_cb`. -/
def deceleration_completed_cb (priv : MxFingerScrollPrivate) : MxFingerScrollPrivate :=
  { clamp_adjustments priv with deceleration_timeline := none }

/-- The body of the `while` loop of `deceleration_new_frame_cb` (source lines
445-454): one simulated step. The loop only runs when the child exists. -/
def decel_step (priv : MxFingerScrollPrivate) : MxFingerScrollPrivate :=
  { priv with
    child := priv.child.map fun c =>
      { hadjust := mx_adjustment_set_value c.hadjust (priv.dx + c.hadjust.value)
        vadjust := mx_adjustment_set_value c.vadjust (priv.dy + c.vadjust.value) }
    dx := priv.dx / priv.decel_rate
    dy := priv.dy / priv.decel_rate
    accumulated_delta := priv.accumulated_delta - 1000 / 60 }

/-- The `while (priv->accumulated_delta > 1000.0/60.0)` loop of
`deceleration_new_frame_cb`. -/
def decel_loop (priv : MxFingerScrollPrivate) : MxFingerScrollPrivate :=
  if priv.accumulated_delta > 1000 / 60 then decel_loop (decel_step priv) else priv
termination_by ⌈priv.accumulated_delta / (1000 / 60)⌉.toNat
decreasing_by
  simp only [decel_step]
  rename_i h
  have h1 : (priv.accumulated_delta - 1000 / 60) / (1000 / 60)
      = priv.accumulated_delta / (1000 / 60) - 1 := by ring
  have h3 : (0 : ℤ) < ⌈priv.accumulated_delta / (1000 / 60)⌉ :=
    Int.ceil_pos.mpr (by linarith)
  have h4 : ⌈priv.accumulated_delta / (1000 / 60) - 1⌉
      = ⌈priv.accumulated_delta / (1000 / 60)⌉ - 1 := Int.ceil_sub_one _
  rw [h1, h4]
  omega

/-- The test of one axis at source lines 460-461 and 468-469: the axis is
still moving inside its limits. -/
def axis_moving (d : ℚ) (adj : MxAdjustment) : Bool :=
  (decide (d > 0) && decide (adj.value < adj.upper - adj.page_size)) ||
    (decide (d < 0) && decide (adj.value > adj.lower))

/-- The value of the local `stop` of `deceleration_new_frame_cb` at source line
473, for the child `c`. -/
def deceleration_stop (priv : MxFingerScrollPrivate) (c : MxScrollable) : Bool :=
  let stop := true
  let stop := if axis_moving priv.dx c.hadjust then false else stop
  let stop := if stop then (if axis_moving priv.dy c.vadjust then false else stop) else stop
  stop

/-- The first part of `deceleration_new_frame_cb` (source lines 441-455): add
the frame delta to the accumulator and run the simulated steps. -/
def deceleration_frame_steps (priv : MxFingerScrollPrivate) (delta : ℚ) :
    MxFingerScrollPrivate :=
  decel_loop { priv with accumulated_delta := priv.accumulated_delta + delta }

/-- The function `deceleration_new_frame_cb`; `delta` is the result of
`clutter_timeline_get_delta`. -/
def deceleration_new_frame_cb (priv : MxFingerScrollPrivate) (delta : ℚ) :
    MxFingerScrollPrivate :=
  match priv.child with
  | none => priv
  | some _ =>
    let priv1 := deceleration_frame_steps priv delta
    match priv1.child with
    | none => priv1
    | some c1 => if deceleration_stop priv1 c1 then deceleration_completed_cb priv1 else priv1

/-- The coefficient `a` of `button_release_event_cb` (source line 604),
`(1 - 1 / y^(n+1)) / (1 - 1 / y)`, for a whole number of frames `n`. -/
def geometric_a (y : ℚ) (n : ℕ) : ℚ :=
  (1 - 1 / y ^ (n + 1)) / (1 - 1 / y)

/-- The distance `d` to the target step boundary of one axis (source lines
613-618 and 625-630): `ceil` for a positive push, `floor` otherwise. -/
def step_distance (v : ℚ) (adj : MxAdjustment) : ℚ :=
  let d : ℚ :=
    if v > 0 then (⌈(adj.value - adj.lower) / adj.step_increment⌉ : ℚ)
    else (⌊(adj.value - adj.lower) / adj.step_increment⌋ : ℚ)
  ((d * adj.step_increment) + adj.lower) - adj.value

/-- The step-alignment part of `button_release_event_cb` (source lines 604-631)
for the child `c` and a whole frame count `n`: `priv->dx` and `priv->dy` are
replaced by `d / a`. -/
def release_align_velocity (priv : MxFingerScrollPrivate) (c : MxScrollable) (n : ℕ) :
    MxFingerScrollPrivate :=
  let a := geometric_a priv.decel_rate n
  { priv with
    dx := step_distance priv.dx c.hadjust / a
    dy := step_distance priv.dy c.vadjust / a }

/-- The events that reach the handlers: a button press (with its button and the
result of `clutter_actor_transform_stage_point`), a pointer move, or any other
event. -/
inductive ClutterEvent where
  | button_press (button : ℕ) (pos : Option (ℚ × ℚ)) (now : GTimeVal)
  | motion (pos : Option (ℚ × ℚ)) (now : GTimeVal)
  | other
  deriving DecidableEq

/-- The function `captured_event_cb` on the private state (the pointer grab and
the signal connections are not part of the state). -/
def captured_event_cb (priv : MxFingerScrollPrivate) (event : ClutterEvent) :
    MxFingerScrollPrivate :=
  match event with
  | ClutterEvent.button_press button pos now =>
    let priv1 := { priv with last_motion := 0 }
    if button = 1 then
      match pos with
      | none => priv1
      | some (x, y) =>
        { priv1 with
          motion_buffer := priv1.motion_buffer.set 0 ⟨x, y, now⟩
          deceleration_timeline := none }
    else priv1
  | _ => priv

/-- Dispatch of one input event while the drag handlers are connected:
`captured_event_cb` sees every event and `motion_event_cb` the pointer moves. -/
def handle_event (priv : MxFingerScrollPrivate) (event : ClutterEvent) :
    MxFingerScrollPrivate :=
  match event with
  | ClutterEvent.motion pos now => motion_event_cb (captured_event_cb priv event) pos now
  | _ => captured_event_cb priv event

/-- The state after a sequence of events, oldest first. -/
def handle_events (priv : MxFingerScrollPrivate) (events : List ClutterEvent) :
    MxFingerScrollPrivate :=
  events.foldl handle_event priv

/-- The number of samples the release handler averages (source lines 520-523):
`priv->last_motion ++` followed by the loop `for (i = 0; i < priv->last_motion; i++)`. -/
def release_sample_count (priv : MxFingerScrollPrivate) : ℕ :=
  (priv.last_motion + 1) % 2 ^ 32

/-- The motion buffer has its configured capacity `N` and `last_motion` indexes
into it. -/
def buffer_ok (N : ℕ) (priv : MxFingerScrollPrivate) : Prop :=
  priv.motion_buffer.length = N ∧ priv.last_motion < N

/-- The drag gesture of the claim: a primary-button press at `p0` followed by
pointer moves at the given positions (all inside the actor, so that
`clutter_actor_transform_stage_point` succeeds). -/
def drag_events (p0 : ℚ × ℚ) (t0 : GTimeVal) (moves : List ((ℚ × ℚ) × GTimeVal)) :
    List ClutterEvent :=
  ClutterEvent.button_press 1 (some p0) t0 ::
    moves.map fun m => ClutterEvent.motion (some m.1) m.2

/-- The last pointer position of a drag: that of the last move, or the press
position when there was no move. -/
def last_position (p0 : ℚ × ℚ) (moves : List ((ℚ × ℚ) × GTimeVal)) : ℚ × ℚ :=
  match moves with
  | [] => p0
  | m :: ms => last_position m.1 ms

/-- An axis no longer moves: its velocity is zero, or it has reached its travel
limit in the direction of motion. -/
def axis_done (d : ℚ) (adj : MxAdjustment) : Prop :=
  d = 0 ∨ (d > 0 ∧ adj.value ≥ adj.upper - adj.page_size) ∨ (d < 0 ∧ adj.value ≤ adj.lower)

/-- The partial geometric sum `1 + 1/y + ... + 1/y^(k-1)` in closed form. -/
def geometric_sum (y : ℚ) (k : ℕ) : ℚ :=
  (1 - 1 / y ^ k) / (1 - 1 / y)

/-- A state in mid-deceleration used to exercise the theorems: velocity
`(20, -4)`, `decel_rate = 11/10`, both axes at `10` in `[0, 1000]` with step `5`. -/
def sample_decel : MxFingerScrollPrivate :=
  { child := some ⟨⟨10, 0, 1000, 5, 100⟩, ⟨10, 0, 1000, 5, 100⟩⟩
    mode := MxFingerScrollMode.kinetic
    motion_buffer := [zero_motion, zero_motion, zero_motion]
    last_motion := 0
    deceleration_timeline := some ⟨3660⟩
    dx := 20
    dy := -4
    decel_rate := 11 / 10
    accumulated_delta := 0 }

/-- A freshly constructed scroll state (`mx_finger_scroll_init`): a zero-filled
buffer of three samples, `decel_rate = 1.1`, with a child at `(40, 60)`. -/
def sample_init : MxFingerScrollPrivate :=
  { child := some ⟨⟨40, 0, 1000, 5, 100⟩, ⟨60, 0, 1000, 5, 100⟩⟩
    mode := MxFingerScrollMode.push
    motion_buffer := [zero_motion, zero_motion, zero_motion]
    last_motion := 0
    deceleration_timeline := none
    dx := 0
    dy := 0
    decel_rate := 11 / 10
    accumulated_delta := 0 }

/-- The function `mx_finger_scroll_stop`: a running deceleration timeline is
stopped and released; `clutter_timeline_stop` does not emit `completed`, so
`deceleration_completed_cb` does not run. -/
def mx_finger_scroll_stop (priv : MxFingerScrollPrivate) : MxFingerScrollPrivate :=
  match priv.deceleration_timeline with
  | some _ => { priv with deceleration_timeline := none }
  | none => priv

/-- The two C library functions used by `button_release_event_cb` that have no
exact rational counterpart, taken as parameters. -/
structure Libm where
  logf : ℚ → ℚ
  pow : ℚ → ℚ → ℚ

/-- The velocity clamp of `button_release_event_cb` (source lines 558-561):
`if (ABS (v) < 2) v = (v > 0) ? 2 : -2`. -/
def clamp_velocity (v : ℚ) : ℚ :=
  if |v| < 2 then (if v > 0 then 2 else -2) else v

/-- The averaging loop of `button_release_event_cb` (source lines 520-540):
after `priv->last_motion ++`, the mean position of the first `last_motion`
samples, and the sums of their `tv_sec` and `tv_usec` divided (integer division)
by `last_motion`. -/
def release_average (priv : MxFingerScrollPrivate) : ℚ × ℚ × GTimeVal :=
  let last_motion := (priv.last_motion + 1) % 2 ^ 32
  let samples := (List.range last_motion).map (g_array_index priv.motion_buffer)
  let x_origin := (samples.map fun m => m.x).sum
  let y_origin := (samples.map fun m => m.y).sum
  let tv_sec := (samples.map fun m => m.time.tv_sec).sum
  let tv_usec := (samples.map fun m => m.time.tv_usec).sum
  (x_origin / last_motion, y_origin / last_motion,
    ⟨Int.tdiv tv_sec last_motion, Int.tdiv tv_usec last_motion⟩)

/-- The local `time_diff` of `button_release_event_cb` (source lines 542-546). -/
def release_time_diff (release_time motion_time : GTimeVal) : ℤ :=
  if motion_time.tv_sec = release_time.tv_sec then
    release_time.tv_usec - motion_time.tv_usec
  else
    release_time.tv_usec + (1000000 - motion_time.tv_usec)

/-- The C conversion `(gint) n` of a non-overflowing value: truncation towards zero. -/
def gint_cast (n : ℚ) : ℤ :=
  if 0 ≤ n then ⌊n⌋ else ⌈n⌉

/-- The frame count `n` of `button_release_event_cb` (source lines 579-581):
`logf (MAX (ABS (dx), ABS (dy))) / logf (decel_rate) + 15`. -/
def release_frame_count (libm : Libm) (dx dy decel_rate : ℚ) : ℚ :=
  libm.logf (max |dx| |dy|) / libm.logf decel_rate + 15

/-- The function `button_release_event_cb` on the private state; `pos` is the
result of `clutter_actor_transform_stage_point` on the event position and
`release_time` the result of `g_get_current_time`. -/
def button_release_event_cb (libm : Libm) (priv : MxFingerScrollPrivate) (button : ℕ)
    (pos : Option (ℚ × ℚ)) (release_time : GTimeVal) : MxFingerScrollPrivate :=
  if button ≠ 1 then priv
  else
    let kinetic : Option MxFingerScrollPrivate :=
      match priv.mode, priv.child, pos with
      | MxFingerScrollMode.kinetic, some c, some (event_x, event_y) =>
        let avg := release_average priv
        let time_diff := release_time_diff release_time avg.2.2
        let frac : ℚ := ((time_diff : ℚ) / 1000) / (1000 / 60)
        let dx := clamp_velocity ((avg.1 - event_x) / frac)
        let dy := clamp_velocity ((avg.2.1 - event_y) / frac)
        let y := priv.decel_rate
        let n := release_frame_count libm dx dy y
        let a := (1 - 1 / libm.pow y (n + 1)) / (1 - 1 / y)
        some { priv with
          last_motion := (priv.last_motion + 1) % 2 ^ 32
          dx := step_distance dx c.hadjust / a
          dy := step_distance dy c.vadjust / a
          deceleration_timeline := some ⟨gint_cast n * 60⟩
          accumulated_delta := 0 }
      | _, _, _ => none
    match kinetic with
    | some p => { p with last_motion := 0 }
    | none => clamp_adjustments { priv with last_motion := 0 }

/-- The number of iterations of the `while` loop of `deceleration_new_frame_cb`,
counted alongside `decel_loop`. -/
def decel_loop_steps (priv : MxFingerScrollPrivate) : ℕ :=
  if priv.accumulated_delta > 1000 / 60 then decel_loop_steps (decel_step priv) + 1 else 0
termination_by ⌈priv.accumulated_delta / (1000 / 60)⌉.toNat
decreasing_by
  simp only [decel_step]
  rename_i h
  have h1 : (priv.accumulated_delta - 1000 / 60) / (1000 / 60)
      = priv.accumulated_delta / (1000 / 60) - 1 := by ring
  have h3 : (0 : ℤ) < ⌈priv.accumulated_delta / (1000 / 60)⌉ :=
    Int.ceil_pos.mpr (by linarith)
  have h4 : ⌈priv.accumulated_delta / (1000 / 60) - 1⌉
      = ⌈priv.accumulated_delta / (1000 / 60)⌉ - 1 := Int.ceil_sub_one _
  rw [h1, h4]
  omega

/-- The number of whole simulation steps an accumulator value pays for: the
loop runs while the accumulator is strictly above `1000/60`. -/
def frame_steps (acc : ℚ) : ℕ :=
  (⌈acc / (1000 / 60)⌉ - 1).toNat

/-- The sign-preservation property of the velocity clamp as the specification
words it: the value is unchanged when `|v| >= 2`, and otherwise has magnitude 2
and the sign of `v`. -/
def clamp_keeps_sign (v : ℚ) : Prop :=
  (2 ≤ |v| → clamp_velocity v = v) ∧
    (|v| < 2 → |clamp_velocity v| = 2 ∧
      SignType.sign (clamp_velocity v) = SignType.sign v)

/-- Values of `logf` and `pow` to four digits at the arguments the sample
release below passes: `logf (20) = 2.9957`, `logf (1.1) = 0.0953`,
`pow (1.1, n + 1) = 92`. -/
def sample_libm : Libm :=
  { logf := fun q => if q = 20 then 29957 / 10000 else if q = 11 / 10 then 953 / 10000 else 0
    pow := fun _ _ => 92 }

/-- A kinetic drag about to be released: one buffered sample at `(100, 50)`,
taken at second 7, `decel_rate = 1.1`, both axes at 12 in `[0, 10000]` with
step 5. -/
def sample_release : MxFingerScrollPrivate :=
  { child := some ⟨⟨12, 0, 10000, 5, 100⟩, ⟨12, 0, 10000, 5, 100⟩⟩
    mode := MxFingerScrollMode.kinetic
    motion_buffer := [⟨100, 50, ⟨7, 0⟩⟩, zero_motion, zero_motion]
    last_motion := 0
    deceleration_timeline := none
    dx := 0
    dy := 0
    decel_rate := 11 / 10
    accumulated_delta := 0 }

/-- The fixed-timestep property as the specification words it: a frame
callback entered with accumulator `A` and frame delta `D` runs
`floor ((A + D) / T)` steps for `T = 1000/60` ms and leaves the accumulator at
`(A + D) - steps * T`, inside `[0, T)`. -/
def fixed_timestep_floor (priv : MxFingerScrollPrivate) (delta : ℚ) : Prop :=
  (decel_loop_steps { priv with accumulated_delta := priv.accumulated_delta + delta } : ℤ)
      = ⌊(priv.accumulated_delta + delta) / (1000 / 60)⌋ ∧
    (deceleration_frame_steps priv delta).accumulated_delta
      = (priv.accumulated_delta + delta)
        - (⌊(priv.accumulated_delta + delta) / (1000 / 60)⌋ : ℚ) * (1000 / 60) ∧
    0 ≤ (deceleration_frame_steps priv delta).accumulated_delta ∧
    (deceleration_frame_steps priv delta).accumulated_delta < 1000 / 60

/-- A `GTimeVal` as a number of microseconds. -/
def timeval_usec (t : GTimeVal) : ℤ :=
  t.tv_sec * 1000000 + t.tv_usec

/-- The elapsed time of the release as the specification words it: the release
timestamp minus the arithmetic mean of the timestamps of the buffered samples
(the first `last_motion + 1` entries of the buffer), in microseconds. -/
def elapsed_since_mean (priv : MxFingerScrollPrivate) (release_time : GTimeVal) : ℚ :=
  (timeval_usec release_time : ℚ) -
    (((List.range ((priv.last_motion + 1) % 2 ^ 32)).map fun i =>
        (timeval_usec (g_array_index priv.motion_buffer i).time : ℚ)).sum
      / (((priv.last_motion + 1) % 2 ^ 32 : ℕ) : ℚ))

/-- A kinetic drag about to be released with two buffered samples, taken at
7.9 s and 8.1 s. -/
def sample_release_two : MxFingerScrollPrivate :=
  { sample_release with
    motion_buffer := [⟨100, 50, ⟨7, 900000⟩⟩, ⟨90, 50, ⟨8, 100000⟩⟩, zero_motion]
    last_motion := 1 }

/-- The per-frame velocity `(priv->dx, priv->dy)` of `button_release_event_cb`
after the clamp (source lines 516-561): the push whose direction selects
`ceil` or `floor` in the step alignment. -/
def release_push (priv : MxFingerScrollPrivate) (event_x event_y : ℚ)
    (release_time : GTimeVal) : ℚ × ℚ :=
  let avg := release_average priv
  let time_diff := release_time_diff release_time avg.2.2
  let frac : ℚ := ((time_diff : ℚ) / 1000) / (1000 / 60)
  (clamp_velocity ((avg.1 - event_x) / frac), clamp_velocity ((avg.2.1 - event_y) / frac))

/-- The coefficient `a` of `button_release_event_cb` (source line 604) for the
push `v`, with `n` the frame count of source line 581. -/
def release_coefficient (libm : Libm) (decel_rate : ℚ) (v : ℚ × ℚ) : ℚ :=
  (1 - 1 / libm.pow decel_rate (release_frame_count libm v.1 v.2 decel_rate + 1))
    / (1 - 1 / decel_rate)

/-- A rational stand-in for the two C library functions, used to exercise the
theorems: the first-order bounds `logf q = q - 1` and
`pow b e = 1 + (b - 1) * e`, which are positive, respectively above 1, where
the real functions are. -/
def linear_libm : Libm :=
  { logf := fun q => q - 1
    pow := fun b e => 1 + (b - 1) * e }
/-- The step alignment of one axis as the claim words it, for the push `v`, the
adjustment `adj`, the coefficient `a` and the velocity `d / a` the handler
stores: the planned distance `d` leads from `value` to the next step boundary
in the direction of the push (`ceil` for a positive push, `floor` otherwise),
is shorter than one step, and `d / a` does not point against the push. -/
def axis_targets_boundary (v : ℚ) (adj : MxAdjustment) (a velocity : ℚ) : Prop :=
  velocity = step_distance v adj / a ∧
    (v > 0 →
      adj.value + step_distance v adj
        = adj.lower + (⌈(adj.value - adj.lower) / adj.step_increment⌉ : ℚ) * adj.step_increment ∧
      0 ≤ step_distance v adj ∧ step_distance v adj < adj.step_increment ∧ 0 ≤ velocity) ∧
    (¬ v > 0 →
      adj.value + step_distance v adj
        = adj.lower + (⌊(adj.value - adj.lower) / adj.step_increment⌋ : ℚ) * adj.step_increment ∧
      -adj.step_increment < step_distance v adj ∧ step_distance v adj ≤ 0 ∧ velocity ≤ 0)

/-- The frame count of the scenario as the specification words it,
`n = log (x) / log (y) + 15` with `x = MAX (ABS (dx), ABS (dy))` and the exact
natural logarithm in place of `logf`. -/
noncomputable def exact_frame_count (dx dy y : ℝ) : ℝ :=
  Real.log (max |dx| |dy|) / Real.log y + 15

end MxFingerScroll

namespace MxStyle

/-- The fields of `struct _MxStylePrivate` that the loader touches; the type
`σ` of a `ccss_stylesheet_t` is a parameter. -/
structure MxStylePrivate (σ : Type) where
  stylesheet : Option σ
  image_paths : List String

/-- The error codes of `MX_STYLE_ERROR` that the loader reports. -/
inductive MxStyleError where
  | invalid_file
  deriving DecidableEq

/-- The GLib and libccss calls of `mx_style_real_load_from_file`, taken as
parameters: the regular-file test, `g_path_get_dirname`,
`ccss_grammar_create_stylesheet_from_file` (`none` for a NULL result) and
`ccss_stylesheet_add_from_file` (the stylesheet after the call and whether the
file was added). -/
structure Env (σ : Type) where
  g_file_test_is_regular : String → Bool
  g_path_get_dirname : String → Option String
  ccss_grammar_create_stylesheet_from_file : String → Option String → Option σ
  ccss_stylesheet_add_from_file : σ → String → ℕ → Option String → σ × Bool

/-- What a call of the loader leaves behind: the private structure, the return
value, the error stored through `error`, and whether `changed` was emitted. -/
structure LoadResult (σ : Type) where
  priv : MxStylePrivate σ
  ret : Bool
  error : Option MxStyleError
  changed : Bool

/-- The search-path loop of `mx_style_real_load_from_file` (source lines
127-135): on a match `path` is freed and set to NULL. The outer `none` stands
for the undefined behaviour of a further iteration, which passes the NULL
`path` to `g_str_equal`. -/
def image_path_loop (l : List String) (path : Option String) : Option (Option String) :=
  match l, path with
  | [], path => some path
  | _ :: _, none => none
  | d :: l, some p => if d = p then image_path_loop l none else image_path_loop l (some p)

/-- The function `mx_style_real_load_from_file` for a non-NULL `filename`;
`none` stands for undefined behaviour in the search-path loop. -/
def mx_style_real_load_from_file {σ : Type} (env : Env σ) (priv : MxStylePrivate σ)
    (filename : String) (priority : ℕ) : Option (LoadResult σ) :=
  if !env.g_file_test_is_regular filename then
    some ⟨priv, false, some MxStyleError.invalid_file, false⟩
  else
    match env.g_path_get_dirname filename with
    | none => some ⟨priv, true, none, false⟩
    | some path0 =>
      match image_path_loop priv.image_paths (some path0) with
      | none => none
      | some path =>
        let image_paths :=
          match path with
          | some p => priv.image_paths ++ [p]
          | none => priv.image_paths
        let stylesheet :=
          match priv.stylesheet with
          | none => env.ccss_grammar_create_stylesheet_from_file filename path
          | some s => some (env.ccss_stylesheet_add_from_file s filename priority path).1
        some ⟨⟨stylesheet, image_paths⟩, true, none, true⟩

/-- The precedence constant `CCSS_STYLESHEET_AUTHOR` of libccss (the third of
its precedence levels). -/
def CCSS_STYLESHEET_AUTHOR : ℕ := 2

/-- The function `mx_style_load_from_file`. -/
def mx_style_load_from_file {σ : Type} (env : Env σ) (priv : MxStylePrivate σ)
    (filename : String) : Option (LoadResult σ) :=
  mx_style_real_load_from_file env priv filename CCSS_STYLESHEET_AUTHOR

/-- The style information of `filename` was loaded: libccss produced a
stylesheet from it, or added it to the existing one. -/
def loaded_successfully {σ : Type} (env : Env σ) (priv : MxStylePrivate σ)
    (filename : String) (path : Option String) : Prop :=
  match priv.stylesheet with
  | none => (env.ccss_grammar_create_stylesheet_from_file filename path).isSome = true
  | some s => (env.ccss_stylesheet_add_from_file s filename CCSS_STYLESHEET_AUTHOR path).2 = true

/-- An environment in which `theme/broken.css` is a regular file that libccss
fails to load; a stylesheet is modelled by the list of files it holds. -/
def broken_env : Env (List String) :=
  { g_file_test_is_regular := fun _ => true
    g_path_get_dirname := fun _ => some "theme"
    ccss_grammar_create_stylesheet_from_file := fun _ _ => none
    ccss_stylesheet_add_from_file := fun s _ _ _ => (s, false) }

end MxStyle

namespace NbtkGrid

theorem allocate_child_wrapped (priv : NbtkGridPrivate) (st : LoopState) (child : Child)
    (rest : List Child) :
    (allocate_child priv st child rest).2.wrapped = wrap_test priv st child := rfl

theorem allocate_child_current_a (priv : NbtkGridPrivate) (st : LoopState) (child : Child)
    (rest : List Child) :
    (allocate_child priv st child rest).2.current_a =
      if (priv.end_align && (if wrap_test priv st child then true else st.first_of_batch)) then
        compute_row_start (child :: rest) (if wrap_test priv st child then 0 else st.current_a) priv
      else (if wrap_test priv st child then 0 else st.current_a) := rfl

theorem allocate_child_next_a (priv : NbtkGridPrivate) (st : LoopState) (child : Child)
    (rest : List Child) :
    (allocate_child priv st child rest).1.current_a =
      (allocate_child priv st child rest).2.current_a + cell_a priv child + agap priv := by
  unfold allocate_child cell_a natural_a
  by_cases h : homogenous_a priv = true <;> simp [h]

theorem allocate_child_major1 (priv : NbtkGridPrivate) (st : LoopState) (child : Child)
    (rest : List Child) :
    major1 priv (allocate_child priv st child rest).2.child_box =
      if homogenous_a priv then
        (allocate_child priv st child rest).2.current_a +
          (priv.max_extent_a - natural_a priv child) * aalign priv
      else (allocate_child priv st child rest).2.current_a := by
  unfold allocate_child major1 natural_a
  by_cases h : priv.column_major = true <;> simp [h]

theorem allocate_child_major2 (priv : NbtkGridPrivate) (st : LoopState) (child : Child)
    (rest : List Child) :
    major2 priv (allocate_child priv st child rest).2.child_box =
      major1 priv (allocate_child priv st child rest).2.child_box + natural_a priv child := by
  unfold allocate_child major1 major2 natural_a
  by_cases h : priv.column_major = true <;> simp [h]

theorem compute_row_start_loop_cons (priv : NbtkGridPrivate) (child : Child) (l : List Child)
    (start cur : ℚ) :
    compute_row_start_loop (child :: l) start cur priv =
      if cur + cell_a priv child + agap priv > priv.a_wrap then
        (if cur = start then start else priv.a_wrap - cur)
      else compute_row_start_loop l start (cur + cell_a priv child + agap priv) priv := rfl

theorem compute_row_start_loop_bound (priv : NbtkGridPrivate) (hgap : 0 ≤ agap priv)
    (start : ℚ) (l : List Child) :
    ∀ cur : ℚ, cur ≤ priv.a_wrap → (∀ c ∈ l, 0 ≤ cell_a priv c) →
      compute_row_start_loop l start cur priv = start ∨
        (0 ≤ compute_row_start_loop l start cur priv ∧
          compute_row_start_loop l start cur priv ≤ priv.a_wrap - cur) := by
  induction l with
  | nil =>
    intro cur hcur _
    right
    simp only [compute_row_start_loop]
    constructor <;> linarith
  | cons child l ih =>
    intro cur hcur hl
    rw [compute_row_start_loop_cons]
    have hc := hl child (List.mem_cons_self _ _)
    split_ifs with h1 h2
    · left; rfl
    · right; constructor <;> linarith
    · have h1' := not_lt.mp h1
      rcases ih _ h1' (fun c hc => hl c (List.mem_cons_of_mem _ hc)) with h | ⟨ha, hb⟩
      · left; exact h
      · right; exact ⟨ha, by linarith⟩

theorem compute_row_start_bound (priv : NbtkGridPrivate) (hgap : 0 ≤ agap priv)
    (start : ℚ) (child : Child) (rest : List Child)
    (hl : ∀ c ∈ rest, 0 ≤ cell_a priv c) :
    compute_row_start (child :: rest) start priv = start ∨
      (0 ≤ compute_row_start (child :: rest) start priv ∧
        compute_row_start (child :: rest) start priv + cell_a priv child + agap priv
          ≤ priv.a_wrap - start) := by
  unfold compute_row_start
  rw [compute_row_start_loop_cons]
  by_cases h1 : start + cell_a priv child + agap priv > priv.a_wrap
  · left
    rw [if_pos h1, if_pos rfl]
  · rw [if_neg h1]
    have h1' := not_lt.mp h1
    rcases compute_row_start_loop_bound priv hgap start rest _ h1' hl with h | ⟨ha, hb⟩
    · left; exact h
    · right; exact ⟨ha, by linarith⟩

theorem wrap_test_eq_true_iff (priv : NbtkGridPrivate) (st : LoopState) (child : Child)
    (hcell : natural_a priv child ≤ cell_a priv child) :
    wrap_test priv st child = true ↔ priv.a_wrap < st.current_a + cell_a priv child := by
  unfold wrap_test
  unfold cell_a at hcell ⊢
  by_cases h : homogenous_a priv = true
  · simp only [h, if_true, Bool.true_and, Bool.or_eq_true, decide_eq_true_eq, gt_iff_lt] at hcell ⊢
    constructor
    · rintro (h1 | h1)
      · linarith
      · exact h1
    · intro h1; exact Or.inr h1
  · simp only [h, Bool.false_and, Bool.or_false, decide_eq_true_eq, gt_iff_lt]
    simp

theorem allocate_child_bound (priv : NbtkGridPrivate) (st : LoopState) (child : Child)
    (rest : List Child) (hgap : 0 ≤ agap priv) (hal0 : 0 ≤ aalign priv)
    (hal1 : aalign priv ≤ 1) (hcur : 0 ≤ st.current_a)
    (hcell : natural_a priv child ≤ cell_a priv child) (hnat : 0 ≤ natural_a priv child)
    (hrest : ∀ c ∈ rest, 0 ≤ cell_a priv c) :
    0 ≤ (allocate_child priv st child rest).1.current_a ∧
      ((0 ≤ major1 priv (allocate_child priv st child rest).2.child_box ∧
          major2 priv (allocate_child priv st child rest).2.child_box ≤ priv.a_wrap) ∨
        (priv.a_wrap < cell_a priv child ∧
          (allocate_child priv st child rest).2.wrapped = true ∧
          priv.a_wrap < (allocate_child priv st child rest).1.current_a)) := by
  have hcell0 : 0 ≤ cell_a priv child := le_trans hnat hcell
  have hw := wrap_test_eq_true_iff priv st child hcell
  -- the row start: at the old position, at 0 after a wrap, or end-aligned
  have hA : (0 ≤ (allocate_child priv st child rest).2.current_a) ∧
      (((allocate_child priv st child rest).2.current_a + cell_a priv child ≤ priv.a_wrap) ∨
        ((allocate_child priv st child rest).2.current_a = 0 ∧
          wrap_test priv st child = true ∧ priv.a_wrap < cell_a priv child)) := by
    rw [allocate_child_current_a]
    by_cases hwt : wrap_test priv st child = true
    · simp only [hwt, if_true]
      have key : ∀ r : ℚ, (r = 0 ∨ (0 ≤ r ∧ r + cell_a priv child + agap priv ≤ priv.a_wrap - 0)) →
          0 ≤ r ∧ (r + cell_a priv child ≤ priv.a_wrap ∨
            (r = 0 ∧ True ∧ priv.a_wrap < cell_a priv child)) := by
        intro r hr
        rcases hr with hr | ⟨h0, h1⟩
        · subst hr
          refine ⟨le_rfl, ?_⟩
          by_cases hc : priv.a_wrap < cell_a priv child
          · right; exact ⟨rfl, trivial, hc⟩
          · left; linarith [not_lt.mp hc]
        · exact ⟨h0, Or.inl (by linarith)⟩
      split_ifs with hs
      · simpa using key _ (compute_row_start_bound priv hgap 0 child rest hrest)
      · simpa using key 0 (Or.inl rfl)
    · have hwf : wrap_test priv st child = false := by simpa using hwt
      have hfit : st.current_a + cell_a priv child ≤ priv.a_wrap := by
        by_contra hc
        exact hwt (hw.mpr (not_le.mp hc))
      simp only [hwf, Bool.false_eq_true, if_false]
      split_ifs with hs
      · rcases compute_row_start_bound priv hgap st.current_a child rest hrest with h | ⟨h0, h1⟩
        · rw [h]; exact ⟨hcur, Or.inl hfit⟩
        · exact ⟨h0, Or.inl (by linarith)⟩
      · exact ⟨hcur, Or.inl hfit⟩
  obtain ⟨hA0, hA1⟩ := hA
  have hnext := allocate_child_next_a priv st child rest
  have hm1 : (allocate_child priv st child rest).2.current_a
        ≤ major1 priv (allocate_child priv st child rest).2.child_box ∧
      major1 priv (allocate_child priv st child rest).2.child_box + natural_a priv child
        ≤ (allocate_child priv st child rest).2.current_a + cell_a priv child := by
    rw [allocate_child_major1]
    unfold cell_a at hcell ⊢
    by_cases h : homogenous_a priv = true
    · simp only [h, if_true] at hcell ⊢
      have hd : 0 ≤ priv.max_extent_a - natural_a priv child := by linarith
      have h1 : 0 ≤ (priv.max_extent_a - natural_a priv child) * aalign priv :=
        mul_nonneg hd hal0
      have h2 : (priv.max_extent_a - natural_a priv child) * aalign priv
          ≤ priv.max_extent_a - natural_a priv child := by
        calc (priv.max_extent_a - natural_a priv child) * aalign priv
            ≤ (priv.max_extent_a - natural_a priv child) * 1 :=
              mul_le_mul_of_nonneg_left hal1 hd
          _ = _ := by ring
      constructor <;> linarith
    · simp only [h, Bool.false_eq_true, if_false]
      constructor <;> linarith
  refine ⟨by rw [hnext]; linarith, ?_⟩
  rw [allocate_child_major2]
  rcases hA1 with hfit | ⟨hz, hwt, hover⟩
  · left
    exact ⟨by linarith [hm1.1], by linarith [hm1.2]⟩
  · right
    refine ⟨hover, hwt, ?_⟩
    rw [hnext, hz]
    linarith

theorem allocate_loop_cons_hidden (priv : NbtkGridPrivate) (st : LoopState) (child : Child)
    (rest : List Child) (h : child.visible = false) :
    allocate_loop priv st (child :: rest) =
      ((allocate_loop priv st rest).1, none :: (allocate_loop priv st rest).2) := by
  simp [allocate_loop, h]

theorem allocate_loop_cons_visible (priv : NbtkGridPrivate) (st : LoopState) (child : Child)
    (rest : List Child) (h : child.visible = true) :
    allocate_loop priv st (child :: rest) =
      ((allocate_loop priv (allocate_child priv st child rest).1 rest).1,
        some (allocate_child priv st child rest).2 ::
          (allocate_loop priv (allocate_child priv st child rest).1 rest).2) := by
  simp [allocate_loop, h]

theorem next_placed_succ (x : Option Placed) (l : List (Option Placed)) (i : ℕ) :
    next_placed (x :: l) (i + 1) = next_placed l i := rfl

theorem next_placed_zero (x : Option Placed) (l : List (Option Placed)) :
    next_placed (x :: l) 0 = l.reduceOption.head? := rfl

theorem allocate_loop_first_wrapped (priv : NbtkGridPrivate) (iter : List Child) :
    ∀ st : LoopState, priv.a_wrap < st.current_a → (∀ c ∈ iter, 0 ≤ natural_a priv c) →
      ∀ q, (allocate_loop priv st iter).2.reduceOption.head? = some q → q.wrapped = true := by
  induction iter with
  | nil =>
    intro st _ _ q hq
    simp [allocate_loop] at hq
  | cons child rest ih =>
    intro st hst hnat q hq
    by_cases hv : child.visible = true
    · rw [allocate_loop_cons_visible _ _ _ _ hv] at hq
      simp only [List.reduceOption_cons_of_some, List.head?_cons, Option.some.injEq] at hq
      rw [← hq, allocate_child_wrapped]
      have := hnat child (List.mem_cons_self _ _)
      unfold wrap_test
      simp only [Bool.or_eq_true, decide_eq_true_eq, gt_iff_lt]
      left
      linarith
    · have hv' : child.visible = false := by simpa using hv
      rw [allocate_loop_cons_hidden _ _ _ _ hv'] at hq
      simp only [List.reduceOption_cons_of_none] at hq
      exact ih st hst (fun c hc => hnat c (List.mem_cons_of_mem _ hc)) q hq

theorem allocate_loop_within (priv : NbtkGridPrivate) (hgap : 0 ≤ agap priv)
    (hal0 : 0 ≤ aalign priv) (hal1 : aalign priv ≤ 1) (iter : List Child) :
    ∀ st : LoopState, 0 ≤ st.current_a →
      (∀ c ∈ iter, 0 ≤ natural_a priv c ∧ 0 ≤ cell_a priv c ∧
        (c.visible = true → natural_a priv c ≤ cell_a priv c)) →
      ∀ (i : ℕ) (p : Placed) (c : Child),
        (allocate_loop priv st iter).2[i]? = some (some p) → iter[i]? = some c →
        (0 ≤ major1 priv p.child_box ∧ major2 priv p.child_box ≤ priv.a_wrap) ∨
          (priv.a_wrap < cell_a priv c ∧ alone_on_line (allocate_loop priv st iter).2 i p) := by
  induction iter with
  | nil =>
    intro st _ _ i p c hp
    simp [allocate_loop] at hp
  | cons child rest ih =>
    intro st hst hall i p c hp hc
    have hrest : ∀ c ∈ rest, 0 ≤ natural_a priv c ∧ 0 ≤ cell_a priv c ∧
        (c.visible = true → natural_a priv c ≤ cell_a priv c) :=
      fun c hc => hall c (List.mem_cons_of_mem _ hc)
    obtain ⟨hn, -, hcv⟩ := hall child (List.mem_cons_self _ _)
    by_cases hv : child.visible = true
    · have hb := allocate_child_bound priv st child rest hgap hal0 hal1 hst (hcv hv) hn
        (fun c hc => (hrest c hc).2.1)
      rw [allocate_loop_cons_visible _ _ _ _ hv] at hp ⊢
      cases i with
      | zero =>
        simp only [List.getElem?_cons_zero, Option.some.injEq] at hp hc
        subst hp
        subst hc
        rcases hb.2 with hgood | ⟨hover, hwr, hnext⟩
        · left; exact hgood
        · right
          refine ⟨hover, hwr, ?_⟩
          intro q hq
          rw [next_placed_zero] at hq
          exact allocate_loop_first_wrapped priv rest _ hnext (fun c hc => (hrest c hc).1) q hq
      | succ i =>
        simp only [List.getElem?_cons_succ] at hp hc
        rcases ih _ hb.1 hrest i p c hp hc with h | ⟨h1, h2, h3⟩
        · left; exact h
        · right
          exact ⟨h1, h2, fun q hq => h3 q (by rw [next_placed_succ] at hq; exact hq)⟩
    · have hv' : child.visible = false := by simpa using hv
      rw [allocate_loop_cons_hidden _ _ _ _ hv'] at hp ⊢
      cases i with
      | zero => simp at hp
      | succ i =>
        simp only [List.getElem?_cons_succ] at hp hc
        rcases ih _ hst hrest i p c hp hc with h | ⟨h1, h2, h3⟩
        · left; exact h
        · right
          exact ⟨h1, h2, fun q hq => h3 q (by rw [next_placed_succ] at hq; exact hq)⟩

theorem measure_loop_fst (l : List Child) :
    ∀ a b : ℚ, a ≤ (measure_loop l a b).1 ∧
      ∀ c ∈ l, c.visible = true → c.natural_width ≤ (measure_loop l a b).1 := by
  induction l with
  | nil => intro a b; exact ⟨le_rfl, fun c hc => absurd hc (List.not_mem_nil c)⟩
  | cons child rest ih =>
    intro a b
    by_cases hv : child.visible = true
    · have e : measure_loop (child :: rest) a b =
          measure_loop rest (if child.natural_width > a then child.natural_width else a)
            (if child.natural_height > b then child.natural_width else b) := by
        simp [measure_loop, hv]
      rw [e]
      obtain ⟨h1, h2⟩ := ih (if child.natural_width > a then child.natural_width else a)
        (if child.natural_height > b then child.natural_width else b)
      have h3 : a ≤ (if child.natural_width > a then child.natural_width else a) ∧
          child.natural_width ≤ (if child.natural_width > a then child.natural_width else a) := by
        split_ifs with h
        · exact ⟨le_of_lt h, le_rfl⟩
        · exact ⟨le_rfl, not_lt.mp h⟩
      refine ⟨le_trans h3.1 h1, ?_⟩
      intro c hc hcv
      rcases List.mem_cons.mp hc with hc | hc
      · subst hc; exact le_trans h3.2 h1
      · exact h2 c hc hcv
    · have hv' : child.visible = false := by simpa using hv
      have e : measure_loop (child :: rest) a b = measure_loop rest a b := by
        simp [measure_loop, hv']
      rw [e]
      obtain ⟨h1, h2⟩ := ih a b
      refine ⟨h1, ?_⟩
      intro c hc hcv
      rcases List.mem_cons.mp hc with hc | hc
      · subst hc; exact absurd hcv hv
      · exact h2 c hc hcv

theorem allocate_setup_fields (priv : NbtkGridPrivate) (box : ClutterActorBox) :
    (allocate_setup priv box).list = priv.list ∧
      (allocate_setup priv box).column_major = priv.column_major ∧
      (allocate_setup priv box).homogenous_rows = priv.homogenous_rows ∧
      (allocate_setup priv box).homogenous_columns = priv.homogenous_columns ∧
      (allocate_setup priv box).end_align = priv.end_align ∧
      (allocate_setup priv box).column_gap = priv.column_gap ∧
      (allocate_setup priv box).row_gap = priv.row_gap ∧
      (allocate_setup priv box).halign = priv.halign ∧
      (allocate_setup priv box).valign = priv.valign := by
  unfold allocate_setup
  by_cases h : priv.column_major = true <;> simp [h]

theorem allocate_setup_row_major_max_a (priv : NbtkGridPrivate) (box : ClutterActorBox)
    (hr : priv.column_major = false) (hh : homogenous_a priv = true) :
    (allocate_setup priv box).max_extent_a = (measure_loop priv.list 0 0).1 := by
  unfold homogenous_a at hh
  simp only [hr, Bool.false_eq_true, if_false] at hh
  simp [allocate_setup, hr, homogenous_a, hh]

theorem allocate_setup_locals (priv : NbtkGridPrivate) (box : ClutterActorBox) :
    homogenous_a (allocate_setup priv box) = homogenous_a priv ∧
      homogenous_b (allocate_setup priv box) = homogenous_b priv ∧
      agap (allocate_setup priv box) = agap priv ∧
      bgap (allocate_setup priv box) = bgap priv ∧
      aalign (allocate_setup priv box) = aalign priv ∧
      balign (allocate_setup priv box) = balign priv ∧
      (∀ c, natural_a (allocate_setup priv box) c = natural_a priv c) ∧
      (∀ c, natural_b (allocate_setup priv box) c = natural_b priv c) ∧
      (∀ b, major1 (allocate_setup priv box) b = major1 priv b) ∧
      (∀ b, major2 (allocate_setup priv box) b = major2 priv b) ∧
      (∀ b, minor1 (allocate_setup priv box) b = minor1 priv b) ∧
      (∀ b, minor2 (allocate_setup priv box) b = minor2 priv b) := by
  obtain ⟨-, h2, h3, h4, -, h6, h7, h8, h9⟩ := allocate_setup_fields priv box
  simp only [homogenous_a, homogenous_b, agap, bgap, aalign, balign, natural_a, natural_b,
    major1, major2, minor1, minor2, h2, h3, h4, h6, h7, h8, h9]
  simp

theorem well_formed_locals (priv : NbtkGridPrivate) (h : well_formed priv) :
    0 ≤ agap priv ∧ 0 ≤ bgap priv ∧ 0 ≤ aalign priv ∧ aalign priv ≤ 1 ∧
      0 ≤ balign priv ∧ balign priv ≤ 1 ∧
      ∀ c ∈ priv.list, 0 ≤ natural_a priv c ∧ 0 ≤ natural_b priv c := by
  obtain ⟨h1, h2, h3, h4, h5, h6, h7⟩ := h
  unfold agap bgap aalign balign natural_a natural_b
  by_cases hc : priv.column_major = true
  · simp only [hc, if_true]
    exact ⟨h3, h2, h6, h7, h4, h5, fun c hc => ⟨(h1 c hc).2, (h1 c hc).1⟩⟩
  · simp only [hc, Bool.false_eq_true, if_false]
    exact ⟨h2, h3, h4, h5, h6, h7, fun c hc => ⟨(h1 c hc).1, (h1 c hc).2⟩⟩

theorem homogeneous_sample_placed :
    (nbtk_grid_do_allocate homogeneous_sample ⟨0, 0, 10, 100⟩).placed =
      [some ⟨⟨15, 0, 20, 1⟩, true, 0, 0, 1⟩, some ⟨⟨0, 1, 20, 2⟩, true, 0, 1, 1⟩] ∧
    (nbtk_grid_do_allocate homogeneous_sample ⟨0, 0, 10, 100⟩).priv.a_wrap = 10 := by
  simp [nbtk_grid_do_allocate, homogeneous_sample, allocate_setup, allocate_loop, allocate_child,
    measure_loop, homogenous_a, homogenous_b, aalign, balign, agap, bgap, compute_row_height,
    compute_row_start, compute_row_start_loop]
  norm_num

/-- C1, as stated, fails: in a row-major grid with homogeneous columns,
`halign = 1` and children of widths 5 and 20 laid out in a width of 10, the
first child (own width 5, not oversized) is placed at `[15, 20]`, outside
`[0, 10]`. -/
theorem within_wrap_fails :
    well_formed homogeneous_sample ∧ ¬ within_wrap homogeneous_sample ⟨0, 0, 10, 100⟩ := by
  constructor
  · simp [well_formed, homogeneous_sample]
  · intro h
    have h0 := h 0 ⟨⟨15, 0, 20, 1⟩, true, 0, 0, 1⟩ ⟨5, 1, true⟩
      (by rw [homogeneous_sample_placed.1]; rfl) rfl
    rw [homogeneous_sample_placed.2] at h0
    simp only [major1, major2, natural_a, homogeneous_sample] at h0
    norm_num at h0

/-- C1, amended: for non-negative sizes and gaps and alignments in `[0, 1]`,
with a major axis that is not homogeneous, or homogeneous in row-major
orientation, every placed box lies within `[0, a_wrap]` on the major axis,
except for a child that is alone on its line and whose own major size, or with
a homogeneous major axis the common cell size `max_extent_a`, exceeds `a_wrap`. -/
theorem placed_within_wrap (priv : NbtkGridPrivate) (box : ClutterActorBox)
    (hwf : well_formed priv)
    (hdesign : homogenous_a priv = true → priv.column_major = false)
    (i : ℕ) (p : Placed) (c : Child)
    (hp : (nbtk_grid_do_allocate priv box).placed[i]? = some (some p))
    (hc : priv.list[i]? = some c) :
    (0 ≤ major1 priv p.child_box ∧
        major2 priv p.child_box ≤ (nbtk_grid_do_allocate priv box).priv.a_wrap) ∨
      (((nbtk_grid_do_allocate priv box).priv.a_wrap < natural_a priv c ∨
          (homogenous_a priv = true ∧
            (nbtk_grid_do_allocate priv box).priv.a_wrap
              < (nbtk_grid_do_allocate priv box).priv.max_extent_a)) ∧
        alone_on_line (nbtk_grid_do_allocate priv box).placed i p) := by
  obtain ⟨hha, -, hag, -, haa, -, hna, -, hm1, hm2, -, -⟩ := allocate_setup_locals priv box
  obtain ⟨hl, -⟩ := allocate_setup_fields priv box
  obtain ⟨hgap, -, hal0, hal1, -, -, hsz⟩ := well_formed_locals priv hwf
  have hcell : ∀ c ∈ (allocate_setup priv box).list,
      0 ≤ natural_a (allocate_setup priv box) c ∧ 0 ≤ cell_a (allocate_setup priv box) c ∧
        (c.visible = true → natural_a (allocate_setup priv box) c
          ≤ cell_a (allocate_setup priv box) c) := by
    intro c hc
    rw [hl] at hc
    rw [hna]
    refine ⟨(hsz c hc).1, ?_, ?_⟩
    · unfold cell_a
      rw [hha, hna]
      by_cases hh : homogenous_a priv = true
      · simp only [hh, if_true]
        rw [allocate_setup_row_major_max_a priv box (hdesign hh) hh]
        exact (measure_loop_fst priv.list 0 0).1
      · simp only [hh, Bool.false_eq_true, if_false]
        exact (hsz c hc).1
    · intro hv
      unfold cell_a
      rw [hha, hna]
      by_cases hh : homogenous_a priv = true
      · simp only [hh, if_true]
        rw [allocate_setup_row_major_max_a priv box (hdesign hh) hh]
        have := (measure_loop_fst priv.list 0 0).2 c hc hv
        unfold natural_a
        rw [hdesign hh]
        simpa using this
      · simp only [hh, Bool.false_eq_true, if_false]
        exact le_rfl
  have hloop := allocate_loop_within (allocate_setup priv box) (by rw [hag]; exact hgap)
    (by rw [haa]; exact hal0) (by rw [haa]; exact hal1) (allocate_setup priv box).list
    ⟨0, 0, 0, true, 0, 0⟩ le_rfl hcell i p c hp (by rw [hl]; exact hc)
  rw [hm1, hm2] at hloop
  rcases hloop with h | ⟨h1, h2⟩
  · left; exact h
  · right
    refine ⟨?_, h2⟩
    unfold cell_a at h1
    rw [hha, hna] at h1
    by_cases hh : homogenous_a priv = true
    · simp only [hh, if_true] at h1
      right; exact ⟨hh, h1⟩
    · simp only [hh, Bool.false_eq_true, if_false] at h1
      left; exact h1

theorem placed_within_wrap_witness :
    (well_formed homogeneous_sample ∧
      (homogenous_a homogeneous_sample = true → homogeneous_sample.column_major = false)) ∧
      ((0 ≤ major1 homogeneous_sample (⟨⟨15, 0, 20, 1⟩, true, 0, 0, 1⟩ : Placed).child_box ∧
        major2 homogeneous_sample (⟨⟨15, 0, 20, 1⟩, true, 0, 0, 1⟩ : Placed).child_box
          ≤ (nbtk_grid_do_allocate homogeneous_sample ⟨0, 0, 10, 100⟩).priv.a_wrap) ∨
      (((nbtk_grid_do_allocate homogeneous_sample ⟨0, 0, 10, 100⟩).priv.a_wrap
            < natural_a homogeneous_sample ⟨5, 1, true⟩ ∨
          (homogenous_a homogeneous_sample = true ∧
            (nbtk_grid_do_allocate homogeneous_sample ⟨0, 0, 10, 100⟩).priv.a_wrap
              < (nbtk_grid_do_allocate homogeneous_sample ⟨0, 0, 10, 100⟩).priv.max_extent_a)) ∧
        alone_on_line (nbtk_grid_do_allocate homogeneous_sample ⟨0, 0, 10, 100⟩).placed 0
          ⟨⟨15, 0, 20, 1⟩, true, 0, 0, 1⟩)) :=
  ⟨⟨by simp [well_formed, homogeneous_sample], fun _ => rfl⟩,
    placed_within_wrap homogeneous_sample ⟨0, 0, 10, 100⟩ (by simp [well_formed, homogeneous_sample])
      (fun _ => rfl) 0 ⟨⟨15, 0, 20, 1⟩, true, 0, 0, 1⟩ ⟨5, 1, true⟩
      (by rw [homogeneous_sample_placed.1]; rfl) rfl⟩

theorem end_align_homogeneous_sample_placed :
    (nbtk_grid_do_allocate end_align_homogeneous_sample ⟨0, 0, 30, 100⟩).placed =
      [some ⟨⟨10, 0, 20, 1⟩, false, 10, 0, 1⟩, some ⟨⟨20, 0, 22, 1⟩, false, 20, 0, 1⟩] ∧
    (nbtk_grid_do_allocate end_align_homogeneous_sample ⟨0, 0, 30, 100⟩).priv.a_wrap = 30 := by
  simp [nbtk_grid_do_allocate, end_align_homogeneous_sample, allocate_setup, allocate_loop,
    allocate_child, measure_loop, homogenous_a, homogenous_b, aalign, balign, agap, bgap,
    compute_row_height, compute_row_start, compute_row_start_loop]
  norm_num

theorem end_align_sample_placed :
    (nbtk_grid_do_allocate end_align_sample ⟨0, 0, 30, 100⟩).placed =
      [some ⟨⟨6, 0, 16, 1⟩, false, 6, 0, 1⟩, some ⟨⟨18, 0, 28, 1⟩, false, 18, 0, 1⟩,
        some ⟨⟨18, 1, 28, 2⟩, true, 18, 1, 1⟩] ∧
    (nbtk_grid_do_allocate end_align_sample ⟨0, 0, 30, 100⟩).priv.a_wrap = 30 := by
  simp [nbtk_grid_do_allocate, end_align_sample, allocate_setup, allocate_loop,
    allocate_child, measure_loop, homogenous_a, homogenous_b, aalign, balign, agap, bgap,
    compute_row_height, compute_row_start, compute_row_start_loop]
  norm_num

theorem homogeneous_rows_sample_placed :
    (nbtk_grid_do_allocate homogeneous_rows_sample ⟨0, 0, 100, 100⟩).placed =
      [some ⟨⟨0, -9, 1, 1⟩, false, 0, 0, 1⟩] ∧
    (nbtk_grid_do_allocate homogeneous_rows_sample ⟨0, 0, 100, 100⟩).priv.max_extent_b = 1 := by
  simp [nbtk_grid_do_allocate, homogeneous_rows_sample, allocate_setup, allocate_loop,
    allocate_child, measure_loop, homogenous_a, homogenous_b, aalign, balign, agap, bgap,
    compute_row_height, compute_row_start, compute_row_start_loop]
  norm_num

theorem cell_a_of_not_homogenous (priv : NbtkGridPrivate) (h : homogenous_a priv = false)
    (c : Child) : cell_a priv c = natural_a priv c := by
  simp [cell_a, h]

theorem row_extent_ge (priv : NbtkGridPrivate) (l : List Child) :
    ∀ cur : ℚ, (∀ c ∈ l, 0 ≤ cell_a priv c + agap priv) → cur ≤ row_extent priv l cur := by
  induction l with
  | nil => intro cur _; exact le_rfl
  | cons c l ih =>
    intro cur hl
    unfold row_extent
    split_ifs with h
    · exact le_rfl
    · have h1 := ih (cur + cell_a priv c + agap priv) (fun c hc => hl c (List.mem_cons_of_mem _ hc))
      have h2 := hl c (List.mem_cons_self _ _)
      linarith

theorem compute_row_start_loop_eq (priv : NbtkGridPrivate) (start : ℚ) (l : List Child) :
    ∀ cur : ℚ, start < cur → (∀ c ∈ l, 0 ≤ cell_a priv c + agap priv) →
      compute_row_start_loop l start cur priv = priv.a_wrap - row_extent priv l cur := by
  induction l with
  | nil => intro cur _ _; rfl
  | cons c l ih =>
    intro cur hcur hl
    rw [compute_row_start_loop_cons]
    unfold row_extent
    have h2 := hl c (List.mem_cons_self _ _)
    split_ifs with h1 h3
    · exact absurd h3 (ne_of_gt hcur)
    · rfl
    · exact ih _ (by linarith) (fun c hc => hl c (List.mem_cons_of_mem _ hc))

theorem compute_row_start_eq (priv : NbtkGridPrivate) (start : ℚ) (c : Child) (l : List Child)
    (hc : 0 < cell_a priv c + agap priv) (hl : ∀ c ∈ l, 0 ≤ cell_a priv c + agap priv)
    (hfit : start + cell_a priv c + agap priv ≤ priv.a_wrap) :
    compute_row_start (c :: l) start priv
      = priv.a_wrap - row_extent priv l (start + cell_a priv c + agap priv) := by
  unfold compute_row_start
  rw [compute_row_start_loop_cons, if_neg (not_lt.mpr hfit)]
  exact compute_row_start_loop_eq priv start l _ (by linarith) hl

theorem compute_row_start_overflow (priv : NbtkGridPrivate) (start : ℚ) (c : Child)
    (l : List Child) (h : priv.a_wrap < start + cell_a priv c + agap priv) :
    compute_row_start (c :: l) start priv = start := by
  unfold compute_row_start
  rw [compute_row_start_loop_cons, if_pos h, if_pos rfl]

theorem allocate_child_first_of_batch (priv : NbtkGridPrivate) (st : LoopState) (child : Child)
    (rest : List Child) (hE : priv.end_align = true) :
    (allocate_child priv st child rest).1.first_of_batch = false := by
  unfold allocate_child
  simp only [hE, Bool.true_and]
  split_ifs <;> simp_all

theorem allocate_child_end_align_cases (priv : NbtkGridPrivate) (st : LoopState) (x : Child)
    (rest : List Child) (hE : priv.end_align = true) (hH : homogenous_a priv = false)
    (hxp : 0 < natural_a priv x + agap priv)
    (hrest : ∀ c ∈ rest, 0 ≤ natural_a priv c + agap priv)
    (hinv : end_align_inv priv st (x :: rest)) :
    ((allocate_child priv st x rest).2.current_a = 0 ∧
        priv.a_wrap < natural_a priv x + agap priv) ∨
      ((∃ s : ℚ, row_extent priv rest
            ((allocate_child priv st x rest).2.current_a + natural_a priv x + agap priv - s)
            = priv.a_wrap - s) ∧
        (allocate_child priv st x rest).2.current_a + natural_a priv x + agap priv
          ≤ priv.a_wrap) ∨
      (priv.a_wrap ≤ (allocate_child priv st x rest).2.current_a ∧
        (allocate_child priv st x rest).2.current_a + natural_a priv x ≤ priv.a_wrap) := by
  have hcx := cell_a_of_not_homogenous priv hH x
  have hrest' : ∀ c ∈ rest, 0 ≤ cell_a priv c + agap priv := by
    intro c hc
    rw [cell_a_of_not_homogenous priv hH c]
    exact hrest c hc
  have hw := wrap_test_eq_true_iff priv st x (by rw [hcx])
  rw [hcx] at hw
  rw [allocate_child_current_a]
  simp only [hE, Bool.true_and]
  by_cases hstart : (if wrap_test priv st x = true then true else st.first_of_batch) = true
  · -- a new line starts at 0
    have hc0 : (if wrap_test priv st x = true then (0 : ℚ) else st.current_a) = 0 := by
      by_cases hwt : wrap_test priv st x = true
      · simp [hwt]
      · simp only [hwt, Bool.false_eq_true, if_false] at hstart ⊢
        exact hinv.1 hstart
    rw [if_pos hstart, hc0]
    by_cases hov : priv.a_wrap < 0 + cell_a priv x + agap priv
    · left
      rw [compute_row_start_overflow priv 0 x rest hov]
      rw [hcx] at hov
      exact ⟨rfl, by linarith⟩
    · right; left
      have hfit := not_lt.mp hov
      rw [compute_row_start_eq priv 0 x rest (by rw [hcx]; exact hxp) hrest' hfit]
      have hge := row_extent_ge priv rest (0 + cell_a priv x + agap priv) hrest'
      rw [hcx] at hge ⊢
      refine ⟨⟨priv.a_wrap - row_extent priv rest (0 + natural_a priv x + agap priv), ?_⟩, ?_⟩
      · have e : priv.a_wrap - row_extent priv rest (0 + natural_a priv x + agap priv)
            + natural_a priv x + agap priv
            - (priv.a_wrap - row_extent priv rest (0 + natural_a priv x + agap priv))
            = 0 + natural_a priv x + agap priv := by ring
        rw [e]
        ring
      · linarith
  · -- the line continues
    have hwt : wrap_test priv st x = false := by
      by_cases hwt : wrap_test priv st x = true
      · simp [hwt] at hstart
      · simpa using hwt
    have hfob : st.first_of_batch = false := by
      simp only [hwt, Bool.false_eq_true, if_false] at hstart
      simpa using hstart
    have hfit : st.current_a + natural_a priv x ≤ priv.a_wrap := by
      by_contra hc
      have := hw.mpr (not_le.mp hc)
      rw [hwt] at this
      exact Bool.false_ne_true this
    rw [if_neg hstart]
    simp only [hwt, Bool.false_eq_true, if_false]
    rcases hinv.2 hfob with hge | ⟨s, hs⟩
    · right; right; exact ⟨hge, hfit⟩
    · unfold row_extent at hs
      rw [hcx] at hs
      split_ifs at hs with h1
      · right; right
        exact ⟨by linarith, hfit⟩
      · right; left
        have hge := row_extent_ge priv rest (st.current_a - s + natural_a priv x + agap priv) hrest'
        refine ⟨⟨s, ?_⟩, by linarith⟩
        have e : st.current_a + natural_a priv x + agap priv - s
            = st.current_a - s + natural_a priv x + agap priv := by ring
        rw [e]
        exact hs

theorem allocate_child_end_align (priv : NbtkGridPrivate) (st : LoopState) (x : Child)
    (rest : List Child) (hE : priv.end_align = true) (hH : homogenous_a priv = false)
    (hgap : 0 ≤ agap priv)
    (hxp : 0 < natural_a priv x + agap priv)
    (hrest : ∀ c ∈ rest, 0 ≤ natural_a priv c + agap priv)
    (hinv : end_align_inv priv st (x :: rest)) :
    end_align_inv priv (allocate_child priv st x rest).1 rest ∧
      (natural_a priv x ≤ priv.a_wrap →
        (rest = [] ∨ ∃ y rest', rest = y :: rest' ∧
          wrap_test priv (allocate_child priv st x rest).1 y = true) →
        priv.a_wrap - agap priv ≤ major2 priv (allocate_child priv st x rest).2.child_box ∧
          major2 priv (allocate_child priv st x rest).2.child_box ≤ priv.a_wrap) := by
  have hcases := allocate_child_end_align_cases priv st x rest hE hH hxp hrest hinv
  have hnext := allocate_child_next_a priv st x rest
  rw [cell_a_of_not_homogenous priv hH x] at hnext
  have hfob := allocate_child_first_of_batch priv st x rest hE
  have hm2 : major2 priv (allocate_child priv st x rest).2.child_box
      = (allocate_child priv st x rest).2.current_a + natural_a priv x := by
    rw [allocate_child_major2, allocate_child_major1]
    simp [hH]
  have hrest' : ∀ c ∈ rest, 0 ≤ cell_a priv c + agap priv := by
    intro c hc
    rw [cell_a_of_not_homogenous priv hH c]
    exact hrest c hc
  rw [hm2]
  rcases hcases with ⟨ha, hov⟩ | ⟨⟨s, hs⟩, hfit⟩ | ⟨hge, hfit⟩
  · refine ⟨⟨fun h => absurd h (by rw [hfob]; exact Bool.false_ne_true), fun _ => Or.inl ?_⟩, ?_⟩
    · rw [hnext, ha]; linarith
    · intro hle _
      rw [ha]
      constructor <;> linarith
  · refine ⟨⟨fun h => absurd h (by rw [hfob]; exact Bool.false_ne_true), fun _ => Or.inr ⟨s, ?_⟩⟩, ?_⟩
    · rw [hnext]; exact hs
    · intro _ hlast
      refine ⟨?_, by linarith⟩
      rcases hlast with hnil | ⟨y, rest', hy, hwy⟩
      · subst hnil
        unfold row_extent at hs
        linarith
      · subst hy
        have hcy := cell_a_of_not_homogenous priv hH y
        have hwy' := (wrap_test_eq_true_iff priv _ y (by rw [hcy])).mp hwy
        rw [hcy, hnext] at hwy'
        unfold row_extent at hs
        rw [hcy] at hs
        split_ifs at hs with h1
        · linarith
        · have hge := row_extent_ge priv rest'
            ((allocate_child priv st x (y :: rest')).2.current_a + natural_a priv x + agap priv - s
              + natural_a priv y + agap priv)
            (fun c hc => hrest' c (List.mem_cons_of_mem _ hc))
          linarith
  · refine ⟨⟨fun h => absurd h (by rw [hfob]; exact Bool.false_ne_true), fun _ => Or.inl ?_⟩, ?_⟩
    · rw [hnext]
      have := hxp
      linarith
    · intro _ _
      constructor <;> linarith

theorem allocate_loop_end_flush (priv : NbtkGridPrivate) (hE : priv.end_align = true)
    (hH : homogenous_a priv = false) (hgap : 0 ≤ agap priv) (iter : List Child) :
    ∀ st : LoopState, end_align_inv priv st iter →
      (∀ c ∈ iter, c.visible = true ∧ 0 < natural_a priv c + agap priv) →
      ∀ (i : ℕ) (p : Placed) (c : Child),
        (allocate_loop priv st iter).2[i]? = some (some p) → iter[i]? = some c →
        natural_a priv c ≤ priv.a_wrap →
        last_on_line (allocate_loop priv st iter).2 i →
        priv.a_wrap - agap priv ≤ major2 priv p.child_box ∧
          major2 priv p.child_box ≤ priv.a_wrap := by
  induction iter with
  | nil =>
    intro st _ _ i p c hp
    simp [allocate_loop] at hp
  | cons x rest ih =>
    intro st hinv hall i p c hp hc hle hlast
    obtain ⟨hv, hxp⟩ := hall x (List.mem_cons_self _ _)
    have hrest : ∀ c ∈ rest, c.visible = true ∧ 0 < natural_a priv c + agap priv :=
      fun c hc => hall c (List.mem_cons_of_mem _ hc)
    have hstep := allocate_child_end_align priv st x rest hE hH hgap hxp
      (fun c hc => le_of_lt (hrest c hc).2) hinv
    rw [allocate_loop_cons_visible _ _ _ _ hv] at hp hlast
    cases i with
    | zero =>
      simp only [List.getElem?_cons_zero, Option.some.injEq] at hp hc
      subst hp
      subst hc
      apply hstep.2 hle
      cases rest with
      | nil => left; rfl
      | cons y rest' =>
        right
        refine ⟨y, rest', rfl, ?_⟩
        have hvy := (hrest y (List.mem_cons_self _ _)).1
        have := hlast (allocate_child priv (allocate_child priv st x (y :: rest')).1 y rest').2
          (by
            rw [next_placed_zero, allocate_loop_cons_visible _ _ _ _ hvy]
            simp)
        rw [allocate_child_wrapped] at this
        exact this
    | succ i =>
      simp only [List.getElem?_cons_succ] at hp hc
      exact ih _ hstep.1 hrest i p c hp hc hle
        (fun q hq => hlast q (by rw [next_placed_succ]; exact hq))

/-- C6, as stated, fails: in an end-aligned row-major grid with homogeneous
columns, `halign = 0`, no gap and children of widths 10 and 2 laid out in a
width of 30, the last child of the only line ends at 22, not at the wrap
boundary 30, although no child is oversized. -/
theorem end_flush_fails :
    well_formed end_align_homogeneous_sample ∧
      end_align_homogeneous_sample.end_align = true ∧
      ¬ end_flush end_align_homogeneous_sample ⟨0, 0, 30, 100⟩ := by
  refine ⟨by simp [well_formed, end_align_homogeneous_sample], rfl, ?_⟩
  intro h
  have h1 := h 1 ⟨⟨20, 0, 22, 1⟩, false, 20, 0, 1⟩
    (by rw [end_align_homogeneous_sample_placed.1]; rfl)
    (by
      intro q hq
      rw [end_align_homogeneous_sample_placed.1] at hq
      simp [next_placed] at hq)
    (by
      intro j c hj _ _
      rw [end_align_homogeneous_sample_placed.2]
      have hmem := List.getElem?_mem hj
      simp only [end_align_homogeneous_sample, List.mem_cons, List.mem_singleton,
        List.not_mem_nil, or_false] at hmem
      rcases hmem with rfl | rfl <;> norm_num [natural_a, end_align_homogeneous_sample])
  rw [end_align_homogeneous_sample_placed.2] at h1
  simp only [major2, agap, end_align_homogeneous_sample] at h1
  norm_num at h1

/-- C6, amended: in end-align mode with a major axis that is not homogeneous,
for non-negative sizes and gaps, all children visible and no child whose major
size and the major gap are both zero, the last item placed on every line that
contains no oversized item ends within one gap of the wrap boundary,
`a_wrap - major_gap <= major_end <= a_wrap`, and exactly on it when the
major-axis gap is zero. -/
theorem end_align_flush (priv : NbtkGridPrivate) (box : ClutterActorBox)
    (hwf : well_formed priv) (hE : priv.end_align = true)
    (hH : homogenous_a priv = false)
    (hvis : ∀ c ∈ priv.list, c.visible = true)
    (hpos : ∀ c ∈ priv.list, 0 < natural_a priv c + agap priv) :
    end_flush priv box := by
  intro i p hp hlast hline
  obtain ⟨hha, -, hag, -, -, -, hna, -, -, hm2, -, -⟩ := allocate_setup_locals priv box
  obtain ⟨hl, -, -, -, hea, -⟩ := allocate_setup_fields priv box
  obtain ⟨hgap, -⟩ := well_formed_locals priv hwf
  have hlen : i < priv.list.length := by
    have h1 : i < (nbtk_grid_do_allocate priv box).placed.length := by
      by_contra hc
      rw [List.getElem?_eq_none (not_lt.mp hc)] at hp
      exact Option.noConfusion hp
    have h2 : ∀ (P : NbtkGridPrivate) (l : List Child) (st : LoopState),
        (allocate_loop P st l).2.length = l.length := by
      intro P l
      induction l with
      | nil => intro st; rfl
      | cons c l ih =>
        intro st
        by_cases hv : c.visible = true
        · rw [allocate_loop_cons_visible _ _ _ _ hv]; simp [ih]
        · rw [allocate_loop_cons_hidden _ _ _ _ (by simpa using hv)]; simp [ih]
    have h3 : (nbtk_grid_do_allocate priv box).placed.length = priv.list.length := by
      show (allocate_loop _ _ (allocate_setup priv box).list).2.length = _
      rw [h2, hl]
    omega
  have hc : priv.list[i]? = some priv.list[i] := List.getElem?_eq_getElem hlen
  have hmem : priv.list[i] ∈ priv.list := List.getElem_mem hlen
  have hle := hline i priv.list[i] hc (hvis _ hmem) rfl
  have hloop := allocate_loop_end_flush (allocate_setup priv box) (by rw [hea]; exact hE)
    (by rw [hha]; exact hH) (by rw [hag]; exact hgap) (allocate_setup priv box).list
    ⟨0, 0, 0, true, 0, 0⟩ ⟨fun _ => rfl, fun h => absurd h (by simp)⟩
    (by
      intro c hc
      rw [hl] at hc
      rw [hna, hag]
      exact ⟨hvis c hc, hpos c hc⟩)
    i p priv.list[i] hp (by rw [hl]; exact hc) (by rw [hna]; exact hle) hlast
  rw [hm2, hag] at hloop
  refine ⟨hloop, ?_⟩
  intro h0
  rw [h0, sub_zero] at hloop
  exact le_antisymm hloop.2 hloop.1

theorem end_align_flush_witness :
    (well_formed end_align_sample ∧ end_align_sample.end_align = true ∧
      homogenous_a end_align_sample = false) ∧
      ((nbtk_grid_do_allocate end_align_sample ⟨0, 0, 30, 100⟩).priv.a_wrap - agap end_align_sample
          ≤ major2 end_align_sample (⟨⟨18, 0, 28, 1⟩, false, 18, 0, 1⟩ : Placed).child_box ∧
        major2 end_align_sample (⟨⟨18, 0, 28, 1⟩, false, 18, 0, 1⟩ : Placed).child_box
          ≤ (nbtk_grid_do_allocate end_align_sample ⟨0, 0, 30, 100⟩).priv.a_wrap) := by
  have hwf : well_formed end_align_sample := by simp [well_formed, end_align_sample]
  refine ⟨⟨hwf, rfl, rfl⟩, ?_⟩
  refine (end_align_flush end_align_sample ⟨0, 0, 30, 100⟩ hwf rfl rfl
    (by simp [end_align_sample])
    (by simp [end_align_sample, natural_a, agap]; norm_num)
    1 ⟨⟨18, 0, 28, 1⟩, false, 18, 0, 1⟩
    (by rw [end_align_sample_placed.1]; rfl)
    (by
      intro q hq
      rw [end_align_sample_placed.1] at hq
      simp [next_placed] at hq
      rw [← hq])
    (by
      intro j c hj _ _
      rw [end_align_sample_placed.2]
      have hmem := List.getElem?_mem hj
      simp only [end_align_sample, List.mem_cons, List.mem_singleton,
        List.not_mem_nil, or_false] at hmem
      rcases hmem with rfl | rfl | rfl <;> norm_num [natural_a, end_align_sample])).1

/-- C5, evaluated at the failing input: in a row-major grid with homogeneous
rows holding one child of width 1 and height 10 (`valign = 1`), the measurement
pass leaves `max_extent_b = 1` (the child's width, not the maximum natural
minor-axis size 10), the line cross-size used for the child is 1, and the child
is placed on the minor axis at `[-9, 1]`, which starts before its line origin 0. -/
theorem homogeneous_rows_cross_size_wrong :
    well_formed homogeneous_rows_sample ∧
      homogenous_b homogeneous_rows_sample = true ∧
      natural_b homogeneous_rows_sample ⟨1, 10, true⟩ = 10 ∧
      (nbtk_grid_do_allocate homogeneous_rows_sample ⟨0, 0, 100, 100⟩).priv.max_extent_b = 1 ∧
      ∃ p : Placed,
        (nbtk_grid_do_allocate homogeneous_rows_sample ⟨0, 0, 100, 100⟩).placed = [some p] ∧
        p.row_height = 1 ∧ p.current_b = 0 ∧
        minor1 homogeneous_rows_sample p.child_box = -9 ∧
        minor2 homogeneous_rows_sample p.child_box = 1 ∧
        ¬ (p.current_b ≤ minor1 homogeneous_rows_sample p.child_box) := by
  refine ⟨by simp [well_formed, homogeneous_rows_sample], rfl, rfl,
    homogeneous_rows_sample_placed.2, ⟨⟨0, -9, 1, 1⟩, false, 0, 0, 1⟩,
    homogeneous_rows_sample_placed.1, rfl, rfl, rfl, rfl, ?_⟩
  norm_num [minor1, homogeneous_rows_sample]

theorem allocate_loop_at (priv : NbtkGridPrivate) (Inv : LoopState → List Child → Prop)
    (hvis : ∀ st c rest, Inv st (c :: rest) → c.visible = true →
      Inv (allocate_child priv st c rest).1 rest)
    (hhid : ∀ st c rest, Inv st (c :: rest) → c.visible = false → Inv st rest)
    (iter : List Child) :
    ∀ st : LoopState, Inv st iter →
      ∀ (i : ℕ) (p : Placed) (c : Child),
        (allocate_loop priv st iter).2[i]? = some (some p) → iter[i]? = some c →
        ∃ (st1 : LoopState) (rest : List Child),
          Inv st1 (c :: rest) ∧ iter.drop i = c :: rest ∧ c.visible = true ∧
            p = (allocate_child priv st1 c rest).2 ∧
            next_placed (allocate_loop priv st iter).2 i =
              (allocate_loop priv (allocate_child priv st1 c rest).1 rest).2.reduceOption.head? := by
  induction iter with
  | nil =>
    intro st _ i p c hp
    simp [allocate_loop] at hp
  | cons x rest ih =>
    intro st hinv i p c hp hc
    by_cases hv : x.visible = true
    · rw [allocate_loop_cons_visible _ _ _ _ hv] at hp ⊢
      cases i with
      | zero =>
        simp only [List.getElem?_cons_zero, Option.some.injEq] at hp hc
        subst hc
        exact ⟨st, rest, hinv, rfl, hv, hp.symm, next_placed_zero _ _⟩
      | succ i =>
        simp only [List.getElem?_cons_succ] at hp hc
        obtain ⟨st1, rest1, h1, h2, h3, h4, h5⟩ := ih _ (hvis st x rest hinv hv) i p c hp hc
        exact ⟨st1, rest1, h1, by simpa using h2, h3, h4, by rw [next_placed_succ]; exact h5⟩
    · have hv' : x.visible = false := by simpa using hv
      rw [allocate_loop_cons_hidden _ _ _ _ hv'] at hp ⊢
      cases i with
      | zero => simp at hp
      | succ i =>
        simp only [List.getElem?_cons_succ] at hp hc
        obtain ⟨st1, rest1, h1, h2, h3, h4, h5⟩ := ih _ (hhid st x rest hinv hv') i p c hp hc
        exact ⟨st1, rest1, h1, by simpa using h2, h3, h4, by rw [next_placed_succ]; exact h5⟩

theorem allocate_child_minor2 (priv : NbtkGridPrivate) (st : LoopState) (child : Child)
    (rest : List Child) :
    minor2 priv (allocate_child priv st child rest).2.child_box =
      minor1 priv (allocate_child priv st child rest).2.child_box + natural_b priv child := by
  unfold allocate_child minor1 minor2 natural_b
  by_cases h : priv.column_major = true <;> simp [h]

theorem allocate_child_current_b (priv : NbtkGridPrivate) (st : LoopState) (child : Child)
    (rest : List Child) :
    (allocate_child priv st child rest).2.current_b =
        (if wrap_test priv st child then st.next_b + bgap priv else st.current_b) ∧
      (allocate_child priv st child rest).1.current_b =
        (allocate_child priv st child rest).2.current_b := ⟨rfl, rfl⟩

theorem allocate_setup_cell_facts (priv : NbtkGridPrivate) (box : ClutterActorBox)
    (hwf : well_formed priv)
    (hdesign : homogenous_a priv = true → priv.column_major = false) :
    ∀ c ∈ (allocate_setup priv box).list,
      0 ≤ natural_a (allocate_setup priv box) c ∧ 0 ≤ cell_a (allocate_setup priv box) c ∧
        (c.visible = true → natural_a (allocate_setup priv box) c
          ≤ cell_a (allocate_setup priv box) c) := by
  obtain ⟨hha, -, hag, -, haa, -, hna, -, hm1, hm2, -, -⟩ := allocate_setup_locals priv box
  obtain ⟨hl, -⟩ := allocate_setup_fields priv box
  obtain ⟨hgap, -, hal0, hal1, -, -, hsz⟩ := well_formed_locals priv hwf
  intro c hc
  rw [hl] at hc
  rw [hna]
  refine ⟨(hsz c hc).1, ?_, ?_⟩
  · unfold cell_a
    rw [hha, hna]
    by_cases hh : homogenous_a priv = true
    · simp only [hh, if_true]
      rw [allocate_setup_row_major_max_a priv box (hdesign hh) hh]
      exact (measure_loop_fst priv.list 0 0).1
    · simp only [hh, Bool.false_eq_true, if_false]
      exact (hsz c hc).1
  · intro hv
    unfold cell_a
    rw [hha, hna]
    by_cases hh : homogenous_a priv = true
    · simp only [hh, if_true]
      rw [allocate_setup_row_major_max_a priv box (hdesign hh) hh]
      have := (measure_loop_fst priv.list 0 0).2 c hc hv
      unfold natural_a
      rw [hdesign hh]
      simpa using this
    · simp only [hh, Bool.false_eq_true, if_false]
      exact le_rfl

theorem oversized_homogeneous_sample_placed :
    (nbtk_grid_do_allocate oversized_homogeneous_sample ⟨0, 0, 10, 100⟩).placed =
      [some ⟨⟨10, 0, 30, 1⟩, true, 0, 0, 1⟩, some ⟨⟨0, 1, 30, 2⟩, true, 0, 1, 1⟩] ∧
    (nbtk_grid_do_allocate oversized_homogeneous_sample ⟨0, 0, 10, 100⟩).priv.a_wrap = 10 := by
  simp [nbtk_grid_do_allocate, oversized_homogeneous_sample, allocate_setup, allocate_loop,
    allocate_child, measure_loop, homogenous_a, homogenous_b, aalign, balign, agap, bgap,
    compute_row_height, compute_row_start, compute_row_start_loop]
  norm_num

/-- C11, as stated, fails: in a row-major grid with homogeneous columns,
`halign = 1` and children of widths 20 and 30 laid out in a width of 10, the
first child is oversized (20 > 10) but is placed at `[10, 30]` on the major
axis, not at major position 0. -/
theorem oversized_alone_fails :
    well_formed oversized_homogeneous_sample ∧
      ¬ oversized_alone oversized_homogeneous_sample ⟨0, 0, 10, 100⟩ := by
  constructor
  · simp [well_formed, oversized_homogeneous_sample]
  · intro h
    have h0 := h 0 ⟨⟨10, 0, 30, 1⟩, true, 0, 0, 1⟩ ⟨20, 1, true⟩
      (by rw [oversized_homogeneous_sample_placed.1]; rfl) rfl
      (by
        rw [oversized_homogeneous_sample_placed.2]
        norm_num [natural_a, oversized_homogeneous_sample])
    have h1 := h0.1
    simp only [major1, oversized_homogeneous_sample] at h1
    norm_num at h1

/-- C11, amended: for non-negative sizes and gaps and alignments in `[0, 1]`,
with a major axis that is not homogeneous, or homogeneous in row-major
orientation, a child whose major size alone exceeds `a_wrap` is never split and
is the sole occupant of its line: the wrap test fires for it (whatever precedes
it is on an earlier line), its line starts at `current_a = 0`, its box has its
full natural size on both axes and starts at major position 0, or at
`(max_extent_a - size) * align` inside its cell when the major axis is
homogeneous, and the next visible child (if any) starts a fresh line. -/
theorem oversized_child_alone (priv : NbtkGridPrivate) (box : ClutterActorBox)
    (hwf : well_formed priv)
    (hdesign : homogenous_a priv = true → priv.column_major = false)
    (i : ℕ) (p : Placed) (c : Child)
    (hp : (nbtk_grid_do_allocate priv box).placed[i]? = some (some p))
    (hc : priv.list[i]? = some c)
    (hover : (nbtk_grid_do_allocate priv box).priv.a_wrap < natural_a priv c) :
    p.current_a = 0 ∧
      major1 priv p.child_box =
        (if homogenous_a priv then
          ((nbtk_grid_do_allocate priv box).priv.max_extent_a - natural_a priv c) * aalign priv
        else 0) ∧
      major2 priv p.child_box - major1 priv p.child_box = natural_a priv c ∧
      minor2 priv p.child_box - minor1 priv p.child_box = natural_b priv c ∧
      alone_on_line (nbtk_grid_do_allocate priv box).placed i p := by
  obtain ⟨hha, -, hag, -, haa, -, hna, hnb, hm1, hm2, hn1, hn2⟩ := allocate_setup_locals priv box
  obtain ⟨hl, -⟩ := allocate_setup_fields priv box
  obtain ⟨hgap, -⟩ := well_formed_locals priv hwf
  have hcell := allocate_setup_cell_facts priv box hwf hdesign
  have hgapP : 0 ≤ agap (allocate_setup priv box) := by rw [hag]; exact hgap
  obtain ⟨hgap', -, hal0, hal1, -⟩ := well_formed_locals priv hwf
  obtain ⟨st1, rest, ⟨hst, hmem⟩, hdrop, hv, hpe, hnext⟩ :=
    allocate_loop_at (allocate_setup priv box)
      (fun st iter => 0 ≤ st.current_a ∧ ∀ c ∈ iter,
        0 ≤ natural_a (allocate_setup priv box) c ∧ 0 ≤ cell_a (allocate_setup priv box) c ∧
          (c.visible = true → natural_a (allocate_setup priv box) c
            ≤ cell_a (allocate_setup priv box) c))
      (by
        intro st c rest ⟨h0, hm⟩ hv
        obtain ⟨hn, -, hcv⟩ := hm c (List.mem_cons_self _ _)
        exact ⟨(allocate_child_bound _ st c rest hgapP (by rw [haa]; exact hal0)
          (by rw [haa]; exact hal1) h0 (hcv hv) hn
          (fun c hc => (hm c (List.mem_cons_of_mem _ hc)).2.1)).1,
          fun c hc => hm c (List.mem_cons_of_mem _ hc)⟩)
      (by
        intro st c rest ⟨h0, hm⟩ _
        exact ⟨h0, fun c hc => hm c (List.mem_cons_of_mem _ hc)⟩)
      (allocate_setup priv box).list ⟨0, 0, 0, true, 0, 0⟩ ⟨le_rfl, hcell⟩ i p c hp
      (by rw [hl]; exact hc)
  obtain ⟨hn, hc0, hcv⟩ := hmem c (List.mem_cons_self _ _)
  have hle := hcv hv
  have hoverP : (allocate_setup priv box).a_wrap < natural_a (allocate_setup priv box) c := by
    rw [hna]; exact hover
  have hwt : wrap_test (allocate_setup priv box) st1 c = true :=
    (wrap_test_eq_true_iff _ st1 c hle).mpr (by linarith)
  have hcur : (allocate_child (allocate_setup priv box) st1 c rest).2.current_a = 0 := by
    rw [allocate_child_current_a]
    simp only [hwt, if_true]
    split_ifs
    · exact compute_row_start_overflow _ 0 c rest (by linarith)
    · rfl
  have hM1 := allocate_child_major1 (allocate_setup priv box) st1 c rest
  have hM2 := allocate_child_major2 (allocate_setup priv box) st1 c rest
  have hN2 := allocate_child_minor2 (allocate_setup priv box) st1 c rest
  rw [hm1, hcur, hha, haa, hna] at hM1
  rw [hm1, hm2, hna] at hM2
  rw [hn1, hn2, hnb] at hN2
  subst hpe
  refine ⟨hcur, ?_, by rw [hM2]; ring, by rw [hN2]; ring, ?_, ?_⟩
  · rw [hM1]
    by_cases hh : homogenous_a priv = true
    · simp only [hh, if_true]
      show 0 + _ = _
      rw [zero_add]
      rfl
    · simp [hh]
  · rw [allocate_child_wrapped]; exact hwt
  · intro q hq
    have hq' : (allocate_loop (allocate_setup priv box)
        (allocate_child (allocate_setup priv box) st1 c rest).1 rest).2.reduceOption.head?
        = some q := by
      rw [← hnext]; exact hq
    refine allocate_loop_first_wrapped (allocate_setup priv box) rest _ ?_
      (fun c hc => (hmem c (List.mem_cons_of_mem _ hc)).1) q hq'
    rw [allocate_child_next_a, hcur]
    linarith

theorem oversized_child_alone_witness :
    (well_formed oversized_homogeneous_sample ∧
      (nbtk_grid_do_allocate oversized_homogeneous_sample ⟨0, 0, 10, 100⟩).priv.a_wrap
        < natural_a oversized_homogeneous_sample ⟨20, 1, true⟩) ∧
      (⟨⟨10, 0, 30, 1⟩, true, 0, 0, 1⟩ : Placed).current_a = 0 ∧
      alone_on_line (nbtk_grid_do_allocate oversized_homogeneous_sample ⟨0, 0, 10, 100⟩).placed 0
        ⟨⟨10, 0, 30, 1⟩, true, 0, 0, 1⟩ := by
  have hwf : well_formed oversized_homogeneous_sample := by
    simp [well_formed, oversized_homogeneous_sample]
  have hov : (nbtk_grid_do_allocate oversized_homogeneous_sample ⟨0, 0, 10, 100⟩).priv.a_wrap
      < natural_a oversized_homogeneous_sample ⟨20, 1, true⟩ := by
    rw [oversized_homogeneous_sample_placed.2]
    norm_num [natural_a, oversized_homogeneous_sample]
  have h := oversized_child_alone oversized_homogeneous_sample ⟨0, 0, 10, 100⟩ hwf
    (fun _ => rfl) 0 ⟨⟨10, 0, 30, 1⟩, true, 0, 0, 1⟩ ⟨20, 1, true⟩
    (by rw [oversized_homogeneous_sample_placed.1]; rfl) rfl hov
  exact ⟨⟨hwf, hov⟩, h.1, h.2.2.2.2⟩

theorem total_a_nonneg (P : NbtkGridPrivate) (hgap : 0 ≤ agap P) (l : List Child)
    (h : ∀ c ∈ l, 0 ≤ cell_a P c) : 0 ≤ total_a P l := by
  induction l with
  | nil => exact le_rfl
  | cons c l ih =>
    unfold total_a
    have h1 := h c (List.mem_cons_self _ _)
    have h2 := ih (fun c hc => h c (List.mem_cons_of_mem _ hc))
    linarith

theorem visible_total_a_append (P : NbtkGridPrivate) (l : List Child) (c : Child) :
    visible_total_a P (l ++ [c])
      = visible_total_a P l + (if c.visible then cell_a P c + agap P else 0) := by
  induction l with
  | nil => simp [visible_total_a]
  | cons x l ih =>
    show (if x.visible then cell_a P x + agap P else 0) + visible_total_a P (l ++ [c]) = _
    rw [ih]
    show _ = (if x.visible then cell_a P x + agap P else 0) + visible_total_a P l + _
    ring

theorem compute_row_start_loop_all_fit (P : NbtkGridPrivate) (hgap : 0 ≤ agap P) (start : ℚ)
    (l : List Child) :
    ∀ cur : ℚ, cur + total_a P l ≤ P.a_wrap → (∀ c ∈ l, 0 ≤ cell_a P c) →
      compute_row_start_loop l start cur P = P.a_wrap - (cur + total_a P l) := by
  induction l with
  | nil => intro cur _ _; simp [compute_row_start_loop, total_a]
  | cons c l ih =>
    intro cur hfit hl
    rw [compute_row_start_loop_cons]
    have hrest : ∀ c ∈ l, 0 ≤ cell_a P c := fun c hc => hl c (List.mem_cons_of_mem _ hc)
    have h0 := total_a_nonneg P hgap l hrest
    unfold total_a at hfit ⊢
    rw [if_neg (by linarith)]
    rw [ih _ (by linarith) hrest]
    ring

theorem single_line_step (P : NbtkGridPrivate) (hgap : 0 ≤ agap P) (st : LoopState)
    (c : Child) (rest : List Child) (hinv : single_line_inv P st (c :: rest))
    (hv : c.visible = true) :
    wrap_test P st c = false ∧
      (allocate_child P st c rest).2.current_b = 0 ∧
      (P.end_align = false → (allocate_child P st c rest).2.current_a = st.current_a) ∧
      single_line_inv P (allocate_child P st c rest).1 rest := by
  obtain ⟨h0, hb, hfit, hmem, hpre⟩ := hinv
  obtain ⟨hc0, hcv⟩ := hmem c (List.mem_cons_self _ _)
  have hrest : ∀ c ∈ rest, 0 ≤ cell_a P c ∧ (c.visible = true → natural_a P c ≤ cell_a P c) :=
    fun c hc => hmem c (List.mem_cons_of_mem _ hc)
  have ht := total_a_nonneg P hgap rest (fun c hc => (hrest c hc).1)
  have hfit' : st.current_a + (cell_a P c + agap P + total_a P rest) ≤ P.a_wrap := hfit
  have hwt : wrap_test P st c = false := by
    by_contra hne
    have : wrap_test P st c = true := by simpa using hne
    have := (wrap_test_eq_true_iff P st c (hcv hv)).mp this
    linarith
  have hcur : 0 ≤ (allocate_child P st c rest).2.current_a ∧
      (allocate_child P st c rest).2.current_a + (cell_a P c + agap P + total_a P rest)
        ≤ P.a_wrap ∧
      (P.end_align = false → (allocate_child P st c rest).2.current_a = st.current_a) := by
    rw [allocate_child_current_a]
    simp only [hwt, Bool.false_eq_true, if_false]
    split_ifs with hs
    · have e : compute_row_start (c :: rest) st.current_a P
          = P.a_wrap - (st.current_a + total_a P (c :: rest)) :=
        compute_row_start_loop_all_fit P hgap st.current_a (c :: rest) st.current_a hfit
          (fun c hc => (hmem c hc).1)
      rw [e]
      have e2 : total_a P (c :: rest) = cell_a P c + agap P + total_a P rest := rfl
      rw [e2]
      refine ⟨by linarith, by linarith, ?_⟩
      intro hE
      rw [hE] at hs
      simp at hs
    · exact ⟨h0, hfit', fun _ => rfl⟩
  have hcb := allocate_child_current_b P st c rest
  rw [hwt] at hcb
  simp only [Bool.false_eq_true, if_false] at hcb
  refine ⟨hwt, by rw [hcb.1]; exact hb, hcur.2.2, ?_⟩
  refine ⟨?_, by rw [hcb.2, hcb.1]; exact hb, ?_, hrest, ?_⟩
  · rw [allocate_child_next_a]; linarith [hcur.1]
  · rw [allocate_child_next_a]; linarith [hcur.2.1]
  · intro hE
    obtain ⟨pre, hl, hsum⟩ := hpre hE
    refine ⟨pre ++ [c], by rw [hl]; simp, ?_⟩
    rw [allocate_child_next_a, hcur.2.2 hE, visible_total_a_append, hsum]
    simp [hv]
    ring

theorem single_line_skip (P : NbtkGridPrivate) (hgap : 0 ≤ agap P) (st : LoopState)
    (c : Child) (rest : List Child) (hinv : single_line_inv P st (c :: rest))
    (hv : c.visible = false) : single_line_inv P st rest := by
  obtain ⟨h0, hb, hfit, hmem, hpre⟩ := hinv
  obtain ⟨hc0, -⟩ := hmem c (List.mem_cons_self _ _)
  have hfit' : st.current_a + (cell_a P c + agap P + total_a P rest) ≤ P.a_wrap := hfit
  refine ⟨h0, hb, by linarith, fun c hc => hmem c (List.mem_cons_of_mem _ hc), ?_⟩
  intro hE
  obtain ⟨pre, hl, hsum⟩ := hpre hE
  refine ⟨pre ++ [c], by rw [hl]; simp, ?_⟩
  rw [visible_total_a_append, hsum]
  simp [hv]

theorem homogeneous_sample_wide_placed :
    (nbtk_grid_do_allocate homogeneous_sample ⟨0, 0, 1000, 100⟩).placed =
      [some ⟨⟨15, 0, 20, 1⟩, false, 0, 0, 1⟩, some ⟨⟨20, 0, 40, 1⟩, false, 20, 0, 1⟩] ∧
    (allocate_setup homogeneous_sample ⟨0, 0, 1000, 100⟩).a_wrap = 1000 ∧
    (allocate_setup homogeneous_sample ⟨0, 0, 1000, 100⟩).max_extent_a = 20 := by
  simp [nbtk_grid_do_allocate, homogeneous_sample, allocate_setup, allocate_loop,
    allocate_child, measure_loop, homogenous_a, homogenous_b, aalign, balign, agap, bgap,
    compute_row_height, compute_row_start, compute_row_start_loop]
  norm_num

/-- C12, as stated, fails: in a row-major grid with homogeneous columns,
`halign = 1` and children of widths 5 and 20 laid out in a width of 1000 (far
above the homogenized sizes, 40 in all), nothing wraps, but the first child is
placed at major origin 15, not at the sum 0 of the sizes and gaps before it. -/
theorem single_line_fails :
    well_formed homogeneous_sample ∧ homogeneous_sample.end_align = false ∧
      ¬ single_line homogeneous_sample ⟨0, 0, 1000, 100⟩ := by
  refine ⟨by simp [well_formed, homogeneous_sample], rfl, ?_⟩
  intro h
  have hfit : total_a (allocate_setup homogeneous_sample ⟨0, 0, 1000, 100⟩)
      homogeneous_sample.list ≤ (allocate_setup homogeneous_sample ⟨0, 0, 1000, 100⟩).a_wrap := by
    rw [homogeneous_sample_wide_placed.2.1]
    simp only [homogeneous_sample, total_a, cell_a, agap]
    rw [show homogenous_a (allocate_setup
      { alloc_width := 0, alloc_height := 0
        list := [⟨5, 1, true⟩, ⟨20, 1, true⟩]
        homogenous_rows := false, homogenous_columns := true, end_align := false
        column_gap := 0, row_gap := 0, valign := 0, halign := 1, column_major := false
        first_of_batch := false, a_wrap := 0, max_extent_a := 0, max_extent_b := 0 }
      ⟨0, 0, 1000, 100⟩) = true from rfl]
    have := homogeneous_sample_wide_placed.2.2
    simp only [homogeneous_sample] at this
    simp only [this, if_true]
    norm_num [allocate_setup]
  have h0 := (h hfit 0 ⟨⟨15, 0, 20, 1⟩, false, 0, 0, 1⟩
    (by rw [homogeneous_sample_wide_placed.1]; rfl)).2.2 rfl
  simp [major1, homogeneous_sample, visible_total_a] at h0

/-- C12, amended: for non-negative sizes and gaps and alignments in `[0, 1]`,
with a major axis that is not homogeneous, or homogeneous in row-major
orientation, when `a_wrap` is at least the sum over all children of the size
the child occupies (its natural major size, or `max_extent_a` when the major
axis is homogeneous) plus one gap, the wrap test is false for every item and
the layout is a single line: every item has minor line origin 0 and, with
`end_align` off, the cell of item `i` starts at the sum of the cells and gaps of
the visible items before it; the box starts there when the major axis is not
homogeneous and `(max_extent_a - size) * align` further when it is. -/
theorem single_line_layout (priv : NbtkGridPrivate) (box : ClutterActorBox)
    (hwf : well_formed priv)
    (hdesign : homogenous_a priv = true → priv.column_major = false)
    (hfit : total_a (allocate_setup priv box) priv.list ≤ (allocate_setup priv box).a_wrap)
    (i : ℕ) (p : Placed) (c : Child)
    (hp : (nbtk_grid_do_allocate priv box).placed[i]? = some (some p))
    (hc : priv.list[i]? = some c) :
    p.wrapped = false ∧ p.current_b = 0 ∧
      (priv.end_align = false →
        p.current_a = visible_total_a (allocate_setup priv box) (priv.list.take i) ∧
        major1 priv p.child_box = p.current_a +
          (if homogenous_a priv then
            ((allocate_setup priv box).max_extent_a - natural_a priv c) * aalign priv
          else 0)) := by
  obtain ⟨hha, -, hag, -, haa, -, hna, -, hm1, -, -, -⟩ := allocate_setup_locals priv box
  obtain ⟨hl, -, -, -, hea, -⟩ := allocate_setup_fields priv box
  obtain ⟨hgap, -⟩ := well_formed_locals priv hwf
  have hcell := allocate_setup_cell_facts priv box hwf hdesign
  have hgapP : 0 ≤ agap (allocate_setup priv box) := by rw [hag]; exact hgap
  obtain ⟨st1, rest, hinv, hdrop, hv, hpe, -⟩ :=
    allocate_loop_at (allocate_setup priv box) (single_line_inv (allocate_setup priv box))
      (fun st c rest h hv => (single_line_step _ hgapP st c rest h hv).2.2.2)
      (fun st c rest h hv => single_line_skip _ hgapP st c rest h hv)
      (allocate_setup priv box).list ⟨0, 0, 0, true, 0, 0⟩
      ⟨le_rfl, rfl, by rw [hl]; simpa using hfit,
        fun c hc => ⟨(hcell c hc).2.1, (hcell c hc).2.2⟩,
        fun _ => ⟨[], rfl, rfl⟩⟩
      i p c hp (by rw [hl]; exact hc)
  obtain ⟨hwt, hb, hca, -⟩ := single_line_step _ hgapP st1 c rest hinv hv
  subst hpe
  refine ⟨by rw [allocate_child_wrapped]; exact hwt, hb, ?_⟩
  intro hE
  have hE' : (allocate_setup priv box).end_align = false := by rw [hea]; exact hE
  obtain ⟨pre, hpre, hsum⟩ := hinv.2.2.2.2 hE'
  have hpre' : pre = priv.list.take i := by
    have e : (allocate_setup priv box).list
        = (allocate_setup priv box).list.take i ++ (c :: rest) := by
      rw [← hdrop, List.take_append_drop]
    have e2 : pre ++ (c :: rest) = (allocate_setup priv box).list.take i ++ (c :: rest) := by
      rw [← hpre, ← e]
    rw [← hl]
    exact List.append_cancel_right e2
  have hM1 := allocate_child_major1 (allocate_setup priv box) st1 c rest
  rw [hm1, hha, haa, hna] at hM1
  refine ⟨by rw [hca hE', hsum, hpre'], ?_⟩
  rw [hM1]
  by_cases hh : homogenous_a priv = true <;> simp [hh]

theorem single_line_layout_witness :
    (well_formed homogeneous_sample ∧ homogeneous_sample.end_align = false) ∧
      (⟨⟨20, 0, 40, 1⟩, false, 20, 0, 1⟩ : Placed).current_a
        = visible_total_a (allocate_setup homogeneous_sample ⟨0, 0, 1000, 100⟩)
            (homogeneous_sample.list.take 1) := by
  have hwf : well_formed homogeneous_sample := by simp [well_formed, homogeneous_sample]
  have hfit : total_a (allocate_setup homogeneous_sample ⟨0, 0, 1000, 100⟩)
      homogeneous_sample.list ≤ (allocate_setup homogeneous_sample ⟨0, 0, 1000, 100⟩).a_wrap := by
    have h1 : homogenous_a (allocate_setup homogeneous_sample ⟨0, 0, 1000, 100⟩) = true := rfl
    rw [homogeneous_sample_wide_placed.2.1]
    have h2 : homogeneous_sample.list = [⟨5, 1, true⟩, ⟨20, 1, true⟩] := rfl
    have h3 : agap (allocate_setup homogeneous_sample ⟨0, 0, 1000, 100⟩) = 0 := rfl
    rw [h2]
    simp only [total_a, cell_a, h1, if_true, homogeneous_sample_wide_placed.2.2, h3]
    norm_num
  exact ⟨⟨hwf, rfl⟩,
    ((single_line_layout homogeneous_sample ⟨0, 0, 1000, 100⟩ hwf (fun _ => rfl) hfit 1
      ⟨⟨20, 0, 40, 1⟩, false, 20, 0, 1⟩ ⟨20, 1, true⟩
      (by rw [homogeneous_sample_wide_placed.1]; rfl) rfl).2.2 rfl).1⟩

theorem allocate_loop_all_hidden (priv : NbtkGridPrivate) (iter : List Child) :
    ∀ st : LoopState, (∀ c ∈ iter, c.visible = false) →
      (allocate_loop priv st iter).1 = st ∧
        (allocate_loop priv st iter).2 = List.replicate iter.length none := by
  induction iter with
  | nil => intro st _; exact ⟨rfl, rfl⟩
  | cons c rest ih =>
    intro st h
    rw [allocate_loop_cons_hidden _ _ _ _ (h c (List.mem_cons_self _ _))]
    obtain ⟨h1, h2⟩ := ih st (fun c hc => h c (List.mem_cons_of_mem _ hc))
    exact ⟨h1, by simp [h2, List.replicate_succ]⟩

/-- C13: with zero items (no child at all, or only hidden children, which the
layout skips), `nbtk_grid_do_allocate` reports a total extent of `{0, 0}` and
places nothing, for every configuration and every available extent. -/
theorem zero_items_zero_extent (priv : NbtkGridPrivate) (box : ClutterActorBox)
    (h : ∀ c ∈ priv.list, c.visible = false) :
    (nbtk_grid_do_allocate priv box).actual_width = 0 ∧
      (nbtk_grid_do_allocate priv box).actual_height = 0 ∧
      (nbtk_grid_do_allocate priv box).placed.reduceOption = [] := by
  obtain ⟨hl, -⟩ := allocate_setup_fields priv box
  have hall := allocate_loop_all_hidden (allocate_setup priv box) (allocate_setup priv box).list
    ⟨0, 0, 0, true, 0, 0⟩ (by rw [hl]; exact h)
  refine ⟨?_, ?_, ?_⟩
  · show (allocate_loop _ _ _).1.actual_width = 0
    rw [hall.1]
  · show (allocate_loop _ _ _).1.actual_height = 0
    rw [hall.1]
  · show (allocate_loop _ _ _).2.reduceOption = []
    rw [hall.2]
    generalize (allocate_setup priv box).list.length = n
    induction n with
    | zero => rfl
    | succ n ih => rw [List.replicate_succ, List.reduceOption_cons_of_none]; exact ih

theorem zero_items_zero_extent_witness :
    (∀ c ∈ ({ homogeneous_sample with list := [] } : NbtkGridPrivate).list, c.visible = false) ∧
      (nbtk_grid_do_allocate { homogeneous_sample with list := [] } ⟨0, 0, 10, 100⟩).actual_width = 0 ∧
      (nbtk_grid_do_allocate { homogeneous_sample with list := [] } ⟨0, 0, 10, 100⟩).actual_height = 0 :=
  ⟨fun c hc => absurd hc (List.not_mem_nil c),
    (zero_items_zero_extent { homogeneous_sample with list := [] } ⟨0, 0, 10, 100⟩
      (fun c hc => absurd hc (List.not_mem_nil c))).1,
    (zero_items_zero_extent { homogeneous_sample with list := [] } ⟨0, 0, 10, 100⟩
      (fun c hc => absurd hc (List.not_mem_nil c))).2.1⟩

theorem allocate_setup_congr (p q : NbtkGridPrivate) (box : ClutterActorBox)
    (h : same_config p q) : allocate_setup p box = allocate_setup q box := by
  obtain ⟨h1, h2, h3, h4, h5, h6, h7, h8, h9⟩ := h
  cases p
  cases q
  simp only at h1 h2 h3 h4 h5 h6 h7 h8 h9
  subst h1 h2 h3 h4 h5 h6 h7 h8 h9
  simp [allocate_setup, homogenous_a, homogenous_b]

/-- C14: grid layout is deterministic. The boxes, the total extent and the
private structure left behind by `nbtk_grid_do_allocate` are a function of the
children, the configuration and the allocation box only: two private
structures that differ only in the scratch fields give the same result, and in
particular a call gives the same result after an earlier layout call (with any
box) as without it. -/
theorem layout_deterministic (p q : NbtkGridPrivate) (box box0 : ClutterActorBox)
    (h : same_config p q) :
    nbtk_grid_do_allocate p box = nbtk_grid_do_allocate q box ∧
      nbtk_grid_do_allocate (nbtk_grid_do_allocate p box0).priv box
        = nbtk_grid_do_allocate p box := by
  have key : ∀ a b : NbtkGridPrivate, same_config a b →
      nbtk_grid_do_allocate a box = nbtk_grid_do_allocate b box := by
    intro a b hab
    unfold nbtk_grid_do_allocate
    rw [allocate_setup_congr a b box hab]
  refine ⟨key p q h, key _ _ ?_⟩
  obtain ⟨h1, h2, h3, h4, h5, h6, h7, h8, h9⟩ := allocate_setup_fields p box0
  exact ⟨h1, h3, h4, h5, h6, h7, h9, h8, h2⟩

theorem layout_deterministic_witness :
    same_config homogeneous_sample
        { homogeneous_sample with a_wrap := 7, max_extent_a := 3, first_of_batch := true } ∧
      nbtk_grid_do_allocate homogeneous_sample ⟨0, 0, 10, 100⟩
        = nbtk_grid_do_allocate
            { homogeneous_sample with a_wrap := 7, max_extent_a := 3, first_of_batch := true }
            ⟨0, 0, 10, 100⟩ :=
  ⟨⟨rfl, rfl, rfl, rfl, rfl, rfl, rfl, rfl, rfl⟩,
    (layout_deterministic homogeneous_sample
      { homogeneous_sample with a_wrap := 7, max_extent_a := 3, first_of_batch := true }
      ⟨0, 0, 10, 100⟩ ⟨0, 0, 10, 100⟩ ⟨rfl, rfl, rfl, rfl, rfl, rfl, rfl, rfl, rfl⟩).1⟩

/-- C19, evaluated at the failing input: with homogeneous rows and children of
sizes 3x10 and 7x4, the measurement pass leaves 7 in both maxima. Row-major,
`max_extent_a = 7` is the largest natural width but `max_extent_b = 7` is not
the largest natural height 10; column-major, after the swap, `max_extent_b = 7`
is the largest minor size (width) but `max_extent_a = 7` is not the largest
major size (height) 10. -/
theorem measurement_pass_wrong :
    max_natural_width (measure_sample false).list = 7 ∧
      max_natural_height (measure_sample false).list = 10 ∧
      (homogenous_a (measure_sample false) || homogenous_b (measure_sample false)) = true ∧
      (allocate_setup (measure_sample false) ⟨0, 0, 100, 100⟩).max_extent_a = 7 ∧
      (allocate_setup (measure_sample false) ⟨0, 0, 100, 100⟩).max_extent_b = 7 ∧
      (homogenous_a (measure_sample true) || homogenous_b (measure_sample true)) = true ∧
      (allocate_setup (measure_sample true) ⟨0, 0, 100, 100⟩).max_extent_a = 7 ∧
      (allocate_setup (measure_sample true) ⟨0, 0, 100, 100⟩).max_extent_b = 7 := by
  refine ⟨?_, ?_, rfl, ?_, ?_, rfl, ?_, ?_⟩
  · norm_num [max_natural_width, measure_sample]
  · norm_num [max_natural_height, measure_sample]
  · norm_num [allocate_setup, measure_sample, measure_loop, homogenous_a, homogenous_b]
  · norm_num [allocate_setup, measure_sample, measure_loop, homogenous_a, homogenous_b]
  · norm_num [allocate_setup, measure_sample, measure_loop, homogenous_a, homogenous_b]
  · norm_num [allocate_setup, measure_sample, measure_loop, homogenous_a, homogenous_b]

theorem row_height_sample_placed :
    (nbtk_grid_do_allocate row_height_sample ⟨0, 0, 15, 100⟩).placed =
      [some ⟨⟨0, 4, 10, 5⟩, false, 0, 0, 5⟩, some ⟨⟨0, 1, 10, 6⟩, true, 0, 1, 5⟩] := by
  simp [nbtk_grid_do_allocate, row_height_sample, allocate_setup, allocate_loop,
    allocate_child, measure_loop, homogenous_a, homogenous_b, aalign, balign, agap, bgap,
    compute_row_height, compute_row_start, compute_row_start_loop]
  norm_num

/-- C20, evaluated at the failing input: in a row-major grid without
homogeneity (`valign = 1`) holding children of sizes 10x1 and 10x5 in a width
of 15, the second child wraps to the next line, yet `compute_row_height` gives
the first child a line cross-size of 5, the height of that second child, where
the only item on the first child's line has height 1; the first child is
placed at `y = [4, 5]`. -/
theorem row_height_counts_next_line :
    well_formed row_height_sample ∧ homogenous_b row_height_sample = false ∧
      ∃ p0 p1 : Placed,
        (nbtk_grid_do_allocate row_height_sample ⟨0, 0, 15, 100⟩).placed = [some p0, some p1] ∧
        p0.wrapped = false ∧ p1.wrapped = true ∧
        line_index [some p0, some p1] 0 = 0 ∧ line_index [some p0, some p1] 1 = 1 ∧
        natural_b row_height_sample ⟨10, 1, true⟩ = 1 ∧
        p0.row_height = 5 ∧
        minor1 row_height_sample p0.child_box = 4 ∧
        minor2 row_height_sample p0.child_box = 5 := by
  refine ⟨by simp [well_formed, row_height_sample], rfl,
    ⟨⟨0, 4, 10, 5⟩, false, 0, 0, 5⟩, ⟨⟨0, 1, 10, 6⟩, true, 0, 1, 5⟩,
    row_height_sample_placed, rfl, rfl, ?_, ?_, rfl, rfl, rfl, rfl⟩
  · simp [line_index, List.reduceOption]
  · simp [line_index, List.reduceOption]

theorem allocate_child_minor1 (priv : NbtkGridPrivate) (st : LoopState) (child : Child)
    (rest : List Child) :
    minor1 priv (allocate_child priv st child rest).2.child_box =
      (allocate_child priv st child rest).2.current_b +
        ((allocate_child priv st child rest).2.row_height - natural_b priv child) * balign priv := by
  unfold minor1 allocate_child natural_b
  by_cases h : priv.column_major = true <;> simp [h]

theorem compute_row_height_cons (priv : NbtkGridPrivate) (child : Child) (l : List Child)
    (best cur : ℚ) :
    compute_row_height (child :: l) best cur priv =
      if cur + cell_a priv child + agap priv > priv.a_wrap then
        (if natural_b priv child > best then natural_b priv child else best)
      else
        compute_row_height l (if natural_b priv child > best then natural_b priv child else best)
          (cur + cell_a priv child + agap priv) priv := rfl

theorem compute_row_height_ge (priv : NbtkGridPrivate) (l : List Child) :
    ∀ best cur : ℚ, best ≤ compute_row_height l best cur priv := by
  induction l with
  | nil => intro best cur; exact le_rfl
  | cons c l ih =>
    intro best cur
    rw [compute_row_height_cons]
    by_cases hb : natural_b priv c > best
    · simp only [hb, if_true]
      split_ifs
      · exact le_of_lt hb
      · exact le_trans (le_of_lt hb) (ih _ _)
    · simp only [hb, if_false]
      split_ifs
      · exact le_rfl
      · exact ih _ _

theorem allocate_child_row_height (priv : NbtkGridPrivate) (st : LoopState) (child : Child)
    (rest : List Child) :
    (homogenous_b priv = true →
        (allocate_child priv st child rest).2.row_height = priv.max_extent_b) ∧
      (homogenous_b priv = false →
        natural_b priv child ≤ (allocate_child priv st child rest).2.row_height) := by
  constructor
  · intro h
    simp [allocate_child, h]
  · intro h
    simp only [allocate_child, h, natural_b]
    refine le_trans ?_ (compute_row_height_ge priv _ _ _)
    split_ifs <;> linarith

theorem allocate_child_box_size (priv : NbtkGridPrivate) (st : LoopState) (child : Child)
    (rest : List Child) :
    (allocate_child priv st child rest).2.child_box.x2
        - (allocate_child priv st child rest).2.child_box.x1 = child.natural_width ∧
      (allocate_child priv st child rest).2.child_box.y2
        - (allocate_child priv st child rest).2.child_box.y1 = child.natural_height := by
  have hM := allocate_child_major2 priv st child rest
  have hN := allocate_child_minor2 priv st child rest
  unfold major2 major1 natural_a at hM
  unfold minor2 minor1 natural_b at hN
  by_cases h : priv.column_major = true
  · simp only [h, if_true] at hM hN
    exact ⟨by linarith, by linarith⟩
  · simp only [h, Bool.false_eq_true, if_false] at hM hN
    exact ⟨by linarith, by linarith⟩

/-- The first component of the measurement pass bounds every visible width:
after the column-major swap it is `max_extent_b`. -/
theorem allocate_setup_column_major_max_b (priv : NbtkGridPrivate) (box : ClutterActorBox)
    (hr : priv.column_major = true) (hh : homogenous_b priv = true) :
    (allocate_setup priv box).max_extent_b = (measure_loop priv.list 0 0).1 := by
  unfold homogenous_b at hh
  rw [if_pos hr] at hh
  simp [allocate_setup, homogenous_a, homogenous_b, hr, hh]

/-- A box moved by `(cell - size) * align` stays inside `[cur, cur + cell]`
when the cell is at least as large as the item and `align` lies in `[0, 1]`. -/
theorem aligned_inside_cell (cur cell size align : ℚ) (h0 : 0 ≤ align) (h1 : align ≤ 1)
    (hs : size ≤ cell) :
    cur ≤ cur + (cell - size) * align ∧ cur + (cell - size) * align + size ≤ cur + cell := by
  have hd : 0 ≤ cell - size := by linarith
  have hm : (cell - size) * align ≤ cell - size := mul_le_of_le_one_right hd h1
  have hn : 0 ≤ (cell - size) * align := mul_nonneg hd h0
  constructor <;> linarith

/-- C25: every placed box has exactly the natural size of its child on both
axes, in every configuration and orientation; homogeneity and alignment only
move it, by `(max_extent_a - natural_a) * aalign` along a homogeneous major
axis and by `(row_height - natural_b) * balign` along the minor axis. For
well-formed input without homogeneous rows the moved box stays inside its
cell on both axes. -/
theorem placed_box_natural_size (priv : NbtkGridPrivate) (box : ClutterActorBox)
    (i : ℕ) (p : Placed) (c : Child)
    (hp : (nbtk_grid_do_allocate priv box).placed[i]? = some (some p))
    (hc : priv.list[i]? = some c) :
    p.child_box.x2 - p.child_box.x1 = c.natural_width ∧
      p.child_box.y2 - p.child_box.y1 = c.natural_height ∧
      major1 priv p.child_box = p.current_a +
        (if homogenous_a priv then
          ((nbtk_grid_do_allocate priv box).priv.max_extent_a - natural_a priv c) * aalign priv
        else 0) ∧
      minor1 priv p.child_box = p.current_b + (p.row_height - natural_b priv c) * balign priv ∧
      (homogenous_b priv = true →
        p.row_height = (nbtk_grid_do_allocate priv box).priv.max_extent_b) ∧
      (well_formed priv → priv.homogenous_rows = false →
        p.current_a ≤ major1 priv p.child_box ∧
          major2 priv p.child_box ≤ p.current_a + cell_a (nbtk_grid_do_allocate priv box).priv c ∧
          p.current_b ≤ minor1 priv p.child_box ∧
          minor2 priv p.child_box ≤ p.current_b + p.row_height) := by
  obtain ⟨hha, hhb, -, -, haa, hba, hna, hnb, hm1, hm2, hn1, hn2⟩ :=
    allocate_setup_locals priv box
  obtain ⟨hl, -⟩ := allocate_setup_fields priv box
  obtain ⟨st1, rest, -, -, hv, hpe, -⟩ :=
    allocate_loop_at (allocate_setup priv box) (fun _ _ => True)
      (fun _ _ _ _ _ => trivial) (fun _ _ _ _ _ => trivial)
      (allocate_setup priv box).list ⟨0, 0, 0, true, 0, 0⟩ trivial i p c hp
      (by rw [hl]; exact hc)
  have hM1 := allocate_child_major1 (allocate_setup priv box) st1 c rest
  have hM2 := allocate_child_major2 (allocate_setup priv box) st1 c rest
  have hN1 := allocate_child_minor1 (allocate_setup priv box) st1 c rest
  have hN2 := allocate_child_minor2 (allocate_setup priv box) st1 c rest
  have hS := allocate_child_box_size (allocate_setup priv box) st1 c rest
  have hR := allocate_child_row_height (allocate_setup priv box) st1 c rest
  rw [hm1, hha, haa, hna] at hM1
  rw [hm1, hm2, hna] at hM2
  rw [hn1, hnb, hba] at hN1
  rw [hn1, hn2, hnb] at hN2
  rw [hhb, hnb] at hR
  subst hpe
  have hmaj : major1 priv (allocate_child (allocate_setup priv box) st1 c rest).2.child_box =
      (allocate_child (allocate_setup priv box) st1 c rest).2.current_a +
        (if homogenous_a priv then
          ((nbtk_grid_do_allocate priv box).priv.max_extent_a - natural_a priv c) * aalign priv
        else 0) := by
    rw [hM1]
    by_cases hh : homogenous_a priv = true
    · simp only [hh, if_true]; rfl
    · simp [hh]
  refine ⟨hS.1, hS.2, hmaj, hN1, hR.1, ?_⟩
  intro hwf hrows
  obtain ⟨-, -, hal0, hal1, hbl0, hbl1, -⟩ := well_formed_locals priv hwf
  have hcm : c ∈ priv.list := List.getElem?_mem hc
  have hdesign : homogenous_a priv = true → priv.column_major = false := by
    intro hh
    by_contra hcol
    have hcol' : priv.column_major = true := by simpa using hcol
    rw [homogenous_a, if_pos hcol', hrows] at hh
    exact Bool.noConfusion hh
  have hcell := (allocate_setup_cell_facts priv box hwf hdesign c (by rw [hl]; exact hcm)).2.2 hv
  rw [hna] at hcell
  have hca : cell_a (nbtk_grid_do_allocate priv box).priv c = cell_a (allocate_setup priv box) c :=
    rfl
  have hrow : natural_b priv c
      ≤ (allocate_child (allocate_setup priv box) st1 c rest).2.row_height := by
    by_cases hb : homogenous_b priv = true
    · have hcol : priv.column_major = true := by
        by_contra hcol
        rw [homogenous_b, if_neg hcol, hrows] at hb
        exact Bool.noConfusion hb
      rw [hR.1 hb, allocate_setup_column_major_max_b priv box hcol hb, natural_b, if_pos hcol]
      exact (measure_loop_fst priv.list 0 0).2 c hcm hv
    · exact hR.2 (by simpa using hb)
  have hB := aligned_inside_cell (allocate_child (allocate_setup priv box) st1 c rest).2.current_b
    (allocate_child (allocate_setup priv box) st1 c rest).2.row_height (natural_b priv c)
    (balign priv) hbl0 hbl1 hrow
  rw [hca, hM2, hN2, hN1]
  refine ⟨?_, ?_, hB.1, hB.2⟩
  · rw [hmaj]
    by_cases hh : homogenous_a priv = true
    · have hcell' : natural_a priv c ≤ (allocate_setup priv box).max_extent_a := by
        rw [cell_a, hha, if_pos hh] at hcell; exact hcell
      simp only [hh, if_true]
      exact (aligned_inside_cell _ _ _ _ hal0 hal1 hcell').1
    · simp [hh]
  · rw [hmaj]
    by_cases hh : homogenous_a priv = true
    · have hcell' : natural_a priv c ≤ (allocate_setup priv box).max_extent_a := by
        rw [cell_a, hha, if_pos hh] at hcell; exact hcell
      simp only [hh, if_true]
      rw [cell_a, hha, if_pos hh]
      exact (aligned_inside_cell _ _ _ _ hal0 hal1 hcell').2
    · have hh' : homogenous_a priv = false := by simpa using hh
      rw [cell_a, hha, hh', hna]
      simp

theorem placed_box_natural_size_witness :
    (nbtk_grid_do_allocate homogeneous_sample ⟨0, 0, 10, 100⟩).placed[0]?
        = some (some ⟨⟨15, 0, 20, 1⟩, true, 0, 0, 1⟩) ∧
      homogeneous_sample.list[0]? = some ⟨5, 1, true⟩ ∧
      (⟨⟨15, 0, 20, 1⟩, true, 0, 0, 1⟩ : Placed).child_box.x2
          - (⟨⟨15, 0, 20, 1⟩, true, 0, 0, 1⟩ : Placed).child_box.x1
        = (⟨5, 1, true⟩ : Child).natural_width ∧
      (⟨⟨15, 0, 20, 1⟩, true, 0, 0, 1⟩ : Placed).child_box.y2
          - (⟨⟨15, 0, 20, 1⟩, true, 0, 0, 1⟩ : Placed).child_box.y1
        = (⟨5, 1, true⟩ : Child).natural_height := by
  have hp : (nbtk_grid_do_allocate homogeneous_sample ⟨0, 0, 10, 100⟩).placed[0]?
      = some (some ⟨⟨15, 0, 20, 1⟩, true, 0, 0, 1⟩) := by
    rw [homogeneous_sample_placed.1]; rfl
  have h := placed_box_natural_size homogeneous_sample ⟨0, 0, 10, 100⟩ 0
    ⟨⟨15, 0, 20, 1⟩, true, 0, 0, 1⟩ ⟨5, 1, true⟩ hp rfl
  exact ⟨hp, rfl, h.1, h.2.1⟩

theorem allocate_child_flow (priv : NbtkGridPrivate) (hE : priv.end_align = false)
    (hH : homogenous_a priv = false) (st : LoopState) (c : Child) (rest : List Child) :
    flow_observed priv (allocate_child priv st c rest).2 =
        (if st.current_a + natural_a priv c ≤ priv.a_wrap then
          (false, st.current_a, st.current_a + natural_a priv c)
        else (true, 0, natural_a priv c)) ∧
      (allocate_child priv st c rest).1.current_a =
        (if st.current_a + natural_a priv c ≤ priv.a_wrap then
          st.current_a + natural_a priv c + agap priv
        else natural_a priv c + agap priv) := by
  have hw := allocate_child_wrapped priv st c rest
  have hc := allocate_child_current_a priv st c rest
  have hn := allocate_child_next_a priv st c rest
  have h1 := allocate_child_major1 priv st c rest
  have h2 := allocate_child_major2 priv st c rest
  rw [hE] at hc
  rw [hH] at h1
  simp only [Bool.false_and, Bool.false_eq_true, if_false] at hc h1
  rw [cell_a_of_not_homogenous priv hH] at hn
  have hwt : wrap_test priv st c = decide (priv.a_wrap < st.current_a + natural_a priv c) := by
    simp [wrap_test, hH]
  unfold flow_observed
  rw [h2, h1, hn, hw, hc, hwt]
  by_cases hle : st.current_a + natural_a priv c ≤ priv.a_wrap
  · have : ¬ priv.a_wrap < st.current_a + natural_a priv c := not_lt.mpr hle
    simp [hle, this]
  · have : priv.a_wrap < st.current_a + natural_a priv c := not_le.mp hle
    simp [hle, this]

theorem allocate_loop_flow (priv : NbtkGridPrivate) (hE : priv.end_align = false)
    (hH : homogenous_a priv = false) (iter : List Child) :
    ∀ st : LoopState,
      (allocate_loop priv st iter).2.reduceOption.map (flow_observed priv) =
        flow_reference priv.a_wrap (agap priv) (visible_sizes priv iter) st.current_a := by
  induction iter with
  | nil => intro st; rfl
  | cons c rest ih =>
    intro st
    by_cases hv : c.visible = true
    · rw [allocate_loop_cons_visible priv st c rest hv]
      obtain ⟨ho, hn⟩ := allocate_child_flow priv hE hH st c rest
      simp only [List.reduceOption_cons_of_some, List.map_cons, visible_sizes, hv, if_true,
        flow_reference]
      rw [ih, ho, hn]
      by_cases hle : st.current_a + natural_a priv c ≤ priv.a_wrap
      · simp only [hle, if_true]
      · simp only [hle, if_false]
    · have hv' : c.visible = false := by simpa using hv
      rw [allocate_loop_cons_hidden priv st c rest hv']
      simp only [List.reduceOption_cons_of_none, visible_sizes, hv', Bool.false_eq_true, if_false]
      exact ih st

theorem flow_sample_placed :
    (nbtk_grid_do_allocate flow_sample ⟨0, 0, 33, 100⟩).placed =
      [some ⟨⟨0, 0, 10, 1⟩, false, 0, 0, 1⟩, some ⟨⟨12, 0, 22, 1⟩, false, 12, 0, 1⟩,
        some ⟨⟨0, 1, 10, 2⟩, true, 0, 1, 1⟩, some ⟨⟨12, 1, 22, 2⟩, false, 12, 1, 1⟩,
        some ⟨⟨0, 2, 10, 3⟩, true, 0, 2, 1⟩] := by
  simp [nbtk_grid_do_allocate, flow_sample, allocate_setup, allocate_loop,
    allocate_child, measure_loop, homogenous_a, homogenous_b, aalign, balign, agap, bgap,
    compute_row_height, compute_row_start, compute_row_start_loop]
  norm_num

/-- C22: with `end_align` off and a non-homogeneous major axis, the wrap flags
and major-axis intervals of the visible children, in order, are those of the
wrap rule: an item entering at `current_a` stays on the line exactly when
`current_a + natural_a <= a_wrap` (the gap after it is not counted in the
test) and is placed at `current_a`; otherwise it starts a new line and is
placed at major position 0; the next item enters at the end of this one plus
one gap. -/
theorem wrap_rule (priv : NbtkGridPrivate) (box : ClutterActorBox)
    (hE : priv.end_align = false) (hH : homogenous_a priv = false) :
    (nbtk_grid_do_allocate priv box).placed.reduceOption.map (flow_observed priv) =
      flow_reference (nbtk_grid_do_allocate priv box).priv.a_wrap (agap priv)
        (visible_sizes priv priv.list) 0 := by
  obtain ⟨hha, -, hag, -, -, -, hna, -, hm1, hm2, -, -⟩ := allocate_setup_locals priv box
  obtain ⟨hl, -, -, -, he, -⟩ := allocate_setup_fields priv box
  have h := allocate_loop_flow (allocate_setup priv box) (by rw [he]; exact hE)
    (by rw [hha]; exact hH) (allocate_setup priv box).list ⟨0, 0, 0, true, 0, 0⟩
  have hf : flow_observed (allocate_setup priv box) = flow_observed priv := by
    funext p
    simp only [flow_observed, hm1, hm2]
  have hs : ∀ l, visible_sizes (allocate_setup priv box) l = visible_sizes priv l := by
    intro l
    induction l with
    | nil => rfl
    | cons c l ih => simp only [visible_sizes, ih, hna]
  rw [hf, hag, hs] at h
  rw [← hl]
  exact h

/-- The scenario of C22: five items of width 10 with gap 2 in a wrap extent of
33 are placed at major positions 0, 12 | 0, 12 | 0, the third and the fifth
item starting a new line: the lines hold 2, 2 and 1 items. -/
theorem wrap_rule_witness :
    (flow_sample.end_align = false ∧ homogenous_a flow_sample = false) ∧
      (nbtk_grid_do_allocate flow_sample ⟨0, 0, 33, 100⟩).priv.a_wrap = 33 ∧
      (nbtk_grid_do_allocate flow_sample ⟨0, 0, 33, 100⟩).placed.reduceOption.map
          (flow_observed flow_sample) =
        [(false, 0, 10), (false, 12, 22), (true, 0, 10), (false, 12, 22), (true, 0, 10)] ∧
      List.map (line_index (nbtk_grid_do_allocate flow_sample ⟨0, 0, 33, 100⟩).placed)
          [0, 1, 2, 3, 4] = [0, 0, 1, 1, 2] := by
  have hw : (nbtk_grid_do_allocate flow_sample ⟨0, 0, 33, 100⟩).priv.a_wrap = 33 := by
    simp [nbtk_grid_do_allocate, allocate_setup, flow_sample]
  refine ⟨⟨rfl, rfl⟩, hw, ?_, ?_⟩
  · rw [wrap_rule flow_sample ⟨0, 0, 33, 100⟩ rfl rfl, hw]
    simp [flow_reference, visible_sizes, flow_sample, natural_a, agap]
    norm_num
  · rw [flow_sample_placed]
    simp [line_index, List.reduceOption]

theorem column_major_sample_placed :
    (nbtk_grid_do_allocate column_major_sample ⟨0, 0, 100, 100⟩).placed =
        [some ⟨⟨0, -9, 1, 1⟩, false, 0, 0, 1⟩] ∧
      (nbtk_grid_do_allocate column_major_sample ⟨0, 0, 100, 100⟩).priv.max_extent_a = 1 := by
  simp [nbtk_grid_do_allocate, column_major_sample, allocate_setup, allocate_loop,
    allocate_child, measure_loop, homogenous_a, homogenous_b, aalign, balign, agap, bgap,
    compute_row_height, compute_row_start, compute_row_start_loop]
  norm_num

theorem column_major_sample_transposed_placed :
    (nbtk_grid_do_allocate (transpose_priv column_major_sample)
        (transpose_box ⟨0, 0, 100, 100⟩)).placed =
        [some ⟨⟨0, 0, 10, 1⟩, false, 0, 0, 1⟩] ∧
      (nbtk_grid_do_allocate (transpose_priv column_major_sample)
        (transpose_box ⟨0, 0, 100, 100⟩)).priv.max_extent_a = 10 := by
  simp [nbtk_grid_do_allocate, column_major_sample, transpose_priv, transpose_box,
    transpose_child, allocate_setup, allocate_loop,
    allocate_child, measure_loop, homogenous_a, homogenous_b, aalign, balign, agap, bgap,
    compute_row_height, compute_row_start, compute_row_start_loop]
  norm_num

/-- C21, evaluated at the failing input: a column-major grid with homogeneous
rows and `valign = 1` places its only child (width 1, height 10) at
`x ∈ [0, 1], y ∈ [-9, 1]`, because the measurement pass leaves the major cell
size at 1 (the child's width) where the tallest child has height 10; the
row-major layout of the transposed problem measures a cell of 10 and places
the transposed child at `x ∈ [0, 10], y ∈ [0, 1]`, whose transposed box is
`x ∈ [0, 1], y ∈ [0, 10]`. -/
theorem transposition_asymmetric :
    (nbtk_grid_do_allocate column_major_sample ⟨0, 0, 100, 100⟩).placed.map
        (Option.map fun p => p.child_box) = [some ⟨0, -9, 1, 1⟩] ∧
      (nbtk_grid_do_allocate (transpose_priv column_major_sample)
          (transpose_box ⟨0, 0, 100, 100⟩)).placed.map
        (Option.map fun p => transpose_box p.child_box) = [some ⟨0, 0, 1, 10⟩] ∧
      (nbtk_grid_do_allocate column_major_sample ⟨0, 0, 100, 100⟩).priv.max_extent_a = 1 ∧
      (nbtk_grid_do_allocate (transpose_priv column_major_sample)
          (transpose_box ⟨0, 0, 100, 100⟩)).priv.max_extent_a = 10 ∧
      ¬ transposition_symmetric column_major_sample ⟨0, 0, 100, 100⟩ := by
  have h1 : (nbtk_grid_do_allocate column_major_sample ⟨0, 0, 100, 100⟩).placed.map
      (Option.map fun p => p.child_box) = [some ⟨0, -9, 1, 1⟩] := by
    rw [column_major_sample_placed.1]; rfl
  have h2 : (nbtk_grid_do_allocate (transpose_priv column_major_sample)
        (transpose_box ⟨0, 0, 100, 100⟩)).placed.map
      (Option.map fun p => transpose_box p.child_box) = [some ⟨0, 0, 1, 10⟩] := by
    rw [column_major_sample_transposed_placed.1]; rfl
  refine ⟨h1, h2, column_major_sample_placed.2, column_major_sample_transposed_placed.2, ?_⟩
  intro h
  have h3 := h.1
  rw [h1, h2] at h3
  simp at h3

theorem allocate_child_next_b (priv : NbtkGridPrivate) (st : LoopState) (child : Child)
    (rest : List Child) :
    (allocate_child priv st child rest).1.next_b =
      (allocate_child priv st child rest).2.current_b +
        max ((if wrap_test priv st child then bgap priv
              else st.next_b - st.current_b)) (natural_b priv child) := by
  have hb := (allocate_child_current_b priv st child rest).1
  have hn : (allocate_child priv st child rest).1.next_b =
      if (if wrap_test priv st child then
            (allocate_child priv st child rest).2.current_b + bgap priv else st.next_b)
          - (allocate_child priv st child rest).2.current_b < natural_b priv child
      then (allocate_child priv st child rest).2.current_b + natural_b priv child
      else (if wrap_test priv st child then
            (allocate_child priv st child rest).2.current_b + bgap priv else st.next_b) := rfl
  rw [hn]
  by_cases hw : wrap_test priv st child = true
  · simp only [hw, if_true]
    rw [add_sub_cancel_left]
    by_cases hlt : bgap priv < natural_b priv child
    · rw [if_pos hlt, max_eq_right (le_of_lt hlt)]
    · rw [if_neg hlt, max_eq_left (not_lt.mp hlt)]
  · have hw' : wrap_test priv st child = false := by simpa using hw
    rw [hw'] at hb
    simp only [Bool.false_eq_true, if_false] at hb
    simp only [hw', Bool.false_eq_true, if_false]
    rw [hb]
    by_cases hlt : st.next_b - st.current_b < natural_b priv child
    · rw [if_pos hlt, max_eq_right (le_of_lt hlt)]
    · rw [if_neg hlt, max_eq_left (not_lt.mp hlt)]
      ring

theorem allocate_loop_at_drop (priv : NbtkGridPrivate) (Inv : LoopState → List Child → Prop)
    (hvis : ∀ st c rest, Inv st (c :: rest) → c.visible = true →
      Inv (allocate_child priv st c rest).1 rest)
    (hhid : ∀ st c rest, Inv st (c :: rest) → c.visible = false → Inv st rest)
    (iter : List Child) :
    ∀ st : LoopState, Inv st iter →
      ∀ (i : ℕ) (p : Placed) (c : Child),
        (allocate_loop priv st iter).2[i]? = some (some p) → iter[i]? = some c →
        ∃ (st1 : LoopState) (rest : List Child),
          Inv st1 (c :: rest) ∧ iter.drop i = c :: rest ∧ c.visible = true ∧
            p = (allocate_child priv st1 c rest).2 ∧
            (allocate_loop priv st iter).2.drop (i + 1) =
              (allocate_loop priv (allocate_child priv st1 c rest).1 rest).2 := by
  induction iter with
  | nil =>
    intro st _ i p c hp
    simp [allocate_loop] at hp
  | cons x rest ih =>
    intro st hinv i p c hp hc
    by_cases hv : x.visible = true
    · rw [allocate_loop_cons_visible _ _ _ _ hv] at hp ⊢
      cases i with
      | zero =>
        simp only [List.getElem?_cons_zero, Option.some.injEq] at hp hc
        subst hc
        exact ⟨st, rest, hinv, rfl, hv, hp.symm, rfl⟩
      | succ i =>
        simp only [List.getElem?_cons_succ] at hp hc
        obtain ⟨st1, rest1, h1, h2, h3, h4, h5⟩ := ih _ (hvis st x rest hinv hv) i p c hp hc
        exact ⟨st1, rest1, h1, by simpa using h2, h3, h4, by simpa using h5⟩
    · have hv' : x.visible = false := by simpa using hv
      rw [allocate_loop_cons_hidden _ _ _ _ hv'] at hp ⊢
      cases i with
      | zero => simp at hp
      | succ i =>
        simp only [List.getElem?_cons_succ] at hp hc
        obtain ⟨st1, rest1, h1, h2, h3, h4, h5⟩ := ih _ (hhid st x rest hinv hv') i p c hp hc
        exact ⟨st1, rest1, h1, by simpa using h2, h3, h4, by simpa using h5⟩

/-- Along a line: from a state with `current_b <= next_b`, the first child for
which the wrap test fires gets the minor origin `current_b` plus the larger of
the extent reserved so far and the natural minor sizes of the children placed
before it, plus one minor gap. -/
theorem allocate_loop_line_run (priv : NbtkGridPrivate) (iter : List Child) :
    ∀ (st : LoopState) (j : ℕ) (q : Placed), st.current_b ≤ st.next_b →
      (allocate_loop priv st iter).2[j]? = some (some q) → q.wrapped = true →
      (∀ (k : ℕ) (r : Placed), k < j →
        (allocate_loop priv st iter).2[k]? = some (some r) → r.wrapped = false) →
      q.current_b = st.current_b +
        max (st.next_b - st.current_b) (max_natural_b priv (iter.take j)) + bgap priv := by
  induction iter with
  | nil =>
    intro st j q _ hq
    simp [allocate_loop] at hq
  | cons x rest ih =>
    intro st j q hle hq hw hmid
    by_cases hv : x.visible = true
    · rw [allocate_loop_cons_visible _ _ _ _ hv] at hq hmid
      cases j with
      | zero =>
        simp only [List.getElem?_cons_zero, Option.some.injEq] at hq
        subst hq
        rw [allocate_child_wrapped] at hw
        rw [(allocate_child_current_b priv st x rest).1, if_pos hw]
        simp only [List.take_zero, max_natural_b]
        rw [max_eq_left (by linarith)]
        ring
      | succ j =>
        simp only [List.getElem?_cons_succ] at hq
        have h0 : (allocate_child priv st x rest).2.wrapped = false :=
          hmid 0 _ (Nat.succ_pos j) (by simp)
        rw [allocate_child_wrapped] at h0
        have hcb := allocate_child_current_b priv st x rest
        rw [h0] at hcb
        simp only [Bool.false_eq_true, if_false] at hcb
        have hnb := allocate_child_next_b priv st x rest
        rw [h0, hcb.1] at hnb
        simp only [Bool.false_eq_true, if_false] at hnb
        have hcb1 : (allocate_child priv st x rest).1.current_b = st.current_b := by
          rw [hcb.2, hcb.1]
        have hle' : (allocate_child priv st x rest).1.current_b
            ≤ (allocate_child priv st x rest).1.next_b := by
          rw [hcb1, hnb]
          have := le_max_left (st.next_b - st.current_b) (natural_b priv x)
          linarith
        have h := ih (allocate_child priv st x rest).1 j q hle' hq hw
          (fun k r hk hr => hmid (k + 1) r (Nat.succ_lt_succ hk) (by simpa using hr))
        rw [h, hcb1, hnb]
        simp only [List.take_succ_cons, max_natural_b, hv, if_true]
        rw [add_sub_cancel_left, max_assoc]
    · have hv' : x.visible = false := by simpa using hv
      rw [allocate_loop_cons_hidden _ _ _ _ hv'] at hq hmid
      cases j with
      | zero => simp at hq
      | succ j =>
        simp only [List.getElem?_cons_succ] at hq
        have h := ih st j q hle hq hw
          (fun k r hk hr => hmid (k + 1) r (Nat.succ_lt_succ hk) (by simpa using hr))
        rw [h]
        simp only [List.take_succ_cons, max_natural_b, hv', Bool.false_eq_true, if_false]

theorem line_gap_sample_placed :
    (nbtk_grid_do_allocate line_gap_sample ⟨0, 0, 10, 100⟩).placed =
      [some ⟨⟨0, 0, 10, 1⟩, false, 0, 0, 1⟩, some ⟨⟨0, 6, 10, 7⟩, true, 0, 6, 5⟩,
        some ⟨⟨0, 16, 10, 17⟩, true, 0, 16, 5⟩] := by
  simp [nbtk_grid_do_allocate, line_gap_sample, allocate_setup, allocate_loop,
    allocate_child, measure_loop, homogenous_a, homogenous_b, aalign, balign, agap, bgap,
    compute_row_height, compute_row_start, compute_row_start_loop]
  norm_num

/-- C23, evaluated at the failing input: three children of size 10x1 with a
row gap of 5 in a width of 10 are placed one per line at `y = 0`, `y = 6` and
`y = 16`. Every line holds one child of height 1, so the lines should be
`1 + 5 = 6` apart; the first two are, but on a wrap the code also sets
`next_b = current_b + bgap`, and the third line starts at `6 + 5 + 5 = 16`
instead of `6 + 1 + 5 = 12`. -/
theorem line_origin_rule_fails :
    well_formed line_gap_sample ∧
      (nbtk_grid_do_allocate line_gap_sample ⟨0, 0, 10, 100⟩).placed.map
        (Option.map fun p => (p.wrapped, p.current_b)) =
        [some (false, 0), some (true, 6), some (true, 16)] ∧
      ¬ line_origin_rule line_gap_sample ⟨0, 0, 10, 100⟩ := by
  refine ⟨by simp [well_formed, line_gap_sample], by rw [line_gap_sample_placed]; rfl, ?_⟩
  intro h
  have h1 := h 1 2 ⟨⟨0, 6, 10, 7⟩, true, 0, 6, 5⟩ ⟨⟨0, 16, 10, 17⟩, true, 0, 16, 5⟩
    (by rw [line_gap_sample_placed]; rfl) (by rw [line_gap_sample_placed]; rfl)
    (by decide) (by intro hw; simp at hw) (by intro k r h1 h2; omega) rfl
  simp [max_natural_b, line_gap_sample, natural_b, bgap] at h1
  norm_num at h1

/-- The minor origin of a line as the code computes it. Let the child at
position `i` be the first of its line (the wrap test fired for it, or no
visible child precedes it) and the child at position `j` the first of the next
line. The second line starts at the origin of the first, plus the larger of
the natural minor sizes on the first line and, if the first line was started
by a wrap, one minor-axis gap (`next_b = current_b + bgap`), plus one
minor-axis gap. A line that was not started by a wrap has minor origin 0. -/
theorem line_origin_step (priv : NbtkGridPrivate) (box : ClutterActorBox)
    (hwf : well_formed priv) (i j : ℕ) (p q : Placed)
    (hi : (nbtk_grid_do_allocate priv box).placed[i]? = some (some p))
    (hj : (nbtk_grid_do_allocate priv box).placed[j]? = some (some q))
    (hij : i < j)
    (hstart : p.wrapped = false → ∀ (k : ℕ) (c : Child), k < i → priv.list[k]? = some c →
      c.visible = false)
    (hmid : ∀ (k : ℕ) (r : Placed), i < k → k < j →
      (nbtk_grid_do_allocate priv box).placed[k]? = some (some r) → r.wrapped = false)
    (hq : q.wrapped = true) :
    q.current_b = p.current_b +
        max (if p.wrapped then bgap priv else 0)
          (max_natural_b priv ((priv.list.drop i).take (j - i))) + bgap priv ∧
      (p.wrapped = false → p.current_b = 0) := by
  obtain ⟨-, hhb, -, hbg, -, -, -, hnb, -⟩ := allocate_setup_locals priv box
  obtain ⟨hl, -⟩ := allocate_setup_fields priv box
  obtain ⟨-, hbgap, -⟩ := well_formed_locals priv hwf
  have hbgapP : 0 ≤ bgap (allocate_setup priv box) := by rw [hbg]; exact hbgap
  have hM : ∀ l, max_natural_b (allocate_setup priv box) l = max_natural_b priv l := by
    intro l
    induction l with
    | nil => rfl
    | cons c l ih => simp only [max_natural_b, ih, hnb]
  have hlen : i < priv.list.length := by
    have h1 : i < (nbtk_grid_do_allocate priv box).placed.length := by
      by_contra hn
      rw [List.getElem?_eq_none (not_lt.mp hn)] at hi
      exact Option.noConfusion hi
    have h2 : ∀ (l : List Child) (st : LoopState),
        (allocate_loop (allocate_setup priv box) st l).2.length = l.length := by
      intro l
      induction l with
      | nil => intro st; rfl
      | cons c l ih =>
        intro st
        by_cases hv : c.visible = true
        · rw [allocate_loop_cons_visible _ _ _ _ hv]; simp [ih]
        · rw [allocate_loop_cons_hidden _ _ _ _ (by simpa using hv)]; simp [ih]
    have h3 : (nbtk_grid_do_allocate priv box).placed.length = priv.list.length := by
      show (allocate_loop (allocate_setup priv box) _ (allocate_setup priv box).list).2.length = _
      rw [h2, hl]
    omega
  have hc : priv.list[i]? = some (priv.list[i]) := List.getElem?_eq_getElem hlen
  obtain ⟨st1, rest, ⟨hinit, hord⟩, hdrop, hv, hpe, hrest⟩ :=
    allocate_loop_at_drop (allocate_setup priv box)
      (fun st iter =>
        (∃ pre, priv.list = pre ++ iter ∧
          ((∀ c ∈ pre, c.visible = false) → st = ⟨0, 0, 0, true, 0, 0⟩)) ∧
        st.current_b ≤ st.next_b)
      (by
        intro st c rest ⟨⟨pre, hpre, _⟩, hle⟩ hv
        refine ⟨⟨pre ++ [c], by simp [hpre], ?_⟩, ?_⟩
        · intro hall
          have := hall c (by simp)
          rw [hv] at this
          exact Bool.noConfusion this
        · rw [allocate_child_next_b, (allocate_child_current_b _ st c rest).2]
          have h1 := le_max_left
            (if wrap_test (allocate_setup priv box) st c = true then
              bgap (allocate_setup priv box) else st.next_b - st.current_b)
            (natural_b (allocate_setup priv box) c)
          have h2 : 0 ≤ (if wrap_test (allocate_setup priv box) st c = true then
              bgap (allocate_setup priv box) else st.next_b - st.current_b) := by
            split_ifs
            · exact hbgapP
            · linarith
          linarith)
      (by
        intro st c rest ⟨⟨pre, hpre, hst⟩, hle⟩ hv
        refine ⟨⟨pre ++ [c], by simp [hpre], ?_⟩, hle⟩
        intro hall
        exact hst (fun c hc => hall c (by simp [hc])))
      (allocate_setup priv box).list ⟨0, 0, 0, true, 0, 0⟩
      ⟨⟨[], by simp [hl], fun _ => rfl⟩, le_rfl⟩ i p priv.list[i] hi (by rw [hl]; exact hc)
  obtain ⟨pre, hpre, hst⟩ := hinit
  rw [hl] at hdrop
  -- the loop after the child at position `i`
  have hj' : (allocate_loop (allocate_setup priv box)
      (allocate_child (allocate_setup priv box) st1 priv.list[i] rest).1 rest).2[j - i - 1]?
      = some (some q) := by
    rw [← hrest, List.getElem?_drop]
    have : i + 1 + (j - i - 1) = j := by omega
    rw [this]
    exact hj
  have hmid' : ∀ (k : ℕ) (r : Placed), k < j - i - 1 →
      (allocate_loop (allocate_setup priv box)
        (allocate_child (allocate_setup priv box) st1 priv.list[i] rest).1 rest).2[k]?
        = some (some r) → r.wrapped = false := by
    intro k r hk hr
    rw [← hrest, List.getElem?_drop] at hr
    exact hmid (i + 1 + k) r (by omega) (by omega) hr
  have hcb := allocate_child_current_b (allocate_setup priv box) st1 priv.list[i] rest
  have hnxt := allocate_child_next_b (allocate_setup priv box) st1 priv.list[i] rest
  have hle1 : (allocate_child (allocate_setup priv box) st1 priv.list[i] rest).1.current_b
      ≤ (allocate_child (allocate_setup priv box) st1 priv.list[i] rest).1.next_b := by
    rw [hnxt, hcb.2]
    have h1 := le_max_left
      (if wrap_test (allocate_setup priv box) st1 priv.list[i] = true then
        bgap (allocate_setup priv box) else st1.next_b - st1.current_b)
      (natural_b (allocate_setup priv box) priv.list[i])
    have h2 : 0 ≤ (if wrap_test (allocate_setup priv box) st1 priv.list[i] = true then
        bgap (allocate_setup priv box) else st1.next_b - st1.current_b) := by
      split_ifs
      · exact hbgapP
      · linarith
    linarith
  have hrun := allocate_loop_line_run (allocate_setup priv box) rest _ (j - i - 1) q hle1 hj' hq
    hmid'
  have htake : (priv.list.drop i).take (j - i) = priv.list[i] :: rest.take (j - i - 1) := by
    have h : ∀ m, j - i = m + 1 →
        (priv.list.drop i).take (j - i) = priv.list[i] :: rest.take m := by
      intro m hm
      rw [hdrop, hm, List.take_succ_cons]
    exact h (j - i - 1) (by omega)
  have hpw : p.wrapped = wrap_test (allocate_setup priv box) st1 priv.list[i] := by
    rw [hpe, allocate_child_wrapped]
  have hpb : p.current_b
      = (allocate_child (allocate_setup priv box) st1 priv.list[i] rest).2.current_b := by
    rw [hpe]
  -- a line that was not started by a wrap starts in the initial state
  have hfirst : p.wrapped = false → st1 = ⟨0, 0, 0, true, 0, 0⟩ := by
    intro hw
    apply hst
    intro c hc
    obtain ⟨k, hk, hkc⟩ := List.getElem_of_mem hc
    have hplen : pre.length = i := by
      have h1 := congrArg List.length hpre
      have h2 := congrArg List.length hdrop
      simp only [List.length_append, List.length_cons, List.length_drop] at h1 h2
      omega
    have hlk : priv.list[k]? = some c := by
      rw [hpre, List.getElem?_append_left hk, List.getElem?_eq_getElem hk, hkc]
    exact hstart hw k c (by omega) hlk
  rw [hrun, hcb.2, hnxt, add_sub_cancel_left, htake, hM, hbg, hnb, ← hpb, ← hpw]
  constructor
  · by_cases hw : p.wrapped = true
    · simp only [hw, if_true, max_natural_b, hv]
      rw [max_assoc]
    · have hw' : p.wrapped = false := by simpa using hw
      have hs := hfirst hw'
      simp only [hw', Bool.false_eq_true, if_false, max_natural_b, hv, if_true]
      rw [hs]
      simp only [sub_self]
      rw [max_assoc]
  · intro hw
    have hs := hfirst hw
    rw [hpb, hcb.1, ← hpw, hw, hs]
    simp

theorem line_origin_step_witness :
    well_formed line_gap_sample ∧
      (⟨⟨0, 16, 10, 17⟩, true, 0, 16, 5⟩ : Placed).current_b =
        (⟨⟨0, 6, 10, 7⟩, true, 0, 6, 5⟩ : Placed).current_b +
          max (if (⟨⟨0, 6, 10, 7⟩, true, 0, 6, 5⟩ : Placed).wrapped then bgap line_gap_sample
            else 0)
            (max_natural_b line_gap_sample ((line_gap_sample.list.drop 1).take (2 - 1)))
          + bgap line_gap_sample := by
  have hwf : well_formed line_gap_sample := by simp [well_formed, line_gap_sample]
  exact ⟨hwf, (line_origin_step line_gap_sample ⟨0, 0, 10, 100⟩ hwf 1 2
    ⟨⟨0, 6, 10, 7⟩, true, 0, 6, 5⟩ ⟨⟨0, 16, 10, 17⟩, true, 0, 16, 5⟩
    (by rw [line_gap_sample_placed]; rfl) (by rw [line_gap_sample_placed]; rfl)
    (by decide) (by intro hw; simp at hw) (by intro k r h1 h2; omega) rfl).1⟩

theorem overlap_sample_placed :
    (nbtk_grid_do_allocate overlap_sample ⟨0, 0, 100, 10⟩).placed =
      [some ⟨⟨4, 0, 5, 10⟩, false, 0, 0, 5⟩, some ⟨⟨1, 0, 6, 10⟩, true, 0, 1, 5⟩] := by
  simp [nbtk_grid_do_allocate, overlap_sample, allocate_setup, allocate_loop,
    allocate_child, measure_loop, homogenous_a, homogenous_b, aalign, balign, agap, bgap,
    compute_row_height, compute_row_start, compute_row_start_loop]
  norm_num

/-- C26, evaluated at the failing input: a column-major grid with homogeneous columns and
`halign = 1` in a height of 10 places the children 1x10 and 5x10 (well-formed
input, positive sizes) in two columns, at `x ∈ [4, 5]` and `x ∈ [1, 6]`, both
at `y ∈ [0, 10]`: the first box lies inside the second. The column of the
first child is aligned inside the homogeneous cell size 5, but the next
column starts one natural width after the first. -/
theorem no_overlap_fails :
    well_formed overlap_sample ∧
      (nbtk_grid_do_allocate overlap_sample ⟨0, 0, 100, 10⟩).placed.map
        (Option.map fun p => p.child_box) = [some ⟨4, 0, 5, 10⟩, some ⟨1, 0, 6, 10⟩] ∧
      boxes_overlap ⟨4, 0, 5, 10⟩ ⟨1, 0, 6, 10⟩ ∧
      ¬ no_overlap overlap_sample ⟨0, 0, 100, 10⟩ := by
  have ho : boxes_overlap ⟨4, 0, 5, 10⟩ ⟨1, 0, 6, 10⟩ := by
    simp only [boxes_overlap]
    norm_num
  refine ⟨by simp [well_formed, overlap_sample], by rw [overlap_sample_placed]; rfl, ho, ?_⟩
  intro h
  exact h 0 1 ⟨⟨4, 0, 5, 10⟩, false, 0, 0, 5⟩ ⟨⟨1, 0, 6, 10⟩, true, 0, 1, 5⟩
    ⟨1, 10, true⟩ ⟨5, 10, true⟩ (by decide)
    (by rw [overlap_sample_placed]; rfl) (by rw [overlap_sample_placed]; rfl) rfl rfl
    (by norm_num) (by norm_num) (by norm_num) (by norm_num) ho

theorem not_overlap_of_separated (priv : NbtkGridPrivate) (a b : ClutterActorBox)
    (h : major2 priv a ≤ major1 priv b ∨ minor2 priv a ≤ minor1 priv b) :
    ¬ boxes_overlap a b ∧ ¬ boxes_overlap b a := by
  unfold major1 major2 minor1 minor2 at h
  unfold boxes_overlap
  by_cases hc : priv.column_major = true
  · simp only [hc, if_true] at h
    rcases h with h | h
    · constructor
      · rintro ⟨-, h2⟩
        have := lt_of_le_of_lt (le_max_right a.y1 b.y1) (lt_of_lt_of_le h2 (min_le_left _ _))
        linarith
      · rintro ⟨-, h2⟩
        have := lt_of_le_of_lt (le_max_left b.y1 a.y1) (lt_of_lt_of_le h2 (min_le_right _ _))
        linarith
    · constructor
      · rintro ⟨h1, -⟩
        have := lt_of_le_of_lt (le_max_right a.x1 b.x1) (lt_of_lt_of_le h1 (min_le_left _ _))
        linarith
      · rintro ⟨h1, -⟩
        have := lt_of_le_of_lt (le_max_left b.x1 a.x1) (lt_of_lt_of_le h1 (min_le_right _ _))
        linarith
  · simp only [hc, Bool.false_eq_true, if_false] at h
    rcases h with h | h
    · constructor
      · rintro ⟨h1, -⟩
        have := lt_of_le_of_lt (le_max_right a.x1 b.x1) (lt_of_lt_of_le h1 (min_le_left _ _))
        linarith
      · rintro ⟨h1, -⟩
        have := lt_of_le_of_lt (le_max_left b.x1 a.x1) (lt_of_lt_of_le h1 (min_le_right _ _))
        linarith
    · constructor
      · rintro ⟨-, h2⟩
        have := lt_of_le_of_lt (le_max_right a.y1 b.y1) (lt_of_lt_of_le h2 (min_le_left _ _))
        linarith
      · rintro ⟨-, h2⟩
        have := lt_of_le_of_lt (le_max_left b.y1 a.y1) (lt_of_lt_of_le h2 (min_le_right _ _))
        linarith

/-- The major interval of a placed box lies inside the cell
`[current_a, current_a + cell_a]`. -/
theorem allocate_child_major_in_cell (priv : NbtkGridPrivate) (st : LoopState) (c : Child)
    (rest : List Child) (hal0 : 0 ≤ aalign priv) (hal1 : aalign priv ≤ 1)
    (hcell : natural_a priv c ≤ cell_a priv c) :
    (allocate_child priv st c rest).2.current_a
        ≤ major1 priv (allocate_child priv st c rest).2.child_box ∧
      major2 priv (allocate_child priv st c rest).2.child_box
        ≤ (allocate_child priv st c rest).2.current_a + cell_a priv c := by
  rw [allocate_child_major2, allocate_child_major1]
  by_cases hh : homogenous_a priv = true
  · rw [cell_a, if_pos hh] at hcell ⊢
    simp only [hh, if_true]
    exact aligned_inside_cell _ _ _ _ hal0 hal1 hcell
  · rw [cell_a, if_neg hh] at hcell ⊢
    simp only [hh, if_false]
    exact ⟨le_rfl, le_rfl⟩

/-- With minor alignment 0 a placed box starts at the minor origin of its line. -/
theorem allocate_child_minor_top (priv : NbtkGridPrivate) (st : LoopState) (c : Child)
    (rest : List Child) (hbal : balign priv = 0) :
    minor1 priv (allocate_child priv st c rest).2.child_box
        = (allocate_child priv st c rest).2.current_b ∧
      minor2 priv (allocate_child priv st c rest).2.child_box
        = (allocate_child priv st c rest).2.current_b + natural_b priv c := by
  rw [allocate_child_minor2, allocate_child_minor1, hbal]
  constructor <;> ring

theorem allocate_child_separates (priv : NbtkGridPrivate) (st : LoopState) (c : Child)
    (rest : List Child) (hbal : balign priv = 0) (hag : 0 ≤ agap priv)
    (hal0 : 0 ≤ aalign priv) (hal1 : aalign priv ≤ 1) (hc : cell_ok priv c) :
    line_separated priv (allocate_child priv st c rest).2 (allocate_child priv st c rest).1 := by
  obtain ⟨hna, hnb, hca, hle⟩ := hc
  obtain ⟨-, hM2⟩ := allocate_child_major_in_cell priv st c rest hal0 hal1 hle
  obtain ⟨-, hN2⟩ := allocate_child_minor_top priv st c rest hbal
  have hnext := allocate_child_next_b priv st c rest
  have hcb := (allocate_child_current_b priv st c rest).2
  have hna' := allocate_child_next_a priv st c rest
  have hmax := le_max_right (if wrap_test priv st c = true then bgap priv
    else st.next_b - st.current_b) (natural_b priv c)
  refine ⟨fun hE => allocate_child_first_of_batch priv st c rest hE, ?_, ?_, Or.inl ?_⟩
  · rw [hN2, hnext]; linarith
  · rw [hcb, hnext]; linarith
  · rw [hna']; linarith

theorem allocate_child_keeps_separated (priv : NbtkGridPrivate) (p : Placed) (st : LoopState)
    (c : Child) (rest : List Child) (hbal : balign priv = 0) (hag : 0 ≤ agap priv)
    (hbg : 0 ≤ bgap priv) (hal0 : 0 ≤ aalign priv) (hal1 : aalign priv ≤ 1)
    (hc : cell_ok priv c) (hsep : line_separated priv p st) :
    line_separated priv p (allocate_child priv st c rest).1 ∧
      (major2 priv p.child_box ≤ major1 priv (allocate_child priv st c rest).2.child_box ∨
        minor2 priv p.child_box ≤ minor1 priv (allocate_child priv st c rest).2.child_box) := by
  obtain ⟨hna, hnb, hca, hle⟩ := hc
  obtain ⟨hfob, hpn, hord, hdis⟩ := hsep
  obtain ⟨hM1, -⟩ := allocate_child_major_in_cell priv st c rest hal0 hal1 hle
  obtain ⟨hN1, -⟩ := allocate_child_minor_top priv st c rest hbal
  have hnext := allocate_child_next_b priv st c rest
  have hcb := allocate_child_current_b priv st c rest
  have hna' := allocate_child_next_a priv st c rest
  have hcur := allocate_child_current_a priv st c rest
  have hfob' : priv.end_align = true → (allocate_child priv st c rest).1.first_of_batch = false :=
    fun hE => allocate_child_first_of_batch priv st c rest hE
  by_cases hw : wrap_test priv st c = true
  · rw [hw] at hcb hnext
    simp only [if_true] at hcb hnext
    have hmax := le_max_left (bgap priv) (natural_b priv c)
    have hq : minor2 priv p.child_box ≤ (allocate_child priv st c rest).2.current_b := by
      rw [hcb.1]; linarith
    refine ⟨⟨hfob', ?_, ?_, Or.inr ?_⟩, Or.inr ?_⟩
    · rw [hnext]; linarith
    · rw [hcb.2, hnext]; linarith
    · rw [hcb.2]; exact hq
    · rw [hN1]; exact hq
  · have hw' : wrap_test priv st c = false := by simpa using hw
    rw [hw'] at hcb hnext hcur
    simp only [Bool.false_eq_true, if_false] at hcb hnext hcur
    have hstart : (priv.end_align && st.first_of_batch) = false := by
      by_cases hE : priv.end_align = true
      · rw [hfob hE]; simp
      · have : priv.end_align = false := by simpa using hE
        rw [this]; rfl
    rw [hstart] at hcur
    simp only [Bool.false_eq_true, if_false] at hcur
    have hmax := le_max_left (st.next_b - st.current_b) (natural_b priv c)
    have hnx : st.next_b ≤ (allocate_child priv st c rest).1.next_b := by
      rw [hnext, hcb.1]; linarith
    refine ⟨⟨hfob', le_trans hpn hnx, ?_, ?_⟩, ?_⟩
    · rw [hcb.2, hcb.1]; exact le_trans hord hnx
    · rcases hdis with h | h
      · left
        rw [hna', hcur]; linarith
      · right
        rw [hcb.2, hcb.1]; exact h
    · rcases hdis with h | h
      · left
        rw [hcur] at hM1
        exact le_trans h hM1
      · right
        rw [hN1, hcb.1]; exact h

/-- Any two placements of one run of the loop, the first at position `i` and
the second at a later position `j`, are separated along the major or along
the minor axis. -/
theorem allocate_loop_separated (priv : NbtkGridPrivate) (hbal : balign priv = 0)
    (hag : 0 ≤ agap priv) (hbg : 0 ≤ bgap priv) (hal0 : 0 ≤ aalign priv)
    (hal1 : aalign priv ≤ 1) (iter : List Child) (st : LoopState)
    (hcells : ∀ c ∈ iter, c.visible = true → cell_ok priv c)
    (i j : ℕ) (p q : Placed) (hij : i < j)
    (hp : (allocate_loop priv st iter).2[i]? = some (some p))
    (hq : (allocate_loop priv st iter).2[j]? = some (some q)) :
    major2 priv p.child_box ≤ major1 priv q.child_box ∨
      minor2 priv p.child_box ≤ minor1 priv q.child_box := by
  have hlen : ∀ (l : List Child) (s : LoopState), (allocate_loop priv s l).2.length = l.length := by
    intro l
    induction l with
    | nil => intro s; rfl
    | cons c l ih =>
      intro s
      by_cases hv : c.visible = true
      · rw [allocate_loop_cons_visible _ _ _ _ hv]; simp [ih]
      · rw [allocate_loop_cons_hidden _ _ _ _ (by simpa using hv)]; simp [ih]
  have hget : ∀ (k : ℕ) (r : Placed), (allocate_loop priv st iter).2[k]? = some (some r) →
      k < iter.length := by
    intro k r hr
    by_contra hn
    rw [List.getElem?_eq_none (by rw [hlen]; exact not_lt.mp hn)] at hr
    exact Option.noConfusion hr
  have hi := hget i p hp
  have hj := hget j q hq
  obtain ⟨st1, rest, hinv, hdrop, hv, hpe, hrest⟩ :=
    allocate_loop_at_drop priv (fun _ l => ∀ c ∈ l, c.visible = true → cell_ok priv c)
      (fun _ _ _ h _ c hc => h c (List.mem_cons_of_mem _ hc))
      (fun _ _ _ h _ c hc => h c (List.mem_cons_of_mem _ hc))
      iter st hcells i p iter[i] hp (List.getElem?_eq_getElem hi)
  have hc0 := hinv _ (List.mem_cons_self _ _) hv
  have hsep0 := allocate_child_separates priv st1 iter[i] rest hbal hag hal0 hal1 hc0
  rw [← hpe] at hsep0
  have hq' : (allocate_loop priv (allocate_child priv st1 iter[i] rest).1 rest).2[j - i - 1]?
      = some (some q) := by
    rw [← hrest, List.getElem?_drop]
    have : i + 1 + (j - i - 1) = j := by omega
    rw [this]
    exact hq
  have hrj : rest[j - i - 1]? = some iter[j] := by
    have h1 : (iter.drop i)[j - i]? = some iter[j] := by
      rw [List.getElem?_drop]
      have : i + (j - i) = j := by omega
      rw [this]
      exact List.getElem?_eq_getElem hj
    rw [hdrop] at h1
    have h2 : ∀ m, j - i = m + 1 → rest[m]? = some iter[j] := by
      intro m hm
      rw [hm, List.getElem?_cons_succ] at h1
      exact h1
    exact h2 (j - i - 1) (by omega)
  obtain ⟨st2, rest2, ⟨hinv2, hsep2⟩, -, hv2, hqe, -⟩ :=
    allocate_loop_at priv
      (fun s l => (∀ c ∈ l, c.visible = true → cell_ok priv c) ∧ line_separated priv p s)
      (fun s c l h hvc =>
        ⟨fun d hd => h.1 d (List.mem_cons_of_mem _ hd),
          (allocate_child_keeps_separated priv p s c l hbal hag hbg hal0 hal1
            (h.1 c (List.mem_cons_self _ _) hvc) h.2).1⟩)
      (fun _ _ _ h _ => ⟨fun d hd => h.1 d (List.mem_cons_of_mem _ hd), h.2⟩)
      rest (allocate_child priv st1 iter[i] rest).1
      ⟨fun d hd => hinv d (List.mem_cons_of_mem _ hd), hsep0⟩ (j - i - 1) q iter[j] hq' hrj
  rw [hqe]
  exact (allocate_child_keeps_separated priv p st2 iter[j] rest2 hbal hag hbg hal0 hal1
    (hinv2 _ (List.mem_cons_self _ _) hv2) hsep2).2

/-- When no box is moved inside its line, boxes do not overlap. For
well-formed input with minor-axis alignment 0 (`valign` in row-major, `halign`
in column-major orientation), and with a homogeneous major axis only in
row-major orientation, the boxes that one call of `nbtk_grid_do_allocate`
gives to two distinct children do not overlap, for every combination of the
other layout flags. -/
theorem placed_boxes_disjoint (priv : NbtkGridPrivate) (box : ClutterActorBox)
    (hwf : well_formed priv)
    (hdesign : homogenous_a priv = true → priv.column_major = false)
    (hbal : balign priv = 0)
    (i j : ℕ) (p q : Placed) (hij : i ≠ j)
    (hp : (nbtk_grid_do_allocate priv box).placed[i]? = some (some p))
    (hq : (nbtk_grid_do_allocate priv box).placed[j]? = some (some q)) :
    ¬ boxes_overlap p.child_box q.child_box := by
  obtain ⟨-, -, hag, hbg, haa, hba, -, hnb, hm1, hm2, hn1, hn2⟩ := allocate_setup_locals priv box
  obtain ⟨hl, -⟩ := allocate_setup_fields priv box
  obtain ⟨hgap, hbgap, hal0, hal1, -, -, hsz⟩ := well_formed_locals priv hwf
  have hcell := allocate_setup_cell_facts priv box hwf hdesign
  have hcells : ∀ c ∈ (allocate_setup priv box).list, c.visible = true →
      cell_ok (allocate_setup priv box) c := by
    intro c hc hv
    obtain ⟨h1, h2, h3⟩ := hcell c hc
    refine ⟨h1, ?_, h2, h3 hv⟩
    rw [hnb]
    exact (hsz c (by rw [← hl]; exact hc)).2
  have key : ∀ (i j : ℕ) (p q : Placed), i < j →
      (nbtk_grid_do_allocate priv box).placed[i]? = some (some p) →
      (nbtk_grid_do_allocate priv box).placed[j]? = some (some q) →
      major2 priv p.child_box ≤ major1 priv q.child_box ∨
        minor2 priv p.child_box ≤ minor1 priv q.child_box := by
    intro i j p q hlt hp hq
    have h := allocate_loop_separated (allocate_setup priv box) (by rw [hba]; exact hbal)
      (by rw [hag]; exact hgap) (by rw [hbg]; exact hbgap) (by rw [haa]; exact hal0)
      (by rw [haa]; exact hal1) (allocate_setup priv box).list ⟨0, 0, 0, true, 0, 0⟩ hcells
      i j p q hlt hp hq
    rw [hm1, hm2, hn1, hn2] at h
    exact h
  rcases lt_or_gt_of_ne hij with hlt | hgt
  · exact (not_overlap_of_separated priv _ _ (key i j p q hlt hp hq)).1
  · exact (not_overlap_of_separated priv _ _ (key j i q p hgt hq hp)).2

theorem placed_boxes_disjoint_witness :
    (well_formed line_gap_sample ∧ balign line_gap_sample = 0) ∧
      ¬ boxes_overlap (⟨⟨0, 0, 10, 1⟩, false, 0, 0, 1⟩ : Placed).child_box
        (⟨⟨0, 6, 10, 7⟩, true, 0, 6, 5⟩ : Placed).child_box := by
  have hwf : well_formed line_gap_sample := by simp [well_formed, line_gap_sample]
  exact ⟨⟨hwf, rfl⟩, placed_boxes_disjoint line_gap_sample ⟨0, 0, 10, 100⟩ hwf
    (by intro h; simp [homogenous_a, line_gap_sample] at h) rfl 0 1
    ⟨⟨0, 0, 10, 1⟩, false, 0, 0, 1⟩ ⟨⟨0, 6, 10, 7⟩, true, 0, 6, 5⟩ (by decide)
    (by rw [line_gap_sample_placed]; rfl) (by rw [line_gap_sample_placed]; rfl)⟩

theorem compute_row_height_end_align (P : NbtkGridPrivate) (e : Bool) (l : List Child) :
    ∀ best cur : ℚ,
      compute_row_height l best cur (with_end_align P e) = compute_row_height l best cur P := by
  induction l with
  | nil => intro best cur; rfl
  | cons c l ih =>
    intro best cur
    rw [compute_row_height_cons, compute_row_height_cons, ih]
    rfl

theorem compute_row_start_loop_end_align (P : NbtkGridPrivate) (e : Bool) (l : List Child) :
    ∀ start cur : ℚ,
      compute_row_start_loop l start cur (with_end_align P e)
        = compute_row_start_loop l start cur P := by
  induction l with
  | nil => intro start cur; rfl
  | cons c l ih =>
    intro start cur
    rw [compute_row_start_loop_cons, compute_row_start_loop_cons, ih]
    rfl

theorem row_extent_le (P : NbtkGridPrivate) (l : List Child) :
    ∀ cur : ℚ, cur ≤ P.a_wrap → row_extent P l cur ≤ P.a_wrap := by
  induction l with
  | nil => intro cur h; exact h
  | cons c l ih =>
    intro cur h
    unfold row_extent
    split_ifs with h1
    · exact h
    · exact ih _ (not_lt.mp h1)

/-- Scanning a row for its height from a position shifted by the slack of the
row visits the same children as scanning it from the unshifted position. -/
theorem compute_row_height_shift (P : NbtkGridPrivate) (hgap : agap P = 0) (l : List Child) :
    ∀ (best cur s : ℚ), (∀ c ∈ l, 0 < cell_a P c) →
      row_extent P l cur = P.a_wrap - s →
      compute_row_height l best (cur + s) P = compute_row_height l best cur P := by
  induction l with
  | nil => intro best cur s _ _; rfl
  | cons c l ih =>
    intro best cur s hpos hext
    have hc := hpos c (List.mem_cons_self _ _)
    rw [compute_row_height_cons, compute_row_height_cons]
    unfold row_extent at hext
    rw [hgap] at hext ⊢
    by_cases h1 : cur + cell_a P c + 0 > P.a_wrap
    · rw [if_pos h1] at hext
      have h2 : cur + s + cell_a P c + 0 > P.a_wrap := by linarith
      rw [if_pos h1, if_pos h2]
    · rw [if_neg h1] at hext
      have hge := row_extent_ge P l (cur + cell_a P c + 0)
        (fun d hd => by rw [hgap]; linarith [hpos d (List.mem_cons_of_mem _ hd)])
      have h2 : ¬ cur + s + cell_a P c + 0 > P.a_wrap := by
        rw [hext] at hge
        intro h
        linarith
      rw [if_neg h1, if_neg h2]
      have := ih (if natural_b P c > best then natural_b P c else best)
        (cur + cell_a P c + 0) s (fun d hd => hpos d (List.mem_cons_of_mem _ hd)) hext
      rw [← this]
      congr 1
      ring

theorem allocate_child_row_height_eq (priv : NbtkGridPrivate) (st : LoopState) (c : Child)
    (rest : List Child) :
    (allocate_child priv st c rest).2.row_height =
      if homogenous_b priv then priv.max_extent_b
      else compute_row_height (c :: rest)
        ((allocate_child priv st c rest).1.next_b - (allocate_child priv st c rest).2.current_b)
        (allocate_child priv st c rest).2.current_a priv := rfl

theorem row_extent_cons (P : NbtkGridPrivate) (c : Child) (l : List Child) (cur : ℚ) :
    row_extent P (c :: l) cur =
      if cur + cell_a P c + agap P > P.a_wrap then cur
      else row_extent P l (cur + cell_a P c + agap P) := rfl

/-- At the start of a line (major position 0) the offset `compute_row_start`
returns is non-negative, and either the first child is oversized and the
offset is 0, or the rest of the simulated row ends that far from the wrap
boundary. -/
theorem line_start_offset (P : NbtkGridPrivate) (hgap : agap P = 0) (c : Child)
    (rest : List Child) (hc : 0 < cell_a P c) (hrest : ∀ d ∈ rest, 0 < cell_a P d) :
    0 ≤ compute_row_start (c :: rest) 0 P ∧
      ((compute_row_start (c :: rest) 0 P = 0 ∧ P.a_wrap < cell_a P c) ∨
        (row_extent P rest (cell_a P c) = P.a_wrap - compute_row_start (c :: rest) 0 P ∧
          row_extent P (c :: rest) 0 = P.a_wrap - compute_row_start (c :: rest) 0 P)) := by
  by_cases h : P.a_wrap < cell_a P c
  · have h0 := compute_row_start_overflow P 0 c rest (by rw [hgap]; linarith)
    rw [h0]
    exact ⟨le_rfl, Or.inl ⟨rfl, h⟩⟩
  · have hfit : 0 + cell_a P c + agap P ≤ P.a_wrap := by rw [hgap]; linarith
    have h0 := compute_row_start_eq P 0 c rest (by rw [hgap]; linarith)
      (fun d hd => by rw [hgap]; linarith [hrest d hd]) hfit
    have e : 0 + cell_a P c + agap P = cell_a P c := by rw [hgap]; ring
    rw [e] at h0
    have hle := row_extent_le P rest (cell_a P c) (not_lt.mp h)
    rw [h0]
    refine ⟨by linarith, Or.inr ⟨by ring, ?_⟩⟩
    rw [row_extent_cons, if_neg (not_lt.mpr hfit), e]
    ring

theorem line_start_row_height (P : NbtkGridPrivate) (hgap : agap P = 0) (c : Child)
    (rest : List Child) (hc : 0 < cell_a P c) (hrest : ∀ d ∈ rest, 0 < cell_a P d) (best : ℚ) :
    compute_row_height (c :: rest) best (compute_row_start (c :: rest) 0 P) P
      = compute_row_height (c :: rest) best 0 P := by
  obtain ⟨-, ⟨h0, -⟩ | ⟨-, hext⟩⟩ := line_start_offset P hgap c rest hc hrest
  · rw [h0]
  · have := compute_row_height_shift P hgap (c :: rest) best 0
      (compute_row_start (c :: rest) 0 P)
      (by
        intro d hd
        rcases List.mem_cons.mp hd with h | h
        · rw [h]; exact hc
        · exact hrest d h) hext
    rw [zero_add] at this
    exact this

theorem compute_row_start_end_align (P : NbtkGridPrivate) (e : Bool) (l : List Child)
    (start : ℚ) :
    compute_row_start l start (with_end_align P e) = compute_row_start l start P :=
  compute_row_start_loop_end_align P e l start start

/-- The projections of one placement without end alignment. -/
theorem allocate_child_off (P : NbtkGridPrivate) (hE : P.end_align = false) (a : LoopState)
    (c : Child) (rest : List Child) :
    (allocate_child P a c rest).2.current_a = (if wrap_test P a c then 0 else a.current_a) := by
  rw [allocate_child_current_a, hE]
  simp

/-- The projections of one placement with end alignment. -/
theorem allocate_child_on (P : NbtkGridPrivate) (b : LoopState) (c : Child)
    (rest : List Child) :
    (allocate_child (with_end_align P true) b c rest).2.current_a =
      (if (if wrap_test P b c then true else b.first_of_batch) then
        compute_row_start (c :: rest) (if wrap_test P b c then 0 else b.current_a) P
      else (if wrap_test P b c then 0 else b.current_a)) := by
  rw [allocate_child_current_a, compute_row_start_end_align]
  rfl

/-- Two placements that agree on the wrap flag, the minor state and, up to
the slack of the row, on the major position also agree on the row height. -/
theorem allocate_child_row_height_rel (P : NbtkGridPrivate) (a b : LoopState) (c : Child)
    (rest : List Child)
    (hw : wrap_test P b c = wrap_test P a c)
    (hb1 : b.current_b = a.current_b) (hb2 : b.next_b = a.next_b)
    (hrow : ∀ best : ℚ,
      compute_row_height (c :: rest) best
          (allocate_child (with_end_align P true) b c rest).2.current_a P
        = compute_row_height (c :: rest) best (allocate_child P a c rest).2.current_a P) :
    (allocate_child (with_end_align P true) b c rest).2.current_b
        = (allocate_child P a c rest).2.current_b ∧
      (allocate_child (with_end_align P true) b c rest).1.current_b
        = (allocate_child P a c rest).1.current_b ∧
      (allocate_child (with_end_align P true) b c rest).1.next_b
        = (allocate_child P a c rest).1.next_b ∧
      (allocate_child (with_end_align P true) b c rest).2.row_height
        = (allocate_child P a c rest).2.row_height := by
  have hqb : (allocate_child (with_end_align P true) b c rest).2.current_b
      = (if wrap_test P b c then b.next_b + bgap P else b.current_b) :=
    (allocate_child_current_b (with_end_align P true) b c rest).1
  have hpb := (allocate_child_current_b P a c rest).1
  have hcb : (allocate_child (with_end_align P true) b c rest).2.current_b
      = (allocate_child P a c rest).2.current_b := by
    rw [hqb, hpb, hw, hb1, hb2]
  have hqn : (allocate_child (with_end_align P true) b c rest).1.next_b
      = (allocate_child (with_end_align P true) b c rest).2.current_b +
        max ((if wrap_test P b c then bgap P else b.next_b - b.current_b)) (natural_b P c) :=
    allocate_child_next_b (with_end_align P true) b c rest
  have hpn := allocate_child_next_b P a c rest
  have hnb : (allocate_child (with_end_align P true) b c rest).1.next_b
      = (allocate_child P a c rest).1.next_b := by
    rw [hqn, hpn, hcb, hw, hb1, hb2]
  refine ⟨hcb, ?_, hnb, ?_⟩
  · rw [(allocate_child_current_b (with_end_align P true) b c rest).2,
      (allocate_child_current_b P a c rest).2, hcb]
  · rw [allocate_child_row_height_eq, allocate_child_row_height_eq, hnb, hcb,
      compute_row_height_end_align, hrow]
    rfl

/-- One step of the two runs from related states: the wrap test agrees, the
minor state and the row height agree, the new states are related with the
offset of this child, and the offset does not change inside a line. -/
theorem end_align_step (P : NbtkGridPrivate) (hE : P.end_align = false) (hgap : agap P = 0)
    (s : ℚ) (a b : LoopState) (c : Child) (rest : List Child)
    (hc : flow_ok P c) (hrest : ∀ d ∈ rest, flow_ok P d)
    (hrel : end_align_rel P s a b (c :: rest)) :
    (allocate_child (with_end_align P true) b c rest).2.wrapped
        = (allocate_child P a c rest).2.wrapped ∧
      (allocate_child (with_end_align P true) b c rest).2.current_b
        = (allocate_child P a c rest).2.current_b ∧
      (allocate_child (with_end_align P true) b c rest).2.row_height
        = (allocate_child P a c rest).2.row_height ∧
      end_align_rel P
        ((allocate_child (with_end_align P true) b c rest).2.current_a
          - (allocate_child P a c rest).2.current_a)
        (allocate_child P a c rest).1 (allocate_child (with_end_align P true) b c rest).1 rest ∧
      ((allocate_child P a c rest).2.wrapped = false → b.first_of_batch = false →
        (allocate_child (with_end_align P true) b c rest).2.current_a
          - (allocate_child P a c rest).2.current_a = s) := by
  have hcp : 0 < cell_a P c := lt_of_lt_of_le hc.2.1 hc.2.2
  have hrp : ∀ d ∈ rest, 0 < cell_a P d :=
    fun d hd => lt_of_lt_of_le (hrest d hd).2.1 (hrest d hd).2.2
  have hallp : ∀ d ∈ c :: rest, 0 < cell_a P d := by
    intro d hd
    rcases List.mem_cons.mp hd with h | h
    · rw [h]; exact hcp
    · exact hrp d h
  obtain ⟨hb1, hb2, hb3, hs0, hcase⟩ := hrel
  have hwp := wrap_test_eq_true_iff P a c hc.2.2
  have hwq := wrap_test_eq_true_iff P b c hc.2.2
  have hfob := allocate_child_first_of_batch (with_end_align P true) b c rest rfl
  have hpa := allocate_child_off P hE a c rest
  have hqa := allocate_child_on P b c rest
  have hpn := allocate_child_next_a P a c rest
  have hqn : (allocate_child (with_end_align P true) b c rest).1.current_a
      = (allocate_child (with_end_align P true) b c rest).2.current_a + cell_a P c + agap P :=
    allocate_child_next_a (with_end_align P true) b c rest
  -- the wrap test agrees
  have hw : wrap_test P b c = wrap_test P a c := by
    rw [Bool.eq_iff_iff, hwq, hwp, hb3]
    rcases hcase with ⟨-, -, hs⟩ | ⟨-, ⟨hs, -⟩ | hext⟩
    · rw [hs, add_zero]
    · rw [hs, add_zero]
    · rw [row_extent_cons, hgap] at hext
      by_cases h1 : a.current_a + cell_a P c + 0 > P.a_wrap
      · rw [if_pos h1] at hext
        constructor
        · intro _; linarith
        · intro _; linarith
      · rw [if_neg h1] at hext
        have hge := row_extent_ge P rest (a.current_a + cell_a P c + 0)
          (fun d hd => by rw [hgap]; linarith [hrp d hd])
        rw [hext] at hge
        constructor
        · intro h; linarith
        · intro h; linarith
  -- a child that starts a line
  have hstart : (wrap_test P a c = true ∨ (b.first_of_batch = true ∧ a.current_a = 0 ∧ s = 0)) →
      (allocate_child P a c rest).2.current_a = 0 ∧
        (allocate_child (with_end_align P true) b c rest).2.current_a
          = compute_row_start (c :: rest) 0 P := by
    intro h
    rcases h with h | ⟨hf, ha0, hs⟩
    · rw [hpa, hqa, hw, h]
      simp
    · by_cases hwa : wrap_test P a c = true
      · rw [hpa, hqa, hw, hwa]
        simp
      · have hwa' : wrap_test P a c = false := by simpa using hwa
        rw [hpa, hqa, hw, hwa', hf, hb3, ha0, hs]
        simp
  have hline : (wrap_test P a c = true ∨ (b.first_of_batch = true ∧ a.current_a = 0 ∧ s = 0)) →
      (∀ best : ℚ,
        compute_row_height (c :: rest) best
            (allocate_child (with_end_align P true) b c rest).2.current_a P
          = compute_row_height (c :: rest) best (allocate_child P a c rest).2.current_a P) ∧
      end_align_rel P
        ((allocate_child (with_end_align P true) b c rest).2.current_a
          - (allocate_child P a c rest).2.current_a)
        (allocate_child P a c rest).1 (allocate_child (with_end_align P true) b c rest).1 rest := by
    intro h
    obtain ⟨h0, h1⟩ := hstart h
    obtain ⟨hnn, hoff⟩ := line_start_offset P hgap c rest hcp hrp
    have hrow : ∀ best : ℚ,
        compute_row_height (c :: rest) best
            (allocate_child (with_end_align P true) b c rest).2.current_a P
          = compute_row_height (c :: rest) best (allocate_child P a c rest).2.current_a P := by
      intro best
      rw [h0, h1]
      exact line_start_row_height P hgap c rest hcp hrp best
    obtain ⟨-, hcb, hnb, -⟩ := allocate_child_row_height_rel P a b c rest hw hb1 hb2 hrow
    refine ⟨hrow, hcb, hnb, ?_, ?_, Or.inr ⟨hfob, ?_⟩⟩
    · rw [hqn, hpn]; ring
    · rw [h0, h1, sub_zero]; exact hnn
    · rw [hpn, h0, h1, sub_zero, hgap]
      rcases hoff with ⟨hz, hov⟩ | ⟨hext, -⟩
      · left
        exact ⟨hz, by linarith⟩
      · right
        have e : 0 + cell_a P c + 0 = cell_a P c := by ring
        rw [e]
        exact hext
  by_cases hwa : wrap_test P a c = true
  · obtain ⟨hrow, hrel'⟩ := hline (Or.inl hwa)
    obtain ⟨hcb, -, -, hrh⟩ := allocate_child_row_height_rel P a b c rest hw hb1 hb2 hrow
    refine ⟨?_, hcb, hrh, hrel', ?_⟩
    · rw [allocate_child_wrapped, allocate_child_wrapped]; exact hw
    · intro hpw
      rw [allocate_child_wrapped, hwa] at hpw
      exact Bool.noConfusion hpw
  · have hwa' : wrap_test P a c = false := by simpa using hwa
    have hfit : a.current_a + cell_a P c ≤ P.a_wrap := by
      by_contra hn
      exact hwa (hwp.mpr (not_le.mp hn))
    rcases hcase with ⟨hf, ha0, hs⟩ | ⟨hf, ⟨hs, hov⟩ | hext⟩
    · obtain ⟨hrow, hrel'⟩ := hline (Or.inr ⟨hf, ha0, hs⟩)
      obtain ⟨hcb, -, -, hrh⟩ := allocate_child_row_height_rel P a b c rest hw hb1 hb2 hrow
      refine ⟨?_, hcb, hrh, hrel', ?_⟩
      · rw [allocate_child_wrapped, allocate_child_wrapped]; exact hw
      · intro _ hbf
        rw [hf] at hbf
        exact Bool.noConfusion hbf
    · linarith
    · have hp0 : (allocate_child P a c rest).2.current_a = a.current_a := by
        rw [hpa, hwa']; simp
      have hq0 : (allocate_child (with_end_align P true) b c rest).2.current_a
          = a.current_a + s := by
        rw [hqa, hw, hwa', hf, hb3]; simp
      have hrow : ∀ best : ℚ,
          compute_row_height (c :: rest) best
              (allocate_child (with_end_align P true) b c rest).2.current_a P
            = compute_row_height (c :: rest) best (allocate_child P a c rest).2.current_a P := by
        intro best
        rw [hp0, hq0]
        exact compute_row_height_shift P hgap (c :: rest) best a.current_a s hallp hext
      obtain ⟨hcb, hcb', hnb, hrh⟩ :=
        allocate_child_row_height_rel P a b c rest hw hb1 hb2 hrow
      have hd : (allocate_child (with_end_align P true) b c rest).2.current_a
          - (allocate_child P a c rest).2.current_a = s := by
        rw [hp0, hq0]; ring
      refine ⟨?_, hcb, hrh, ⟨hcb', hnb, ?_, ?_, Or.inr ⟨hfob, Or.inr ?_⟩⟩, fun _ _ => hd⟩
      · rw [allocate_child_wrapped, allocate_child_wrapped]; exact hw
      · rw [hqn, hpn]; ring
      · rw [hd]; exact hs0
      · rw [hd, hpn, hp0]
        rw [row_extent_cons, hgap, if_neg (by linarith)] at hext
        rw [hgap]
        exact hext

theorem end_align_loop_at (P : NbtkGridPrivate) (hE : P.end_align = false)
    (hgap : agap P = 0) (iter : List Child) :
    ∀ (s : ℚ) (a b : LoopState), end_align_rel P s a b iter → (∀ d ∈ iter, flow_ok P d) →
      ∀ (i : ℕ) (p q : Placed),
        (allocate_loop P a iter).2[i]? = some (some p) →
        (allocate_loop (with_end_align P true) b iter).2[i]? = some (some q) →
        ∃ (s1 : ℚ) (a1 b1 : LoopState) (c : Child) (rest : List Child),
          end_align_rel P s1 a1 b1 (c :: rest) ∧ flow_ok P c ∧ (∀ d ∈ rest, flow_ok P d) ∧
            p = (allocate_child P a1 c rest).2 ∧
            q = (allocate_child (with_end_align P true) b1 c rest).2 ∧
            (allocate_loop P a iter).2.drop (i + 1)
              = (allocate_loop P (allocate_child P a1 c rest).1 rest).2 ∧
            (allocate_loop (with_end_align P true) b iter).2.drop (i + 1)
              = (allocate_loop (with_end_align P true)
                  (allocate_child (with_end_align P true) b1 c rest).1 rest).2 := by
  induction iter with
  | nil =>
    intro s a b _ _ i p q hp
    simp [allocate_loop] at hp
  | cons x rest ih =>
    intro s a b hrel hall i p q hp hq
    have hx := hall x (List.mem_cons_self _ _)
    have hr : ∀ d ∈ rest, flow_ok P d := fun d hd => hall d (List.mem_cons_of_mem _ hd)
    rw [allocate_loop_cons_visible P a x rest hx.1] at hp ⊢
    rw [allocate_loop_cons_visible (with_end_align P true) b x rest hx.1] at hq ⊢
    cases i with
    | zero =>
      simp only [List.getElem?_cons_zero, Option.some.injEq] at hp hq
      exact ⟨s, a, b, x, rest, hrel, hx, hr, hp.symm, hq.symm, rfl, rfl⟩
    | succ i =>
      simp only [List.getElem?_cons_succ] at hp hq
      obtain ⟨-, -, -, hrel', -⟩ := end_align_step P hE hgap s a b x rest hx hr hrel
      obtain ⟨s1, a1, b1, c, rest1, h1, h2, h3, h4, h5, h6, h7⟩ :=
        ih _ _ _ hrel' hr i p q hp hq
      exact ⟨s1, a1, b1, c, rest1, h1, h2, h3, h4, h5, by simpa using h6, by simpa using h7⟩

theorem end_align_loop_same_line (P : NbtkGridPrivate) (hE : P.end_align = false)
    (hgap : agap P = 0) (iter : List Child) :
    ∀ (s : ℚ) (a b : LoopState), end_align_rel P s a b iter → b.first_of_batch = false →
      (∀ d ∈ iter, flow_ok P d) →
      ∀ (m : ℕ) (p q : Placed),
        (allocate_loop P a iter).2[m]? = some (some p) →
        (allocate_loop (with_end_align P true) b iter).2[m]? = some (some q) →
        (∀ (k : ℕ) (r : Placed), k ≤ m → (allocate_loop P a iter).2[k]? = some (some r) →
          r.wrapped = false) →
        q.current_a - p.current_a = s := by
  induction iter with
  | nil =>
    intro s a b _ _ _ m p q hp
    simp [allocate_loop] at hp
  | cons x rest ih =>
    intro s a b hrel hbf hall m p q hp hq hmid
    have hx := hall x (List.mem_cons_self _ _)
    have hr : ∀ d ∈ rest, flow_ok P d := fun d hd => hall d (List.mem_cons_of_mem _ hd)
    rw [allocate_loop_cons_visible P a x rest hx.1] at hp hmid
    rw [allocate_loop_cons_visible (with_end_align P true) b x rest hx.1] at hq
    obtain ⟨-, -, -, hrel', hsame⟩ := end_align_step P hE hgap s a b x rest hx hr hrel
    have h0 : (allocate_child P a x rest).2.wrapped = false :=
      hmid 0 _ (Nat.zero_le m) (by simp)
    have hs := hsame h0 hbf
    cases m with
    | zero =>
      simp only [List.getElem?_cons_zero, Option.some.injEq] at hp hq
      rw [← hp, ← hq]
      exact hs
    | succ m =>
      simp only [List.getElem?_cons_succ] at hp hq
      rw [hs] at hrel'
      exact ih s _ _ hrel'
        (allocate_child_first_of_batch (with_end_align P true) b x rest rfl) hr m p q hp hq
        (fun k r hk hkr => hmid (k + 1) r (Nat.succ_le_succ hk) (by simpa using hkr))

theorem allocate_setup_end_align (priv : NbtkGridPrivate) (box : ClutterActorBox) (e : Bool) :
    allocate_setup (with_end_align priv e) box
      = with_end_align (allocate_setup (with_end_align priv false) box) e := by
  unfold allocate_setup with_end_align
  simp only [homogenous_a, homogenous_b]
  split_ifs <;> rfl

theorem end_align_gap_sample_placed :
    (nbtk_grid_do_allocate (with_end_align end_align_gap_sample false) ⟨0, 0, 34, 100⟩).placed =
        [some ⟨⟨0, 0, 10, 1⟩, false, 0, 0, 1⟩, some ⟨⟨12, 0, 22, 1⟩, false, 12, 0, 1⟩,
          some ⟨⟨24, 0, 34, 1⟩, false, 24, 0, 1⟩] ∧
      (nbtk_grid_do_allocate (with_end_align end_align_gap_sample true) ⟨0, 0, 34, 100⟩).placed =
        [some ⟨⟨10, 0, 20, 1⟩, false, 10, 0, 1⟩, some ⟨⟨22, 0, 32, 1⟩, false, 22, 0, 1⟩,
          some ⟨⟨22, 1, 32, 2⟩, true, 22, 1, 1⟩] := by
  constructor
  · simp [nbtk_grid_do_allocate, with_end_align, end_align_gap_sample, allocate_setup,
      allocate_loop, allocate_child, measure_loop, homogenous_a, homogenous_b, aalign, balign,
      agap, bgap, compute_row_height, compute_row_start, compute_row_start_loop]
    norm_num
  · simp [nbtk_grid_do_allocate, with_end_align, end_align_gap_sample, allocate_setup,
      allocate_loop, allocate_child, measure_loop, homogenous_a, homogenous_b, aalign, balign,
      agap, bgap, compute_row_height, compute_row_start, compute_row_start_loop]
    norm_num

/-- C24, evaluated at the failing input: three children of width 10 with a
column gap of 2 in a width of 34. Without end alignment they fill one line, at `x = 0, 12, 24`
(the wrap test `current_a + natural_a > a_wrap` does not count the gap). With
end alignment `compute_row_start` counts a gap after every child, finds room
for two children only and starts the line at `x = 10`; the third child
arrives at `x = 34` and is wrapped to a second line. -/
theorem end_align_only_justifies_fails :
    (∀ c ∈ end_align_gap_sample.list, 0 < c.natural_width ∧ 0 < c.natural_height) ∧
      (nbtk_grid_do_allocate (with_end_align end_align_gap_sample false)
          ⟨0, 0, 34, 100⟩).placed.map (Option.map fun p => (p.wrapped, p.child_box)) =
        [some (false, ⟨0, 0, 10, 1⟩), some (false, ⟨12, 0, 22, 1⟩),
          some (false, ⟨24, 0, 34, 1⟩)] ∧
      (nbtk_grid_do_allocate (with_end_align end_align_gap_sample true)
          ⟨0, 0, 34, 100⟩).placed.map (Option.map fun p => (p.wrapped, p.child_box)) =
        [some (false, ⟨10, 0, 20, 1⟩), some (false, ⟨22, 0, 32, 1⟩),
          some (true, ⟨22, 1, 32, 2⟩)] ∧
      ¬ end_align_only_justifies end_align_gap_sample ⟨0, 0, 34, 100⟩ := by
  refine ⟨by simp [end_align_gap_sample], by rw [end_align_gap_sample_placed.1]; rfl,
    by rw [end_align_gap_sample_placed.2]; rfl, ?_⟩
  intro h
  have h2 := (h 2 ⟨⟨24, 0, 34, 1⟩, false, 24, 0, 1⟩ ⟨⟨22, 1, 32, 2⟩, true, 22, 1, 1⟩
    (by rw [end_align_gap_sample_placed.1]; rfl)
    (by rw [end_align_gap_sample_placed.2]; rfl)).1
  exact Bool.noConfusion h2

/-- When the two wrap tests cannot disagree, end alignment only justifies
lines. For well-formed input with a major-axis gap of 0, all children visible
and of positive major size (and a homogeneous major axis only in row-major
orientation), the layout with `end_align` on gives every child the same wrap
flag, the same minor line origin and the same minor-axis interval as the
layout with `end_align` off; its major-axis interval is that of the other
layout moved by a non-negative offset, and the offset is the same for all
children of one line. -/
theorem end_align_same_lines (priv : NbtkGridPrivate) (box : ClutterActorBox)
    (hwf : well_formed priv)
    (hdesign : homogenous_a priv = true → priv.column_major = false)
    (hgap : agap priv = 0)
    (hvis : ∀ c ∈ priv.list, c.visible = true)
    (hpos : ∀ c ∈ priv.list, 0 < natural_a priv c)
    (i : ℕ) (p q : Placed)
    (hp : (nbtk_grid_do_allocate (with_end_align priv false) box).placed[i]? = some (some p))
    (hq : (nbtk_grid_do_allocate (with_end_align priv true) box).placed[i]? = some (some q)) :
    q.wrapped = p.wrapped ∧ q.current_b = p.current_b ∧
      minor1 priv q.child_box = minor1 priv p.child_box ∧
      minor2 priv q.child_box = minor2 priv p.child_box ∧
      0 ≤ q.current_a - p.current_a ∧
      major1 priv q.child_box = major1 priv p.child_box + (q.current_a - p.current_a) ∧
      major2 priv q.child_box = major2 priv p.child_box + (q.current_a - p.current_a) ∧
      ∀ (j : ℕ) (p1 q1 : Placed), i < j →
        (nbtk_grid_do_allocate (with_end_align priv false) box).placed[j]? = some (some p1) →
        (nbtk_grid_do_allocate (with_end_align priv true) box).placed[j]? = some (some q1) →
        (∀ (k : ℕ) (r : Placed), i < k → k ≤ j →
          (nbtk_grid_do_allocate (with_end_align priv false) box).placed[k]? = some (some r) →
          r.wrapped = false) →
        q1.current_a - p1.current_a = q.current_a - p.current_a := by
  obtain ⟨-, -, hag, -, -, -, hna, -, hm1, hm2, hn1, hn2⟩ :=
    allocate_setup_locals (with_end_align priv false) box
  obtain ⟨hl, -⟩ := allocate_setup_fields (with_end_align priv false) box
  obtain ⟨-, -, -, -, hEoff, -⟩ := allocate_setup_fields (with_end_align priv false) box
  have hcell := allocate_setup_cell_facts (with_end_align priv false) box hwf hdesign
  have hE : (allocate_setup (with_end_align priv false) box).end_align = false := hEoff
  have hgapP : agap (allocate_setup (with_end_align priv false) box) = 0 := by
    rw [hag]; exact hgap
  have hall : ∀ d ∈ (allocate_setup (with_end_align priv false) box).list,
      flow_ok (allocate_setup (with_end_align priv false) box) d := by
    intro d hd
    have hd' : d ∈ priv.list := by rw [hl] at hd; exact hd
    refine ⟨hvis d hd', ?_, (hcell d hd).2.2 (hvis d hd')⟩
    rw [hna]
    exact hpos d hd'
  have hon : (nbtk_grid_do_allocate (with_end_align priv true) box).placed =
      (allocate_loop (with_end_align (allocate_setup (with_end_align priv false) box) true)
        ⟨0, 0, 0, true, 0, 0⟩ (allocate_setup (with_end_align priv false) box).list).2 := by
    show (allocate_loop (allocate_setup (with_end_align priv true) box) _
      (allocate_setup (with_end_align priv true) box).list).2 = _
    rw [allocate_setup_end_align priv box true]
    rfl
  rw [hon] at hq
  have hinit : end_align_rel (allocate_setup (with_end_align priv false) box) 0
      ⟨0, 0, 0, true, 0, 0⟩ ⟨0, 0, 0, true, 0, 0⟩
      (allocate_setup (with_end_align priv false) box).list :=
    ⟨rfl, rfl, by norm_num, le_rfl, Or.inl ⟨rfl, rfl, rfl⟩⟩
  obtain ⟨s1, a1, b1, c, rest, hrel, hc, hrest, hpe, hqe, hdp, hdq⟩ :=
    end_align_loop_at _ hE hgapP _ 0 _ _ hinit hall i p q hp hq
  obtain ⟨hw, hcb, hrh, hrel', -⟩ := end_align_step _ hE hgapP s1 a1 b1 c rest hc hrest hrel
  rw [← hpe, ← hqe] at hw hcb hrh hrel'
  have hM1p := allocate_child_major1 (allocate_setup (with_end_align priv false) box) a1 c rest
  have hM1q := allocate_child_major1
    (with_end_align (allocate_setup (with_end_align priv false) box) true) b1 c rest
  have hM2p := allocate_child_major2 (allocate_setup (with_end_align priv false) box) a1 c rest
  have hM2q := allocate_child_major2
    (with_end_align (allocate_setup (with_end_align priv false) box) true) b1 c rest
  have hN1p := allocate_child_minor1 (allocate_setup (with_end_align priv false) box) a1 c rest
  have hN1q := allocate_child_minor1
    (with_end_align (allocate_setup (with_end_align priv false) box) true) b1 c rest
  have hN2p := allocate_child_minor2 (allocate_setup (with_end_align priv false) box) a1 c rest
  have hN2q := allocate_child_minor2
    (with_end_align (allocate_setup (with_end_align priv false) box) true) b1 c rest
  rw [← hpe] at hM1p hM2p hN1p hN2p
  rw [← hqe] at hM1q hM2q hN1q hN2q
  have e1 : ∀ b, major1 priv b
      = major1 (allocate_setup (with_end_align priv false) box) b := fun b => (hm1 b).symm
  have e2 : ∀ b, major2 priv b
      = major2 (allocate_setup (with_end_align priv false) box) b := fun b => (hm2 b).symm
  have e3 : ∀ b, minor1 priv b
      = minor1 (allocate_setup (with_end_align priv false) box) b := fun b => (hn1 b).symm
  have e4 : ∀ b, minor2 priv b
      = minor2 (allocate_setup (with_end_align priv false) box) b := fun b => (hn2 b).symm
  have f1 : major1 (allocate_setup (with_end_align priv false) box) q.child_box
      = major1 (allocate_setup (with_end_align priv false) box) p.child_box
        + (q.current_a - p.current_a) := by
    have hM1q' : major1 (allocate_setup (with_end_align priv false) box) q.child_box =
        if homogenous_a (allocate_setup (with_end_align priv false) box) then
          q.current_a + ((allocate_setup (with_end_align priv false) box).max_extent_a
            - natural_a (allocate_setup (with_end_align priv false) box) c)
            * aalign (allocate_setup (with_end_align priv false) box)
        else q.current_a := hM1q
    rw [hM1q', hM1p]
    split_ifs <;> ring
  have f2 : major2 (allocate_setup (with_end_align priv false) box) q.child_box
      = major2 (allocate_setup (with_end_align priv false) box) p.child_box
        + (q.current_a - p.current_a) := by
    have hM2q' : major2 (allocate_setup (with_end_align priv false) box) q.child_box =
        major1 (allocate_setup (with_end_align priv false) box) q.child_box
          + natural_a (allocate_setup (with_end_align priv false) box) c := hM2q
    rw [hM2q', hM2p, f1]
    ring
  have f3 : minor1 (allocate_setup (with_end_align priv false) box) q.child_box
      = minor1 (allocate_setup (with_end_align priv false) box) p.child_box := by
    have hN1q' : minor1 (allocate_setup (with_end_align priv false) box) q.child_box =
        q.current_b + (q.row_height
          - natural_b (allocate_setup (with_end_align priv false) box) c)
          * balign (allocate_setup (with_end_align priv false) box) := hN1q
    rw [hN1q', hN1p, hcb, hrh]
  have f4 : minor2 (allocate_setup (with_end_align priv false) box) q.child_box
      = minor2 (allocate_setup (with_end_align priv false) box) p.child_box := by
    have hN2q' : minor2 (allocate_setup (with_end_align priv false) box) q.child_box =
        minor1 (allocate_setup (with_end_align priv false) box) q.child_box
          + natural_b (allocate_setup (with_end_align priv false) box) c := hN2q
    rw [hN2q', hN2p, f3]
  refine ⟨hw, hcb, by rw [e3, e3]; exact f3, by rw [e4, e4]; exact f4, hrel'.2.2.2.1,
    by rw [e1, e1]; exact f1, by rw [e2, e2]; exact f2, ?_⟩
  intro j p1 q1 hij hp1 hq1 hmid
  rw [hon] at hq1
  have hp1' : (allocate_loop (allocate_setup (with_end_align priv false) box)
      (allocate_child (allocate_setup (with_end_align priv false) box) a1 c rest).1
        rest).2[j - i - 1]? = some (some p1) := by
    rw [← hdp, List.getElem?_drop]
    have : i + 1 + (j - i - 1) = j := by omega
    rw [this]
    exact hp1
  have hq1' : (allocate_loop
      (with_end_align (allocate_setup (with_end_align priv false) box) true)
      (allocate_child (with_end_align (allocate_setup (with_end_align priv false) box) true)
        b1 c rest).1 rest).2[j - i - 1]? = some (some q1) := by
    rw [← hdq, List.getElem?_drop]
    have : i + 1 + (j - i - 1) = j := by omega
    rw [this]
    exact hq1
  have hmid' : ∀ (k : ℕ) (r : Placed), k ≤ j - i - 1 →
      (allocate_loop (allocate_setup (with_end_align priv false) box)
        (allocate_child (allocate_setup (with_end_align priv false) box) a1 c rest).1
          rest).2[k]? = some (some r) → r.wrapped = false := by
    intro k r hk hr
    rw [← hdp, List.getElem?_drop] at hr
    exact hmid (i + 1 + k) r (by omega) (by omega) hr
  rw [hpe, hqe] at hrel' ⊢
  exact end_align_loop_same_line _ hE hgapP rest _ _ _ hrel'
    (allocate_child_first_of_batch _ b1 c rest rfl) hrest (j - i - 1) p1 q1 hp1' hq1' hmid'

theorem zero_gap_sample_placed :
    (nbtk_grid_do_allocate (with_end_align zero_gap_sample false)
        ⟨0, 0, 25, 100⟩).placed =
        [some ⟨⟨0, 0, 10, 1⟩, false, 0, 0, 1⟩, some ⟨⟨10, 0, 20, 1⟩, false, 10, 0, 1⟩,
          some ⟨⟨0, 1, 10, 2⟩, true, 0, 1, 1⟩] ∧
      (nbtk_grid_do_allocate (with_end_align zero_gap_sample true)
        ⟨0, 0, 25, 100⟩).placed =
        [some ⟨⟨5, 0, 15, 1⟩, false, 5, 0, 1⟩, some ⟨⟨15, 0, 25, 1⟩, false, 15, 0, 1⟩,
          some ⟨⟨15, 1, 25, 2⟩, true, 15, 1, 1⟩] := by
  constructor
  · simp [nbtk_grid_do_allocate, with_end_align, zero_gap_sample, allocate_setup,
      allocate_loop, allocate_child, measure_loop, homogenous_a, homogenous_b, aalign, balign,
      agap, bgap, compute_row_height, compute_row_start, compute_row_start_loop]
    norm_num
  · simp [nbtk_grid_do_allocate, with_end_align, zero_gap_sample, allocate_setup,
      allocate_loop, allocate_child, measure_loop, homogenous_a, homogenous_b, aalign, balign,
      agap, bgap, compute_row_height, compute_row_start, compute_row_start_loop]
    norm_num

theorem end_align_same_lines_witness :
    (well_formed zero_gap_sample ∧ agap zero_gap_sample = 0 ∧
      (∀ c ∈ zero_gap_sample.list, c.visible = true) ∧
      (∀ c ∈ zero_gap_sample.list, 0 < natural_a zero_gap_sample c)) ∧
      (⟨⟨15, 0, 25, 1⟩, false, 15, 0, 1⟩ : Placed).wrapped
        = (⟨⟨10, 0, 20, 1⟩, false, 10, 0, 1⟩ : Placed).wrapped ∧
      major1 zero_gap_sample (⟨⟨15, 0, 25, 1⟩, false, 15, 0, 1⟩ : Placed).child_box
        = major1 zero_gap_sample (⟨⟨10, 0, 20, 1⟩, false, 10, 0, 1⟩ : Placed).child_box
          + ((⟨⟨15, 0, 25, 1⟩, false, 15, 0, 1⟩ : Placed).current_a
            - (⟨⟨10, 0, 20, 1⟩, false, 10, 0, 1⟩ : Placed).current_a) := by
  have hwf : well_formed zero_gap_sample := by
    simp [well_formed, zero_gap_sample]
  have hvis : ∀ c ∈ zero_gap_sample.list, c.visible = true := by
    simp [zero_gap_sample]
  have hpos : ∀ c ∈ zero_gap_sample.list, 0 < natural_a zero_gap_sample c := by
    simp [zero_gap_sample, natural_a]
  have h := end_align_same_lines zero_gap_sample ⟨0, 0, 25, 100⟩ hwf
    (by intro h; simp [homogenous_a, zero_gap_sample] at h) rfl hvis hpos 1
    ⟨⟨10, 0, 20, 1⟩, false, 10, 0, 1⟩ ⟨⟨15, 0, 25, 1⟩, false, 15, 0, 1⟩
    (by rw [zero_gap_sample_placed.1]; rfl)
    (by rw [zero_gap_sample_placed.2]; rfl)
  exact ⟨⟨hwf, rfl, hvis, hpos⟩, h.1, h.2.2.2.2.2.1⟩

theorem transposed_natural (P T : NbtkGridPrivate) (h : transposed P T) (c : Child) :
    natural_a T (transpose_child c) = natural_a P c ∧
      natural_b T (transpose_child c) = natural_b P c ∧
      cell_a T (transpose_child c) = cell_a P c := by
  obtain ⟨hcm, hha, -, -, -, -, -, -, hma, -⟩ := h
  have h1 : natural_a T (transpose_child c) = natural_a P c := by
    unfold natural_a transpose_child
    rw [hcm]
    cases P.column_major <;> rfl
  have h2 : natural_b T (transpose_child c) = natural_b P c := by
    unfold natural_b transpose_child
    rw [hcm]
    cases P.column_major <;> rfl
  refine ⟨h1, h2, ?_⟩
  unfold cell_a
  rw [hha, hma, h1]

theorem compute_row_height_transposed (P T : NbtkGridPrivate) (h : transposed P T)
    (l : List Child) :
    ∀ best cur : ℚ,
      compute_row_height (l.map transpose_child) best cur T = compute_row_height l best cur P := by
  induction l with
  | nil => intro best cur; rfl
  | cons c l ih =>
    intro best cur
    obtain ⟨-, h2, h3⟩ := transposed_natural P T h c
    rw [List.map_cons, compute_row_height_cons, compute_row_height_cons, ih, h2, h3, h.2.2.2.1,
      h.2.2.2.2.2.2.2.1]

theorem compute_row_start_loop_transposed (P T : NbtkGridPrivate) (h : transposed P T)
    (l : List Child) :
    ∀ start cur : ℚ,
      compute_row_start_loop (l.map transpose_child) start cur T
        = compute_row_start_loop l start cur P := by
  induction l with
  | nil =>
    intro start cur
    show T.a_wrap - cur = P.a_wrap - cur
    rw [h.2.2.2.2.2.2.2.1]
  | cons c l ih =>
    intro start cur
    obtain ⟨-, -, h3⟩ := transposed_natural P T h c
    rw [List.map_cons, compute_row_start_loop_cons, compute_row_start_loop_cons, ih, h3,
      h.2.2.2.1, h.2.2.2.2.2.2.2.1]

theorem allocate_child_transposed (P T : NbtkGridPrivate) (h : transposed P T)
    (st : LoopState) (c : Child) (rest : List Child) :
    allocate_child T (transpose_state st) (transpose_child c) (rest.map transpose_child)
      = (transpose_state (allocate_child P st c rest).1,
          transpose_placed (allocate_child P st c rest).2) := by
  have hrs := fun x => compute_row_start_loop_transposed P T h (c :: rest) x x
  have hrh := fun b x => compute_row_height_transposed P T h (c :: rest) b x
  simp only [List.map_cons] at hrs hrh
  obtain ⟨hcm, hha, hhb, hag, hbg, haa, hba, haw, hma, hmb, hea⟩ := h
  unfold allocate_child
  simp only [hha, hhb, hag, hbg, haa, hba, haw, hma, hmb, hea, hcm, transpose_state,
    compute_row_start, hrs, hrh]
  cases P.column_major <;> simp [transpose_placed, transpose_box, transpose_child]

theorem allocate_loop_transposed (P T : NbtkGridPrivate) (h : transposed P T)
    (iter : List Child) :
    ∀ st : LoopState,
      allocate_loop T (transpose_state st) (iter.map transpose_child)
        = (transpose_state (allocate_loop P st iter).1,
            (allocate_loop P st iter).2.map (Option.map transpose_placed)) := by
  induction iter with
  | nil => intro st; rfl
  | cons c rest ih =>
    intro st
    by_cases hv : c.visible = true
    · have hv' : (transpose_child c).visible = true := hv
      rw [List.map_cons, allocate_loop_cons_visible T _ _ _ hv',
        allocate_loop_cons_visible P _ _ _ hv, allocate_child_transposed P T h, ih]
      rfl
    · have hv0 : c.visible = false := by simpa using hv
      have hv' : (transpose_child c).visible = false := hv0
      rw [List.map_cons, allocate_loop_cons_hidden T _ _ _ hv',
        allocate_loop_cons_hidden P _ _ _ hv0, ih]
      rfl

theorem allocate_setup_transposed (priv : NbtkGridPrivate) (box : ClutterActorBox)
    (hr : priv.homogenous_rows = false) (hc : priv.homogenous_columns = false) :
    transposed (allocate_setup priv box)
        (allocate_setup (transpose_priv priv) (transpose_box box)) ∧
      (allocate_setup (transpose_priv priv) (transpose_box box)).list
        = (allocate_setup priv box).list.map transpose_child := by
  unfold transposed allocate_setup transpose_priv transpose_box homogenous_a homogenous_b agap
    bgap aalign balign
  cases hcm : priv.column_major <;> simp [hr, hc, hcm]

/-- Without a homogeneous axis the layout is symmetric under transposition,
for every item sequence and every other setting: what breaks the symmetry is
the measurement pass alone. -/
theorem transposition_symmetric_of_not_homogeneous (priv : NbtkGridPrivate)
    (box : ClutterActorBox)
    (hr : priv.homogenous_rows = false) (hc : priv.homogenous_columns = false) :
    transposition_symmetric priv box := by
  obtain ⟨ht, hl⟩ := allocate_setup_transposed priv box hr hc
  have h := allocate_loop_transposed _ _ ht (allocate_setup priv box).list ⟨0, 0, 0, true, 0, 0⟩
  rw [← hl] at h
  have hst : transpose_state ⟨0, 0, 0, true, 0, 0⟩ = ⟨0, 0, 0, true, 0, 0⟩ := rfl
  rw [hst] at h
  have hp : (nbtk_grid_do_allocate (transpose_priv priv) (transpose_box box)).placed
      = (nbtk_grid_do_allocate priv box).placed.map (Option.map transpose_placed) :=
    congrArg Prod.snd h
  have hs : (allocate_loop (allocate_setup (transpose_priv priv) (transpose_box box))
        ⟨0, 0, 0, true, 0, 0⟩
        (allocate_setup (transpose_priv priv) (transpose_box box)).list).1
      = transpose_state (allocate_loop (allocate_setup priv box) ⟨0, 0, 0, true, 0, 0⟩
          (allocate_setup priv box).list).1 :=
    congrArg Prod.fst h
  refine ⟨?_, ?_, ?_⟩
  · rw [hp, List.map_map]
    apply List.map_congr_left
    intro x _
    cases x with
    | none => rfl
    | some p => rfl
  · show _ = (allocate_loop (allocate_setup (transpose_priv priv) (transpose_box box))
        ⟨0, 0, 0, true, 0, 0⟩
        (allocate_setup (transpose_priv priv) (transpose_box box)).list).1.actual_height
    rw [hs]
    rfl
  · show _ = (allocate_loop (allocate_setup (transpose_priv priv) (transpose_box box))
        ⟨0, 0, 0, true, 0, 0⟩
        (allocate_setup (transpose_priv priv) (transpose_box box)).list).1.actual_width
    rw [hs]
    rfl

end NbtkGrid

namespace MxFingerScroll

theorem rint_intCast (k : ℤ) : rint (k : ℚ) = k := by
  simp [rint]

theorem rint_cases (q : ℚ) :
    (rint q = ⌊q⌋ ∧ q - ⌊q⌋ ≤ 1 / 2) ∨ (rint q = ⌊q⌋ + 1 ∧ 1 / 2 ≤ q - ⌊q⌋) := by
  unfold rint
  split_ifs with h1 h2 h3
  · left; exact ⟨rfl, le_of_lt h1⟩
  · right; exact ⟨rfl, le_of_lt h2⟩
  · left; exact ⟨rfl, le_of_not_lt h2⟩
  · right; exact ⟨rfl, le_of_not_lt h1⟩

theorem rint_nearest (q : ℚ) (m : ℤ) : |q - (rint q : ℚ)| ≤ |q - (m : ℚ)| := by
  have hf := Int.floor_le q
  have hl := Int.lt_floor_add_one q
  have hm : m ≤ ⌊q⌋ ∨ ⌊q⌋ + 1 ≤ m := by omega
  have hm' : |q - (m : ℚ)| ≥ min (q - ⌊q⌋) ((⌊q⌋ : ℚ) + 1 - q) := by
    rcases hm with hm | hm
    · have : (m : ℚ) ≤ (⌊q⌋ : ℚ) := by exact_mod_cast hm
      have h2 : q - ⌊q⌋ ≤ |q - (m : ℚ)| := le_trans (by linarith) (le_abs_self _)
      exact le_trans (min_le_left _ _) h2
    · have : ((⌊q⌋ : ℚ) + 1) ≤ (m : ℚ) := by exact_mod_cast hm
      have h2 : (⌊q⌋ : ℚ) + 1 - q ≤ |q - (m : ℚ)| :=
        le_trans (by linarith) (neg_le_abs _)
      exact le_trans (min_le_right _ _) h2
  rcases rint_cases q with ⟨hr, hle⟩ | ⟨hr, hle⟩
  · rw [hr]
    have : |q - (⌊q⌋ : ℚ)| = q - ⌊q⌋ := abs_of_nonneg (by linarith)
    rw [this]
    refine le_trans (le_min le_rfl ?_) hm'
    linarith
  · rw [hr]
    have : |q - ((⌊q⌋ + 1 : ℤ) : ℚ)| = (⌊q⌋ : ℚ) + 1 - q := by
      push_cast
      rw [abs_of_nonpos (by linarith)]
      ring
    rw [this]
    refine le_trans (le_min ?_ le_rfl) hm'
    linarith

theorem rint_abs_le (q : ℚ) : |q - (rint q : ℚ)| ≤ 1 / 2 := by
  have hf := Int.floor_le q
  have hl := Int.lt_floor_add_one q
  rcases rint_cases q with ⟨hr, hle⟩ | ⟨hr, hle⟩
  · rw [hr, abs_of_nonneg (by linarith)]; exact hle
  · rw [hr]; push_cast; rw [abs_of_nonpos (by linarith)]; linarith

theorem rint_eq_round (q : ℚ) (h : q - ⌊q⌋ ≠ 1 / 2) : rint q = round q := by
  have hf := Int.floor_le q
  have hl := Int.lt_floor_add_one q
  rw [round_eq]
  unfold rint
  split_ifs with h1 h2 h3
  · symm
    rw [Int.floor_eq_iff]
    constructor <;> linarith
  · symm
    rw [Int.floor_eq_iff]
    push_cast
    constructor <;> linarith
  · exact absurd (le_antisymm (not_lt.mp h2) (not_lt.mp h1)) h
  · exact absurd (le_antisymm (not_lt.mp h2) (not_lt.mp h1)) h

theorem snap_snap (value lower step : ℚ) (h : step ≠ 0) :
    snap (snap value lower step) lower step = snap value lower step := by
  have e : ((rint ((value - lower) / step) : ℚ) * step + lower - lower) / step
      = ((rint ((value - lower) / step) : ℤ) : ℚ) := by
    field_simp
  unfold snap
  rw [e, rint_intCast]

/-- C3: step-snap idempotence. For a non-zero `step_increment`, snapping an
already snapped value returns it unchanged, both for the snap expression and for
the axis update that `clamp_adjustments` performs with it. -/
theorem snap_idempotent (adj : MxAdjustment) (h : adj.step_increment ≠ 0) :
    snap (snap adj.value adj.lower adj.step_increment) adj.lower adj.step_increment
        = snap adj.value adj.lower adj.step_increment ∧
      clamp_adjustment (clamp_adjustment adj) = clamp_adjustment adj := by
  refine ⟨snap_snap _ _ _ h, ?_⟩
  simp only [clamp_adjustment, mx_adjustment_set_value]
  rw [snap_snap _ _ _ h]

theorem snap_idempotent_witness :
    (⟨7 / 2, 1, 100, 2, 10⟩ : MxAdjustment).step_increment ≠ 0 ∧
      clamp_adjustment (clamp_adjustment ⟨7 / 2, 1, 100, 2, 10⟩)
        = clamp_adjustment ⟨7 / 2, 1, 100, 2, 10⟩ :=
  ⟨by norm_num, (snap_idempotent ⟨7 / 2, 1, 100, 2, 10⟩ (by norm_num)).2⟩

theorem rint_tie (q : ℚ) (h : q - ⌊q⌋ = 1 / 2) :
    rint q % 2 = 0 ∧ (rint q = ⌊q⌋ ∨ rint q = ⌊q⌋ + 1) := by
  unfold rint
  rw [if_neg (by rw [h]; exact lt_irrefl _), if_neg (by rw [h]; exact lt_irrefl _)]
  by_cases he : ⌊q⌋ % 2 = 0
  · rw [if_pos he]
    exact ⟨he, Or.inl rfl⟩
  · rw [if_neg he]
    exact ⟨by omega, Or.inr rfl⟩

/-- C4, counterexample: for `value = 5`, `lower = 0` and `step_increment = 2`
the quotient `5/2` lies halfway between 2 and 3; `rint` takes the even integer
2 and `clamp_adjustments` writes 4, where `round (5/2) = 3` gives 6. Both are
at distance 1 from the input. -/
theorem snaps_to_round_fails :
    0 < (⟨5, 0, 100, 2, 10⟩ : MxAdjustment).step_increment ∧
      rint (((⟨5, 0, 100, 2, 10⟩ : MxAdjustment).value
        - (⟨5, 0, 100, 2, 10⟩ : MxAdjustment).lower)
        / (⟨5, 0, 100, 2, 10⟩ : MxAdjustment).step_increment) = 2 ∧
      round (((⟨5, 0, 100, 2, 10⟩ : MxAdjustment).value
        - (⟨5, 0, 100, 2, 10⟩ : MxAdjustment).lower)
        / (⟨5, 0, 100, 2, 10⟩ : MxAdjustment).step_increment) = 3 ∧
      (clamp_adjustment ⟨5, 0, 100, 2, 10⟩).value = 4 ∧
      ¬ snaps_to_round ⟨5, 0, 100, 2, 10⟩ := by
  have hf : ⌊(5 / 2 : ℚ)⌋ = 2 := by
    rw [Int.floor_eq_iff]
    constructor <;> norm_num
  have hr : rint (5 / 2 : ℚ) = 2 := by
    unfold rint
    rw [hf]
    norm_num
  have hq : ((⟨5, 0, 100, 2, 10⟩ : MxAdjustment).value
      - (⟨5, 0, 100, 2, 10⟩ : MxAdjustment).lower)
      / (⟨5, 0, 100, 2, 10⟩ : MxAdjustment).step_increment = 5 / 2 := by
    norm_num
  have hround : round (5 / 2 : ℚ) = 3 := by
    rw [round_eq, Int.floor_eq_iff]
    constructor <;> norm_num
  have hv : (clamp_adjustment ⟨5, 0, 100, 2, 10⟩).value = 4 := by
    simp only [clamp_adjustment, mx_adjustment_set_value, snap]
    rw [hq, hr]
    norm_num
  refine ⟨by norm_num, by rw [hq, hr], by rw [hq, hround], hv, ?_⟩
  intro h
  have h1 := h.1
  rw [hv, hq, hround] at h1
  norm_num at h1

/-- C4, amended: the value `clamp_adjustments` writes to an axis with
`step_increment > 0` is a nearest step boundary: it is
`lower + k * step_increment` for the integer `k = rint ((value - lower) / step_increment)`.
That `k` is `round` of the quotient unless the quotient lies exactly halfway
between two integers, where `k` is the even one of the two. No integer is
closer to the quotient than `k`, no step boundary is closer to the input value
than the written value, and the two differ by at most `step_increment / 2`. -/
theorem clamp_adjustment_nearest (adj : MxAdjustment) (h : 0 < adj.step_increment) :
    ∃ k : ℤ, k = rint ((adj.value - adj.lower) / adj.step_increment) ∧
      ((adj.value - adj.lower) / adj.step_increment
          - ⌊(adj.value - adj.lower) / adj.step_increment⌋ ≠ 1 / 2 →
        k = round ((adj.value - adj.lower) / adj.step_increment)) ∧
      ((adj.value - adj.lower) / adj.step_increment
          - ⌊(adj.value - adj.lower) / adj.step_increment⌋ = 1 / 2 →
        k % 2 = 0 ∧
          (k = ⌊(adj.value - adj.lower) / adj.step_increment⌋ ∨
            k = ⌊(adj.value - adj.lower) / adj.step_increment⌋ + 1)) ∧
      (clamp_adjustment adj).value = adj.lower + (k : ℚ) * adj.step_increment ∧
      (∀ m : ℤ, |(adj.value - adj.lower) / adj.step_increment - (k : ℚ)|
          ≤ |(adj.value - adj.lower) / adj.step_increment - (m : ℚ)|) ∧
      (∀ m : ℤ, |(clamp_adjustment adj).value - adj.value|
          ≤ |adj.lower + (m : ℚ) * adj.step_increment - adj.value|) ∧
      |(clamp_adjustment adj).value - adj.value| ≤ adj.step_increment / 2 := by
  have key : ∀ m : ℤ, |adj.lower + (m : ℚ) * adj.step_increment - adj.value|
      = |(adj.value - adj.lower) / adj.step_increment - (m : ℚ)| * adj.step_increment := by
    intro m
    have e : adj.lower + (m : ℚ) * adj.step_increment - adj.value
        = -(((adj.value - adj.lower) / adj.step_increment - (m : ℚ)) * adj.step_increment) := by
      field_simp
      ring
    rw [e, abs_neg, abs_mul, abs_of_pos h]
  have hv : (clamp_adjustment adj).value
      = adj.lower + (rint ((adj.value - adj.lower) / adj.step_increment) : ℚ)
          * adj.step_increment := by
    simp only [clamp_adjustment, mx_adjustment_set_value, snap]
    ring
  refine ⟨rint ((adj.value - adj.lower) / adj.step_increment), rfl, rint_eq_round _,
    rint_tie _, hv, ?_, ?_, ?_⟩
  · intro m
    exact rint_nearest _ m
  · intro m
    rw [hv, key, key]
    exact mul_le_mul_of_nonneg_right (rint_nearest _ m) (le_of_lt h)
  · rw [hv, key]
    have := rint_abs_le ((adj.value - adj.lower) / adj.step_increment)
    calc |(adj.value - adj.lower) / adj.step_increment
            - (rint ((adj.value - adj.lower) / adj.step_increment) : ℚ)| * adj.step_increment
        ≤ 1 / 2 * adj.step_increment := mul_le_mul_of_nonneg_right this (le_of_lt h)
      _ = adj.step_increment / 2 := by ring

theorem clamp_adjustment_nearest_witness :
    0 < (⟨5, 0, 100, 2, 10⟩ : MxAdjustment).step_increment ∧
      |(clamp_adjustment ⟨5, 0, 100, 2, 10⟩).value - 5| ≤ (2 : ℚ) / 2 := by
  refine ⟨by norm_num, ?_⟩
  obtain ⟨k, -, -, -, -, -, -, h⟩ :=
    clamp_adjustment_nearest ⟨5, 0, 100, 2, 10⟩ (by norm_num)
  exact h

theorem decel_step_iterate (priv : MxFingerScrollPrivate) (k : ℕ) :
    (decel_step^[k] priv).dx = priv.dx / priv.decel_rate ^ k ∧
      (decel_step^[k] priv).dy = priv.dy / priv.decel_rate ^ k ∧
      (decel_step^[k] priv).decel_rate = priv.decel_rate := by
  induction k with
  | zero => simp
  | succ k ih =>
    obtain ⟨h1, h2, h3⟩ := ih
    rw [Function.iterate_succ_apply']
    refine ⟨?_, ?_, ?_⟩
    · show (decel_step^[k] priv).dx / (decel_step^[k] priv).decel_rate = _
      rw [h1, h3, pow_succ, div_div]
    · show (decel_step^[k] priv).dy / (decel_step^[k] priv).decel_rate = _
      rw [h2, h3, pow_succ, div_div]
    · show (decel_step^[k] priv).decel_rate = _
      exact h3

theorem abs_div_lt_self (v y : ℚ) (hy : 1 < y) (hv : v ≠ 0) : |v / y| < |v| := by
  have hy0 : (0 : ℚ) < y := by linarith
  rw [abs_div, abs_of_pos hy0]
  exact div_lt_self (abs_pos.mpr hv) hy

/-- C7: for `decel_rate > 1`, every simulated deceleration step divides `dx` and
`dy` by `decel_rate`: after `k` steps `dx = dx0 / decel_rate^k` and
`dy = dy0 / decel_rate^k`, and the magnitude of each non-zero velocity component
strictly decreases at the next step. -/
theorem decel_step_decay (priv : MxFingerScrollPrivate) (hy : 1 < priv.decel_rate) (k : ℕ) :
    (decel_step^[k] priv).dx = priv.dx / priv.decel_rate ^ k ∧
      (decel_step^[k] priv).dy = priv.dy / priv.decel_rate ^ k ∧
      (priv.dx ≠ 0 → |(decel_step^[k + 1] priv).dx| < |(decel_step^[k] priv).dx|) ∧
      (priv.dy ≠ 0 → |(decel_step^[k + 1] priv).dy| < |(decel_step^[k] priv).dy|) := by
  obtain ⟨h1, h2, h3⟩ := decel_step_iterate priv k
  have hy0 : (0 : ℚ) < priv.decel_rate := by linarith
  have hp : priv.decel_rate ^ k ≠ 0 := pow_ne_zero _ (ne_of_gt hy0)
  refine ⟨h1, h2, ?_, ?_⟩
  · intro hx
    rw [Function.iterate_succ_apply']
    show |(decel_step^[k] priv).dx / (decel_step^[k] priv).decel_rate| < _
    rw [h3]
    apply abs_div_lt_self _ _ hy
    rw [h1]
    exact div_ne_zero hx hp
  · intro hx
    rw [Function.iterate_succ_apply']
    show |(decel_step^[k] priv).dy / (decel_step^[k] priv).decel_rate| < _
    rw [h3]
    apply abs_div_lt_self _ _ hy
    rw [h2]
    exact div_ne_zero hx hp

theorem decel_step_decay_witness :
    1 < sample_decel.decel_rate ∧
      (decel_step^[2] sample_decel).dx = sample_decel.dx / sample_decel.decel_rate ^ 2 ∧
      |(decel_step^[2 + 1] sample_decel).dx| < |(decel_step^[2] sample_decel).dx| := by
  have h := decel_step_decay sample_decel (by norm_num [sample_decel]) 2
  exact ⟨by norm_num [sample_decel], h.1, h.2.2.1 (by norm_num [sample_decel])⟩

theorem axis_moving_eq_false_iff (d : ℚ) (adj : MxAdjustment) :
    axis_moving d adj = false ↔ axis_done d adj := by
  unfold axis_moving axis_done
  simp only [Bool.or_eq_false_iff, Bool.and_eq_false_iff, decide_eq_false_iff_not, not_lt,
    gt_iff_lt, ge_iff_le]
  constructor
  · rintro ⟨h1, h2⟩
    rcases lt_trichotomy d 0 with hd | hd | hd
    · right; right
      rcases h2 with h2 | h2
      · exact absurd hd (not_lt.mpr h2)
      · exact ⟨hd, h2⟩
    · left; exact hd
    · right; left
      rcases h1 with h1 | h1
      · exact absurd hd (not_lt.mpr h1)
      · exact ⟨hd, h1⟩
  · rintro (h | ⟨h, h'⟩ | ⟨h, h'⟩)
    · subst h; exact ⟨Or.inl le_rfl, Or.inl le_rfl⟩
    · exact ⟨Or.inr h', Or.inl (le_of_lt h)⟩
    · exact ⟨Or.inl (le_of_lt h), Or.inr h'⟩

theorem deceleration_stop_iff (priv : MxFingerScrollPrivate) (c : MxScrollable) :
    deceleration_stop priv c = true ↔ axis_done priv.dx c.hadjust ∧ axis_done priv.dy c.vadjust := by
  rw [← axis_moving_eq_false_iff, ← axis_moving_eq_false_iff]
  unfold deceleration_stop
  cases axis_moving priv.dx c.hadjust <;> cases axis_moving priv.dy c.vadjust <;> simp

theorem decel_step_child_timeline (priv : MxFingerScrollPrivate) :
    (decel_step priv).child.isSome = priv.child.isSome ∧
      (decel_step priv).deceleration_timeline = priv.deceleration_timeline := by
  simp [decel_step]

theorem decel_loop_child_timeline (priv : MxFingerScrollPrivate) :
    (decel_loop priv).child.isSome = priv.child.isSome ∧
      (decel_loop priv).deceleration_timeline = priv.deceleration_timeline := by
  induction priv using decel_loop.induct with
  | case1 p h ih =>
    rw [decel_loop, if_pos h]
    rw [ih.1, ih.2]
    exact decel_step_child_timeline p
  | case2 p h =>
    rw [decel_loop, if_neg h]
    exact ⟨rfl, rfl⟩

theorem deceleration_frame_steps_child_timeline (priv : MxFingerScrollPrivate) (delta : ℚ) :
    (deceleration_frame_steps priv delta).child.isSome = priv.child.isSome ∧
      (deceleration_frame_steps priv delta).deceleration_timeline
        = priv.deceleration_timeline :=
  decel_loop_child_timeline _

/-- C10: with a child and a running timeline, let `priv1` be the state after the
simulated steps of a frame callback (`deceleration_frame_steps`).
`deceleration_new_frame_cb` stops the deceleration (it runs
`deceleration_completed_cb`, which clears the timeline) if and only if each of
the two axes has zero velocity or has reached its travel limit in the direction
of motion; otherwise the callback returns `priv1` with the timeline still
running. -/
theorem deceleration_stops_iff (priv : MxFingerScrollPrivate) (delta : ℚ)
    (hc : priv.child.isSome = true) (ht : priv.deceleration_timeline.isSome = true) :
    ∃ c1, (deceleration_frame_steps priv delta).child = some c1 ∧
      ((deceleration_new_frame_cb priv delta).deceleration_timeline = none ↔
        axis_done (deceleration_frame_steps priv delta).dx c1.hadjust ∧
          axis_done (deceleration_frame_steps priv delta).dy c1.vadjust) ∧
      ((deceleration_new_frame_cb priv delta).deceleration_timeline = none →
        deceleration_new_frame_cb priv delta
          = deceleration_completed_cb (deceleration_frame_steps priv delta)) ∧
      ((deceleration_new_frame_cb priv delta).deceleration_timeline ≠ none →
        deceleration_new_frame_cb priv delta = deceleration_frame_steps priv delta) := by
  obtain ⟨c, hc'⟩ := Option.isSome_iff_exists.mp hc
  have hl := deceleration_frame_steps_child_timeline priv delta
  have hl1 : (deceleration_frame_steps priv delta).child.isSome = true := by
    rw [hl.1]; exact hc
  obtain ⟨c1, hc1⟩ := Option.isSome_iff_exists.mp hl1
  have hcb : deceleration_new_frame_cb priv delta =
      if deceleration_stop (deceleration_frame_steps priv delta) c1
      then deceleration_completed_cb (deceleration_frame_steps priv delta)
      else deceleration_frame_steps priv delta := by
    unfold deceleration_new_frame_cb
    rw [hc']
    simp only [hc1]
  have htl : (deceleration_frame_steps priv delta).deceleration_timeline ≠ none := by
    rw [hl.2]
    exact Option.isSome_iff_ne_none.mp ht
  refine ⟨c1, hc1, ?_, ?_, ?_⟩
  · rw [← deceleration_stop_iff, hcb]
    split_ifs with hs
    · simp [deceleration_completed_cb, hs]
    · simp [hs, htl]
  · rw [hcb]
    split_ifs with hs
    · intro _; rfl
    · intro h; exact absurd h htl
  · rw [hcb]
    split_ifs with hs
    · intro h; exact absurd rfl h
    · intro _; rfl

theorem deceleration_stops_iff_witness :
    sample_decel.child.isSome = true ∧ sample_decel.deceleration_timeline.isSome = true ∧
      (deceleration_new_frame_cb sample_decel 20).deceleration_timeline ≠ none := by
  obtain ⟨c1, h1, h2, -, -⟩ := deceleration_stops_iff sample_decel 20 rfl rfl
  refine ⟨rfl, rfl, ?_⟩
  rw [Ne, h2]
  have e : deceleration_frame_steps sample_decel 20
      = { sample_decel with
          child := some ⟨⟨30, 0, 1000, 5, 100⟩, ⟨6, 0, 1000, 5, 100⟩⟩
          dx := 200 / 11, dy := -40 / 11, accumulated_delta := 10 / 3 } := by
    unfold deceleration_frame_steps
    rw [decel_loop, if_pos (by norm_num [sample_decel]), decel_loop,
      if_neg (by norm_num [sample_decel, decel_step])]
    simp only [decel_step, sample_decel, mx_adjustment_set_value, Option.map_some']
    norm_num
  rw [e] at h1 ⊢
  have hc : c1 = ⟨⟨30, 0, 1000, 5, 100⟩, ⟨6, 0, 1000, 5, 100⟩⟩ := by
    simpa using h1.symm
  subst hc
  intro h
  rcases h.1 with h | h | h <;> norm_num [sample_decel] at h

theorem geometric_a_pos (y : ℚ) (hy : 1 < y) (n : ℕ) : 0 < geometric_a y n := by
  have hy0 : (0 : ℚ) < y := by linarith
  have hp : (1 : ℚ) < y ^ (n + 1) := one_lt_pow₀ hy (Nat.succ_ne_zero n)
  unfold geometric_a
  apply div_pos
  · have : 1 / y ^ (n + 1) < 1 := by
      rw [div_lt_one (by linarith)]; exact hp
    linarith
  · have : 1 / y < 1 := by
      rw [div_lt_one hy0]; exact hy
    linarith

theorem geometric_sum_succ (y : ℚ) (hy : 1 < y) (k : ℕ) :
    geometric_sum y (k + 1) = geometric_sum y k + 1 / y ^ k := by
  have hy0 : y ≠ 0 := by linarith
  have hy1 : y - 1 ≠ 0 := by linarith
  have hd : (1 : ℚ) - 1 / y ≠ 0 := by
    have : (1 : ℚ) - 1 / y = (y - 1) / y := by field_simp
    rw [this]
    exact div_ne_zero hy1 hy0
  have hp : y ^ k ≠ 0 := pow_ne_zero _ hy0
  unfold geometric_sum
  rw [div_add' _ _ _ hd, pow_succ]
  congr 1
  field_simp
  ring

theorem decel_step_iterate_value (priv : MxFingerScrollPrivate) (c : MxScrollable)
    (hc : priv.child = some c) (hy : 1 < priv.decel_rate) (k : ℕ) :
    (decel_step^[k] priv).child = some
      { hadjust := { c.hadjust with
          value := c.hadjust.value + priv.dx * geometric_sum priv.decel_rate k }
        vadjust := { c.vadjust with
          value := c.vadjust.value + priv.dy * geometric_sum priv.decel_rate k } } := by
  induction k with
  | zero => simp [geometric_sum, hc]
  | succ k ih =>
    obtain ⟨h1, h2, h3⟩ := decel_step_iterate priv k
    rw [Function.iterate_succ_apply']
    show Option.map _ (decel_step^[k] priv).child = _
    rw [ih, h1, h2, Option.map_some', geometric_sum_succ _ hy]
    simp only [mx_adjustment_set_value]
    congr 3 <;> ring

/-- C2: for every whole frame count `n`, decay rate `y > 1` and every step
increment (positive ones in particular), the velocity computed by the release handler (`dx = d / a` with
`a = (1 - y^-(n+1)) / (1 - 1/y)` and `d` the distance to the target step
boundary) brings each axis, after `n + 1` simulated steps on an unclamped axis,
exactly onto `lower + k * step_increment` for an integer `k` (the ceiling index
for a positive push, the floor index otherwise). -/
theorem deceleration_ends_on_step_boundary (priv : MxFingerScrollPrivate) (c : MxScrollable)
    (n : ℕ) (hc : priv.child = some c) (hy : 1 < priv.decel_rate) :
    ∃ (c1 : MxScrollable) (kh kv : ℤ),
      (decel_step^[n + 1] (release_align_velocity priv c n)).child = some c1 ∧
      c1.hadjust.value = c.hadjust.lower + (kh : ℚ) * c.hadjust.step_increment ∧
      c1.vadjust.value = c.vadjust.lower + (kv : ℚ) * c.vadjust.step_increment ∧
      kh = (if priv.dx > 0
          then ⌈(c.hadjust.value - c.hadjust.lower) / c.hadjust.step_increment⌉
          else ⌊(c.hadjust.value - c.hadjust.lower) / c.hadjust.step_increment⌋) ∧
      kv = (if priv.dy > 0
          then ⌈(c.vadjust.value - c.vadjust.lower) / c.vadjust.step_increment⌉
          else ⌊(c.vadjust.value - c.vadjust.lower) / c.vadjust.step_increment⌋) := by
  have ha := geometric_a_pos priv.decel_rate hy n
  have ha' : geometric_sum priv.decel_rate (n + 1) = geometric_a priv.decel_rate n := rfl
  have hstep := decel_step_iterate_value (release_align_velocity priv c n) c hc hy (n + 1)
  refine ⟨_, _, _, hstep, ?_, ?_, rfl, rfl⟩
  · show c.hadjust.value + (step_distance priv.dx c.hadjust / geometric_a priv.decel_rate n)
        * geometric_sum priv.decel_rate (n + 1) = _
    rw [ha', div_mul_cancel₀ _ (ne_of_gt ha)]
    unfold step_distance
    split_ifs <;> push_cast <;> ring
  · show c.vadjust.value + (step_distance priv.dy c.vadjust / geometric_a priv.decel_rate n)
        * geometric_sum priv.decel_rate (n + 1) = _
    rw [ha', div_mul_cancel₀ _ (ne_of_gt ha)]
    unfold step_distance
    split_ifs <;> push_cast <;> ring

theorem deceleration_ends_on_step_boundary_witness :
    sample_decel.child = some ⟨⟨10, 0, 1000, 5, 100⟩, ⟨10, 0, 1000, 5, 100⟩⟩ ∧
      1 < sample_decel.decel_rate ∧
      ∃ (c1 : MxScrollable) (kh kv : ℤ),
        (decel_step^[3 + 1] (release_align_velocity sample_decel
          ⟨⟨10, 0, 1000, 5, 100⟩, ⟨10, 0, 1000, 5, 100⟩⟩ 3)).child = some c1 ∧
        c1.hadjust.value = 0 + (kh : ℚ) * 5 ∧ c1.vadjust.value = 0 + (kv : ℚ) * 5 := by
  refine ⟨rfl, by norm_num [sample_decel], ?_⟩
  obtain ⟨c1, kh, kv, h1, h2, h3, -, -⟩ :=
    deceleration_ends_on_step_boundary sample_decel
      ⟨⟨10, 0, 1000, 5, 100⟩, ⟨10, 0, 1000, 5, 100⟩⟩ 3 rfl
      (by norm_num [sample_decel])
  exact ⟨c1, kh, kv, h1, h2, h3⟩

theorem g_array_set_size_length (a : List MxFingerScrollMotion) (n : ℕ) :
    (g_array_set_size a n).length = n := by
  simp only [g_array_set_size, List.length_append, List.length_take, List.length_replicate]
  omega

theorem motion_event_cb_buffer_ok (N : ℕ) (priv : MxFingerScrollPrivate)
    (pos : Option (ℚ × ℚ)) (now : GTimeVal) (h : buffer_ok N priv) :
    buffer_ok N (motion_event_cb priv pos now) := by
  obtain ⟨hl, hm⟩ := h
  cases pos with
  | none => exact ⟨hl, hm⟩
  | some p =>
    obtain ⟨x, y⟩ := p
    simp only [motion_event_cb, buffer_ok, List.length_set, decide_eq_true_eq]
    split_ifs with hfull
    · rw [g_array_set_size_length]
      norm_num at hfull ⊢
      omega
    · norm_num at hfull ⊢
      omega

theorem captured_event_cb_buffer_ok (N : ℕ) (hN : 1 ≤ N) (priv : MxFingerScrollPrivate)
    (event : ClutterEvent) (h : buffer_ok N priv) :
    buffer_ok N (captured_event_cb priv event) := by
  obtain ⟨hl, hm⟩ := h
  cases event with
  | button_press button pos now =>
    simp only [captured_event_cb]
    split_ifs with hb
    · cases pos with
      | none => exact ⟨hl, by simpa using hN⟩
      | some p =>
        refine ⟨?_, by simpa using hN⟩
        simpa using hl
    · exact ⟨hl, by simpa using hN⟩
  | motion pos now => exact ⟨hl, hm⟩
  | other => exact ⟨hl, hm⟩

theorem handle_event_buffer_ok (N : ℕ) (hN : 1 ≤ N) (priv : MxFingerScrollPrivate)
    (event : ClutterEvent) (h : buffer_ok N priv) :
    buffer_ok N (handle_event priv event) := by
  cases event with
  | button_press button pos now => exact captured_event_cb_buffer_ok N hN priv _ h
  | motion pos now =>
    exact motion_event_cb_buffer_ok N _ pos now (captured_event_cb_buffer_ok N hN priv _ h)
  | other => exact captured_event_cb_buffer_ok N hN priv _ h

theorem handle_events_buffer_ok (N : ℕ) (hN : 1 ≤ N) (events : List ClutterEvent) :
    ∀ priv : MxFingerScrollPrivate, buffer_ok N priv → buffer_ok N (handle_events priv events) := by
  induction events with
  | nil => intro priv h; exact h
  | cons e es ih =>
    intro priv h
    exact ih _ (handle_event_buffer_ok N hN priv e h)

/-- C8: for every capacity `N >= 1` (a `guint`, so below `2^32`) and every
sequence of button-press and pointer-move events applied to a state whose buffer
has `N` slots, the buffer still has exactly `N` slots and `last_motion < N`
after every event (that is, after every prefix of the sequence), so that the
release handler averages `last_motion + 1 <= N` samples. -/
theorem motion_buffer_within_capacity (N : ℕ) (hN : 1 ≤ N) (hN32 : N < 2 ^ 32)
    (priv : MxFingerScrollPrivate) (h : buffer_ok N priv) (events : List ClutterEvent) (k : ℕ) :
    (handle_events priv (events.take k)).motion_buffer.length = N ∧
      (handle_events priv (events.take k)).last_motion < N ∧
      release_sample_count (handle_events priv (events.take k))
        = (handle_events priv (events.take k)).last_motion + 1 ∧
      release_sample_count (handle_events priv (events.take k)) ≤ N := by
  obtain ⟨h1, h2⟩ := handle_events_buffer_ok N hN (events.take k) priv h
  have e : release_sample_count (handle_events priv (events.take k))
      = (handle_events priv (events.take k)).last_motion + 1 := by
    unfold release_sample_count
    apply Nat.mod_eq_of_lt
    omega
  exact ⟨h1, h2, e, by omega⟩

theorem motion_buffer_within_capacity_witness :
    (1 ≤ 3 ∧ 3 < 2 ^ 32 ∧ buffer_ok 3 sample_init) ∧
      (handle_events sample_init
        ([ClutterEvent.button_press 1 (some (0, 0)) ⟨0, 0⟩,
          ClutterEvent.motion (some (1, 1)) ⟨0, 1⟩,
          ClutterEvent.motion (some (2, 2)) ⟨0, 2⟩,
          ClutterEvent.motion (some (3, 3)) ⟨0, 3⟩,
          ClutterEvent.motion (some (4, 4)) ⟨0, 4⟩].take 5)).last_motion < 3 :=
  ⟨⟨by norm_num, by norm_num, rfl, by norm_num [sample_init]⟩,
    (motion_buffer_within_capacity 3 (by norm_num) (by norm_num) sample_init
      ⟨rfl, by norm_num [sample_init]⟩ _ 5).2.1⟩

theorem motion_event_cb_latest (N : ℕ) (priv : MxFingerScrollPrivate) (x y : ℚ)
    (now : GTimeVal) (h : buffer_ok N priv) :
    g_array_index (motion_event_cb priv (some (x, y)) now).motion_buffer
      (motion_event_cb priv (some (x, y)) now).last_motion = ⟨x, y, now⟩ := by
  have hok := motion_event_cb_buffer_ok N priv (some (x, y)) now h
  obtain ⟨hl, hm⟩ := hok
  rw [← hl] at hm
  revert hm
  simp only [motion_event_cb, g_array_index, List.length_set]
  intro hm
  rw [List.getD_eq_getElem _ _ (by simpa using hm)]
  simp

theorem motion_event_cb_child (priv : MxFingerScrollPrivate) (c : MxScrollable) (x y : ℚ)
    (now : GTimeVal) (hc : priv.child = some c) :
    (motion_event_cb priv (some (x, y)) now).child = some
      { hadjust := { c.hadjust with value :=
          ((g_array_index priv.motion_buffer priv.last_motion).x - x) + c.hadjust.value }
        vadjust := { c.vadjust with value :=
          ((g_array_index priv.motion_buffer priv.last_motion).y - y) + c.vadjust.value } } := by
  simp only [motion_event_cb, hc, mx_adjustment_set_value]

theorem moves_one_to_one (N : ℕ) (moves : List ((ℚ × ℚ) × GTimeVal)) :
    ∀ (priv : MxFingerScrollPrivate) (c : MxScrollable), buffer_ok N priv →
      priv.child = some c →
      (handle_events priv (moves.map fun m => ClutterEvent.motion (some m.1) m.2)).child = some
        { hadjust := { c.hadjust with value := c.hadjust.value +
            ((g_array_index priv.motion_buffer priv.last_motion).x
              - (last_position ((g_array_index priv.motion_buffer priv.last_motion).x,
                  (g_array_index priv.motion_buffer priv.last_motion).y) moves).1) }
          vadjust := { c.vadjust with value := c.vadjust.value +
            ((g_array_index priv.motion_buffer priv.last_motion).y
              - (last_position ((g_array_index priv.motion_buffer priv.last_motion).x,
                  (g_array_index priv.motion_buffer priv.last_motion).y) moves).2) } } := by
  induction moves with
  | nil =>
    intro priv c _ hc
    simp [handle_events, last_position, hc]
  | cons m ms ih =>
    intro priv c hok hc
    obtain ⟨⟨x, y⟩, t⟩ := m
    have hstep : handle_event priv (ClutterEvent.motion (some (x, y)) t)
        = motion_event_cb priv (some (x, y)) t := rfl
    have hok' := motion_event_cb_buffer_ok N priv (some (x, y)) t hok
    have hlast := motion_event_cb_latest N priv x y t hok
    have hchild := motion_event_cb_child priv c x y t hc
    have := ih _ _ hok' hchild
    simp only [handle_events, List.map_cons, List.foldl_cons, hstep] at this ⊢
    rw [this, hlast]
    simp only [last_position]
    congr 3 <;> ring

/-- C9: dragging is 1:1. For every buffer capacity `N >= 1`, after a
primary-button press at `p0` followed by any number of pointer moves ending at
`pk` (unclamped adjustments), each axis value equals its value at the press
plus `p0 - pk` along that axis, however many samples the buffer has evicted. -/
theorem drag_one_to_one (N : ℕ) (hN : 1 ≤ N) (priv : MxFingerScrollPrivate) (c : MxScrollable)
    (hlen : priv.motion_buffer.length = N) (hc : priv.child = some c)
    (p0 : ℚ × ℚ) (t0 : GTimeVal) (moves : List ((ℚ × ℚ) × GTimeVal)) :
    ∃ c1 : MxScrollable,
      (handle_events priv (drag_events p0 t0 moves)).child = some c1 ∧
      c1.hadjust.value = c.hadjust.value + (p0.1 - (last_position p0 moves).1) ∧
      c1.vadjust.value = c.vadjust.value + (p0.2 - (last_position p0 moves).2) := by
  obtain ⟨x0, y0⟩ := p0
  have hpress : handle_event priv (ClutterEvent.button_press 1 (some (x0, y0)) t0)
      = { priv with last_motion := 0
                    motion_buffer := priv.motion_buffer.set 0 ⟨x0, y0, t0⟩
                    deceleration_timeline := none } := by
    simp [handle_event, captured_event_cb]
  have hok : buffer_ok N { priv with last_motion := 0
                                     motion_buffer := priv.motion_buffer.set 0 ⟨x0, y0, t0⟩
                                     deceleration_timeline := none } :=
    ⟨by simpa using hlen, by simpa using hN⟩
  have hidx : g_array_index (priv.motion_buffer.set 0 ⟨x0, y0, t0⟩) 0 = ⟨x0, y0, t0⟩ := by
    unfold g_array_index
    rw [List.getD_eq_getElem _ _ (by simp; omega)]
    simp
  have h := moves_one_to_one N moves _ c hok hc
  simp only [hidx] at h
  have e : handle_events priv (drag_events (x0, y0) t0 moves)
      = handle_events { priv with last_motion := 0
                                  motion_buffer := priv.motion_buffer.set 0 ⟨x0, y0, t0⟩
                                  deceleration_timeline := none }
          (moves.map fun m => ClutterEvent.motion (some m.1) m.2) := by
    simp only [drag_events, handle_events, List.foldl_cons, hpress]
  rw [e, h]
  exact ⟨_, rfl, rfl, rfl⟩

theorem drag_one_to_one_witness :
    (1 ≤ 3 ∧ sample_init.motion_buffer.length = 3) ∧
      ∃ c1 : MxScrollable,
        (handle_events sample_init (drag_events (100, 100) ⟨0, 0⟩
          [((90, 95), ⟨0, 1⟩), ((80, 90), ⟨0, 2⟩), ((70, 85), ⟨0, 3⟩),
            ((60, 80), ⟨0, 4⟩)])).child = some c1 ∧
        c1.hadjust.value = 40 + (100 - 60) ∧ c1.vadjust.value = 60 + (100 - 80) :=
  ⟨⟨by norm_num, rfl⟩,
    drag_one_to_one 3 (by norm_num) sample_init
      ⟨⟨40, 0, 1000, 5, 100⟩, ⟨60, 0, 1000, 5, 100⟩⟩ rfl rfl (100, 100) ⟨0, 0⟩
      [((90, 95), ⟨0, 1⟩), ((80, 90), ⟨0, 2⟩), ((70, 85), ⟨0, 3⟩), ((60, 80), ⟨0, 4⟩)]⟩

/-- C15, as stated, fails: a zero velocity is clamped to `-2`, which has
magnitude 2 but not the sign of the input. -/
theorem clamp_keeps_sign_fails : clamp_velocity 0 = -2 ∧ ¬ clamp_keeps_sign 0 := by
  have h0 : clamp_velocity 0 = -2 := by norm_num [clamp_velocity]
  refine ⟨h0, ?_⟩
  intro h
  have h1 := (h.2 (by norm_num)).2
  rw [h0] at h1
  simp at h1

/-- C15, amended: the velocity clamp of the release handler enforces
`|v| >= 2`: the clamped value equals `v` when `|v| >= 2`, is `2` when
`0 < v < 2` and `-2` when `-2 < v <= 0`; so it has magnitude at least 2 and,
for every non-zero `v`, the sign of `v`, while a zero velocity becomes `-2`. -/
theorem clamp_velocity_cases (v : ℚ) :
    (2 ≤ |v| → clamp_velocity v = v) ∧
      (0 < v → v < 2 → clamp_velocity v = 2) ∧
      (-2 < v → v ≤ 0 → clamp_velocity v = -2) ∧
      2 ≤ |clamp_velocity v| ∧
      (v ≠ 0 → SignType.sign (clamp_velocity v) = SignType.sign v) := by
  unfold clamp_velocity
  refine ⟨?_, ?_, ?_, ?_, ?_⟩
  · intro h
    rw [if_neg (not_lt.mpr h)]
  · intro h0 h2
    rw [if_pos (by rw [abs_of_pos h0]; exact h2), if_pos h0]
  · intro h0 h2
    rw [if_pos (by rw [abs_of_nonpos h2]; linarith), if_neg (not_lt.mpr h2)]
  · split_ifs with h1 h2
    · norm_num
    · norm_num
    · exact not_lt.mp h1
  · intro hv
    split_ifs with h1 h2
    · rw [sign_pos h2, sign_pos (by norm_num)]
    · have hneg : v < 0 := lt_of_le_of_ne (not_lt.mp h2) hv
      rw [sign_neg hneg, sign_neg (by norm_num)]
    · rfl

/-- C16: `mx_finger_scroll_stop` leaves no deceleration timeline behind and
applies no snap: the child with both scroll-target values, the velocity and
the motion buffer are exactly what they were before the call; a second call,
or a call when no deceleration is running, changes nothing. -/
theorem stop_ends_deceleration_without_snap (priv : MxFingerScrollPrivate) :
    (mx_finger_scroll_stop priv).deceleration_timeline = none ∧
      (mx_finger_scroll_stop priv).child = priv.child ∧
      mx_finger_scroll_stop priv = { priv with deceleration_timeline := none } ∧
      mx_finger_scroll_stop (mx_finger_scroll_stop priv) = mx_finger_scroll_stop priv ∧
      (priv.deceleration_timeline = none → mx_finger_scroll_stop priv = priv) := by
  unfold mx_finger_scroll_stop
  cases h : priv.deceleration_timeline with
  | none =>
    refine ⟨h, rfl, ?_, ?_, fun _ => rfl⟩
    · cases priv
      simp only at h
      subst h
      rfl
    · simp only [h]
  | some t =>
    exact ⟨rfl, rfl, rfl, rfl, fun hn => Option.noConfusion hn⟩

theorem decel_loop_steps_eq (priv : MxFingerScrollPrivate) :
    decel_loop_steps priv = frame_steps priv.accumulated_delta := by
  induction priv using decel_loop_steps.induct with
  | case1 p h ih =>
    rw [decel_loop_steps, if_pos h, ih]
    unfold frame_steps
    have e : (decel_step p).accumulated_delta / (1000 / 60)
        = p.accumulated_delta / (1000 / 60) - 1 := by
      simp only [decel_step]
      ring
    have h1 : (1 : ℚ) < p.accumulated_delta / (1000 / 60) := by
      rw [lt_div_iff₀ (by norm_num)]
      linarith
    have h2 : (1 : ℤ) < ⌈p.accumulated_delta / (1000 / 60)⌉ := by
      rw [Int.lt_ceil]
      exact_mod_cast h1
    rw [e, Int.ceil_sub_one]
    omega
  | case2 p h =>
    rw [decel_loop_steps, if_neg h]
    unfold frame_steps
    have h1 : p.accumulated_delta / (1000 / 60) ≤ 1 := by
      rw [div_le_iff₀ (by norm_num)]
      linarith [not_lt.mp h]
    have h2 : ⌈p.accumulated_delta / (1000 / 60)⌉ ≤ 1 := by
      rw [Int.ceil_le]
      exact_mod_cast h1
    omega

theorem decel_loop_eq_iterate (priv : MxFingerScrollPrivate) :
    decel_loop priv = decel_step^[decel_loop_steps priv] priv := by
  induction priv using decel_loop.induct with
  | case1 p h ih =>
    rw [decel_loop, if_pos h, decel_loop_steps, if_pos h, ih, Function.iterate_succ_apply]
  | case2 p h =>
    rw [decel_loop, if_neg h, decel_loop_steps, if_neg h]
    rfl

theorem sample_release_frame_count :
    release_frame_count sample_libm 20 (-2) (11 / 10) = 44252 / 953 := by
  have h : max |(20 : ℚ)| |(-2 : ℚ)| = 20 := by norm_num
  simp only [release_frame_count, sample_libm, h]
  norm_num

theorem sample_release_average :
    release_average sample_release = (100, 50, ⟨7, 0⟩) := by
  simp [release_average, sample_release, List.range_succ, List.range_zero, g_array_index,
    Int.tdiv]

theorem sample_release_timeline :
    (button_release_event_cb sample_libm sample_release 1 (some (40, 50))
      ⟨7, 50000⟩).deceleration_timeline = some ⟨2760⟩ := by
  have h20 : clamp_velocity 20 = 20 := by norm_num [clamp_velocity]
  have h0 : clamp_velocity 0 = -2 := by norm_num [clamp_velocity]
  have hg : gint_cast (44252 / 953) = 46 := by
    unfold gint_cast
    rw [if_pos (by norm_num), Int.floor_eq_iff]
    constructor <;> norm_num
  have hx : ((100 : ℚ) - 40) / ((((50000 : ℤ) - 0 : ℤ) : ℚ) / 1000 / (1000 / 60)) = 20 := by
    norm_num
  have hy : ((50 : ℚ) - 50) / ((((50000 : ℤ) - 0 : ℤ) : ℚ) / 1000 / (1000 / 60)) = 0 := by
    norm_num
  unfold button_release_event_cb
  rw [sample_release_average]
  simp only [sample_release, release_time_diff, if_true, hx, hy, h20, h0,
    sample_release_frame_count, hg]
  norm_num

theorem sample_release_accumulated :
    (button_release_event_cb sample_libm sample_release 1 (some (40, 50))
      ⟨7, 50000⟩).accumulated_delta = 0 := by
  unfold button_release_event_cb
  simp [sample_release]

/-- C17, evaluated at the failing input: a kinetic release with per-frame
velocity `(20, -2)` after the clamp and `decel_rate = 1.1` computes the frame
budget `n = 44252/953` (about 46.4) and creates a timeline of
`(gint) n * 60 = 2760` milliseconds; while that timeline runs, the frame
callback executes 165 simulation steps of 1/60 s, which is not within 1 of
`n`. -/
theorem release_timeline_outlasts_frame_budget :
    (button_release_event_cb sample_libm sample_release 1 (some (40, 50))
        ⟨7, 50000⟩).deceleration_timeline = some ⟨2760⟩ ∧
      release_frame_count sample_libm 20 (-2) (11 / 10) = 44252 / 953 ∧
      decel_loop_steps
        { button_release_event_cb sample_libm sample_release 1 (some (40, 50)) ⟨7, 50000⟩ with
          accumulated_delta :=
            (button_release_event_cb sample_libm sample_release 1 (some (40, 50))
              ⟨7, 50000⟩).accumulated_delta + 2760 } = 165 ∧
      ¬ (|(165 : ℚ) - 44252 / 953| ≤ 1) := by
  refine ⟨sample_release_timeline, sample_release_frame_count, ?_, ?_⟩
  · rw [decel_loop_steps_eq, sample_release_accumulated]
    show frame_steps (0 + 2760) = 165
    unfold frame_steps
    have h : ⌈((0 : ℚ) + 2760) / (1000 / 60)⌉ = 166 := by
      rw [Int.ceil_eq_iff]
      constructor <;> norm_num
    rw [h]
    rfl
  · rw [abs_of_pos (by norm_num)]
    norm_num

theorem decel_step_iterate_accumulated (priv : MxFingerScrollPrivate) (k : ℕ) :
    (decel_step^[k] priv).accumulated_delta = priv.accumulated_delta - (k : ℚ) * (1000 / 60) := by
  induction k with
  | zero => simp
  | succ k ih =>
    rw [Function.iterate_succ_apply']
    show (decel_step^[k] priv).accumulated_delta - 1000 / 60 = _
    rw [ih]
    push_cast
    ring

theorem frame_steps_cast (x : ℚ) (hx : 0 < x) :
    ((frame_steps x : ℕ) : ℤ) = ⌈x / (1000 / 60)⌉ - 1 := by
  unfold frame_steps
  have h : (0 : ℤ) < ⌈x / (1000 / 60)⌉ := Int.ceil_pos.mpr (div_pos hx (by norm_num))
  omega

theorem frame_steps_zero : frame_steps 0 = 0 := by
  unfold frame_steps
  simp

theorem frame_steps_bounds (x : ℚ) (hx : 0 < x) :
    (frame_steps x : ℚ) * (1000 / 60) < x ∧ x ≤ ((frame_steps x : ℚ) + 1) * (1000 / 60) := by
  have hc := frame_steps_cast x hx
  have hq : ((frame_steps x : ℕ) : ℚ) = (⌈x / (1000 / 60)⌉ : ℚ) - 1 := by
    have : (((frame_steps x : ℕ) : ℤ) : ℚ) = ((⌈x / (1000 / 60)⌉ - 1 : ℤ) : ℚ) := by rw [hc]
    push_cast at this
    exact this
  have h1 : x / (1000 / 60) ≤ (⌈x / (1000 / 60)⌉ : ℚ) := Int.le_ceil _
  have h2 : (⌈x / (1000 / 60)⌉ : ℚ) < x / (1000 / 60) + 1 := Int.ceil_lt_add_one _
  rw [hq]
  constructor
  · have : (⌈x / (1000 / 60)⌉ : ℚ) - 1 < x / (1000 / 60) := by linarith
    rw [lt_div_iff₀ (by norm_num)] at this
    exact this
  · have : x / (1000 / 60) ≤ (⌈x / (1000 / 60)⌉ : ℚ) - 1 + 1 := by linarith
    rw [div_le_iff₀ (by norm_num)] at this
    exact this

theorem frame_steps_floor (x : ℚ) (hx : 0 ≤ x) :
    ((frame_steps x : ℕ) : ℤ) =
      if 0 < x ∧ (⌊x / (1000 / 60)⌋ : ℚ) = x / (1000 / 60) then ⌊x / (1000 / 60)⌋ - 1
      else ⌊x / (1000 / 60)⌋ := by
  rcases eq_or_lt_of_le hx with h0 | hpos
  · subst h0
    rw [frame_steps_zero]
    simp
  · rw [frame_steps_cast x hpos]
    by_cases hint : (⌊x / (1000 / 60)⌋ : ℚ) = x / (1000 / 60)
    · rw [if_pos ⟨hpos, hint⟩]
      have : ⌈x / (1000 / 60)⌉ = ⌊x / (1000 / 60)⌋ := by
        rw [← hint, Int.ceil_intCast, Int.floor_intCast]
      rw [this]
    · rw [if_neg (fun h => hint h.2)]
      have hlt : (⌊x / (1000 / 60)⌋ : ℚ) < x / (1000 / 60) :=
        lt_of_le_of_ne (Int.floor_le _) hint
      have : ⌈x / (1000 / 60)⌉ = ⌊x / (1000 / 60)⌋ + 1 := by
        rw [Int.ceil_eq_iff]
        constructor
        · push_cast; linarith
        · push_cast; exact le_of_lt (Int.lt_floor_add_one _)
      rw [this]; ring

/-- C27, counterexample: entered with an empty accumulator and a frame delta
of exactly one period (`50/3` ms), the loop runs no step (the test is the
strict `accumulated_delta > 1000.0/60.0`) where the floor is 1, and the
accumulator is left at a full period, outside `[0, T)`. -/
theorem fixed_timestep_floor_fails :
    0 ≤ sample_decel.accumulated_delta ∧ (0 : ℚ) ≤ 50 / 3 ∧
      decel_loop_steps
        { sample_decel with accumulated_delta := sample_decel.accumulated_delta + 50 / 3 } = 0 ∧
      ⌊(sample_decel.accumulated_delta + 50 / 3) / (1000 / 60 : ℚ)⌋ = 1 ∧
      (deceleration_frame_steps sample_decel (50 / 3)).accumulated_delta = 1000 / 60 ∧
      ¬ fixed_timestep_floor sample_decel (50 / 3) := by
  have hs : decel_loop_steps
      { sample_decel with accumulated_delta := sample_decel.accumulated_delta + 50 / 3 } = 0 := by
    rw [decel_loop_steps, if_neg]
    simp only [sample_decel]
    norm_num
  have hf : ⌊(sample_decel.accumulated_delta + 50 / 3) / (1000 / 60 : ℚ)⌋ = 1 := by
    rw [Int.floor_eq_iff]
    simp only [sample_decel]
    constructor <;> norm_num
  have ha : (deceleration_frame_steps sample_decel (50 / 3)).accumulated_delta = 1000 / 60 := by
    unfold deceleration_frame_steps
    rw [decel_loop, if_neg]
    · simp only [sample_decel]; norm_num
    · simp only [sample_decel]; norm_num
  refine ⟨by simp [sample_decel], by norm_num, hs, hf, ha, ?_⟩
  intro h
  have := h.2.2.2
  rw [ha] at this
  exact lt_irrefl _ this

/-- C27, amended: entered with accumulator `A >= 0` and frame delta `D >= 0`,
the loop of the frame callback terminates after `ceil ((A + D) / T) - 1` steps
for `T = 1000/60` ms (none when `A + D = 0`): that is `floor ((A + D) / T)`,
less one when `A + D` is a positive whole multiple of `T`. The state it leaves
is that many applications of the step, and the accumulator is
`(A + D) - steps * T`, inside `(0, T]` when `A + D > 0`. -/
theorem fixed_timestep_steps (priv : MxFingerScrollPrivate) (delta : ℚ)
    (hA : 0 ≤ priv.accumulated_delta) (hD : 0 ≤ delta) :
    decel_loop_steps { priv with accumulated_delta := priv.accumulated_delta + delta }
        = frame_steps (priv.accumulated_delta + delta) ∧
      ((frame_steps (priv.accumulated_delta + delta) : ℕ) : ℤ) =
        (if 0 < priv.accumulated_delta + delta ∧
            (⌊(priv.accumulated_delta + delta) / (1000 / 60)⌋ : ℚ)
              = (priv.accumulated_delta + delta) / (1000 / 60)
          then ⌊(priv.accumulated_delta + delta) / (1000 / 60)⌋ - 1
          else ⌊(priv.accumulated_delta + delta) / (1000 / 60)⌋) ∧
      deceleration_frame_steps priv delta
        = decel_step^[frame_steps (priv.accumulated_delta + delta)]
            { priv with accumulated_delta := priv.accumulated_delta + delta } ∧
      (deceleration_frame_steps priv delta).accumulated_delta
        = (priv.accumulated_delta + delta)
          - (frame_steps (priv.accumulated_delta + delta) : ℚ) * (1000 / 60) ∧
      (0 < priv.accumulated_delta + delta →
        0 < (deceleration_frame_steps priv delta).accumulated_delta ∧
          (deceleration_frame_steps priv delta).accumulated_delta ≤ 1000 / 60) ∧
      (priv.accumulated_delta + delta = 0 →
        (deceleration_frame_steps priv delta).accumulated_delta = 0) := by
  have hs := decel_loop_steps_eq
    { priv with accumulated_delta := priv.accumulated_delta + delta }
  have hs' : decel_loop_steps { priv with accumulated_delta := priv.accumulated_delta + delta }
      = frame_steps (priv.accumulated_delta + delta) := hs
  have hi : deceleration_frame_steps priv delta
      = decel_step^[frame_steps (priv.accumulated_delta + delta)]
          { priv with accumulated_delta := priv.accumulated_delta + delta } := by
    unfold deceleration_frame_steps
    rw [decel_loop_eq_iterate, hs']
  have hacc : (deceleration_frame_steps priv delta).accumulated_delta
      = (priv.accumulated_delta + delta)
        - (frame_steps (priv.accumulated_delta + delta) : ℚ) * (1000 / 60) := by
    rw [hi, decel_step_iterate_accumulated]
  refine ⟨hs', frame_steps_floor _ (add_nonneg hA hD), hi, hacc, ?_, ?_⟩
  · intro hpos
    obtain ⟨h1, h2⟩ := frame_steps_bounds _ hpos
    rw [hacc]
    constructor <;> linarith
  · intro h0
    rw [hacc, h0, frame_steps_zero]
    simp

theorem fixed_timestep_steps_witness :
    (0 ≤ sample_decel.accumulated_delta ∧ (0 : ℚ) ≤ 50 / 3) ∧
      decel_loop_steps
          { sample_decel with accumulated_delta := sample_decel.accumulated_delta + 50 / 3 }
        = frame_steps (sample_decel.accumulated_delta + 50 / 3) :=
  ⟨⟨by simp [sample_decel], by norm_num⟩,
    (fixed_timestep_steps sample_decel (50 / 3) (by simp [sample_decel]) (by norm_num)).1⟩

theorem sample_release_two_average :
    release_average sample_release_two = (95, 50, ⟨7, 500000⟩) := by
  simp [release_average, sample_release_two, sample_release, List.range_succ, List.range_zero,
    g_array_index, Int.tdiv]
  norm_num

/-- C28, evaluated at two failing inputs. With one buffered sample taken at
second 7 and the release at second 10, the handler uses `time_diff = 1000000`
(any difference in `tv_sec` is counted as one second) where the release is
3000000 microseconds after the sample. With two samples at 7.9 s and 8.1 s and
the release at 8.2 s, the fields `tv_sec` and `tv_usec` are averaged
separately with integer division to `7 s + 500000 us`, and the handler uses
`time_diff = 700000` where the release is 200000 microseconds after the mean
of the samples. -/
theorem release_time_diff_wrong :
    release_time_diff ⟨10, 0⟩ (release_average sample_release).2.2 = 1000000 ∧
      elapsed_since_mean sample_release ⟨10, 0⟩ = 3000000 ∧
      (release_average sample_release_two).2.2 = ⟨7, 500000⟩ ∧
      release_time_diff ⟨8, 200000⟩ (release_average sample_release_two).2.2 = 700000 ∧
      elapsed_since_mean sample_release_two ⟨8, 200000⟩ = 200000 := by
  refine ⟨?_, ?_, ?_, ?_, ?_⟩
  · rw [sample_release_average]
    simp [release_time_diff]
  · simp [elapsed_since_mean, sample_release, timeval_usec, List.range_succ, List.range_zero,
      g_array_index]
    norm_num
  · rw [sample_release_two_average]
  · rw [sample_release_two_average]
    simp [release_time_diff]
  · simp [elapsed_since_mean, sample_release_two, sample_release, timeval_usec, List.range_succ,
      List.range_zero, g_array_index]
    norm_num

theorem two_le_abs_clamp_velocity (v : ℚ) : 2 ≤ |clamp_velocity v| := by
  unfold clamp_velocity
  split_ifs with h1 h2
  · norm_num
  · norm_num
  · exact not_lt.mp h1

theorem step_distance_bounds (v : ℚ) (adj : MxAdjustment) (hs : 0 < adj.step_increment) :
    (v > 0 →
        adj.value + step_distance v adj
          = adj.lower + (⌈(adj.value - adj.lower) / adj.step_increment⌉ : ℚ) * adj.step_increment ∧
        0 ≤ step_distance v adj ∧ step_distance v adj < adj.step_increment) ∧
      (¬ v > 0 →
        adj.value + step_distance v adj
          = adj.lower + (⌊(adj.value - adj.lower) / adj.step_increment⌋ : ℚ) * adj.step_increment ∧
        -adj.step_increment < step_distance v adj ∧ step_distance v adj ≤ 0) := by
  have hne : adj.step_increment ≠ 0 := ne_of_gt hs
  have hq : (adj.value - adj.lower) / adj.step_increment * adj.step_increment
      = adj.value - adj.lower := div_mul_cancel₀ _ hne
  constructor
  · intro hv
    have h1 : (adj.value - adj.lower) / adj.step_increment
        ≤ (⌈(adj.value - adj.lower) / adj.step_increment⌉ : ℚ) := Int.le_ceil _
    have h2 : (⌈(adj.value - adj.lower) / adj.step_increment⌉ : ℚ)
        < (adj.value - adj.lower) / adj.step_increment + 1 := Int.ceil_lt_add_one _
    have h1' := mul_le_mul_of_nonneg_right h1 (le_of_lt hs)
    have h2' := mul_lt_mul_of_pos_right h2 hs
    rw [hq] at h1'
    rw [add_mul, hq, one_mul] at h2'
    unfold step_distance
    simp only [hv, if_true]
    refine ⟨by ring, by linarith, by linarith⟩
  · intro hv
    have h1 : (⌊(adj.value - adj.lower) / adj.step_increment⌋ : ℚ)
        ≤ (adj.value - adj.lower) / adj.step_increment := Int.floor_le _
    have h2 : (adj.value - adj.lower) / adj.step_increment
        < (⌊(adj.value - adj.lower) / adj.step_increment⌋ : ℚ) + 1 := Int.lt_floor_add_one _
    have h1' := mul_le_mul_of_nonneg_right h1 (le_of_lt hs)
    have h2' := mul_lt_mul_of_pos_right h2 hs
    rw [hq] at h1'
    rw [add_mul, hq, one_mul] at h2'
    unfold step_distance
    simp only [hv, if_false]
    refine ⟨by ring, by linarith, by linarith⟩

theorem release_coefficient_pos (libm : Libm) (y : ℚ) (v : ℚ × ℚ) (hy : 1 < y)
    (hv : 2 ≤ |v.1|)
    (hlog : ∀ x : ℚ, 1 < x → 0 < libm.logf x)
    (hpow : ∀ b e : ℚ, 1 < b → 0 < e → 1 < libm.pow b e) :
    0 < release_coefficient libm y v := by
  have hx : 1 < max |v.1| |v.2| := lt_of_lt_of_le (by linarith) (le_max_left _ _)
  have hn : 0 < release_frame_count libm v.1 v.2 y + 1 := by
    unfold release_frame_count
    have := div_pos (hlog _ hx) (hlog _ hy)
    linarith
  have hp := hpow y _ hy hn
  unfold release_coefficient
  apply div_pos
  · have : 1 / libm.pow y (release_frame_count libm v.1 v.2 y + 1) < 1 := by
      rw [div_lt_one (by linarith)]; exact hp
    linarith
  · have : 1 / y < 1 := by
      rw [div_lt_one (by linarith)]; exact hy
    linarith

theorem button_release_kinetic_velocity (libm : Libm) (priv : MxFingerScrollPrivate)
    (c : MxScrollable) (event_x event_y : ℚ) (release_time : GTimeVal)
    (hmode : priv.mode = MxFingerScrollMode.kinetic) (hc : priv.child = some c) :
    (button_release_event_cb libm priv 1 (some (event_x, event_y)) release_time).dx
        = step_distance (release_push priv event_x event_y release_time).1 c.hadjust
          / release_coefficient libm priv.decel_rate
              (release_push priv event_x event_y release_time) ∧
      (button_release_event_cb libm priv 1 (some (event_x, event_y)) release_time).dy
        = step_distance (release_push priv event_x event_y release_time).2 c.vadjust
          / release_coefficient libm priv.decel_rate
              (release_push priv event_x event_y release_time) := by
  unfold button_release_event_cb
  simp only [hmode, hc]
  exact ⟨rfl, rfl⟩

theorem axis_targets_boundary_of_pos (v : ℚ) (adj : MxAdjustment) (a : ℚ)
    (hs : 0 < adj.step_increment) (ha : 0 < a) :
    axis_targets_boundary v adj a (step_distance v adj / a) := by
  obtain ⟨hp, hn⟩ := step_distance_bounds v adj hs
  refine ⟨rfl, ?_, ?_⟩
  · intro hv
    obtain ⟨h1, h2, h3⟩ := hp hv
    exact ⟨h1, h2, h3, div_nonneg h2 (le_of_lt ha)⟩
  · intro hv
    obtain ⟨h1, h2, h3⟩ := hn hv
    exact ⟨h1, h2, h3, div_nonpos_of_nonpos_of_nonneg h3 (le_of_lt ha)⟩

/-- C29: at a kinetic release with positive step increments and
`decel_rate > 1` (and a C library whose `logf` is positive above 1 and whose
`pow` is above 1 for a base above 1 and a positive exponent), the coefficient
`a` is positive and, on each axis, the planned distance `d` leads from the
current value to the step boundary `lower + ceil ((value - lower) / step) * step`
for a positive push and `lower + floor ((value - lower) / step) * step`
otherwise, with `0 <= d < step`, respectively `-step < d <= 0`; the stored
velocity is `d / a` and never points against the push. -/
theorem release_targets_step_boundary (libm : Libm) (priv : MxFingerScrollPrivate)
    (c : MxScrollable) (event_x event_y : ℚ) (release_time : GTimeVal)
    (hmode : priv.mode = MxFingerScrollMode.kinetic) (hc : priv.child = some c)
    (hy : 1 < priv.decel_rate)
    (hsx : 0 < c.hadjust.step_increment) (hsy : 0 < c.vadjust.step_increment)
    (hlog : ∀ x : ℚ, 1 < x → 0 < libm.logf x)
    (hpow : ∀ b e : ℚ, 1 < b → 0 < e → 1 < libm.pow b e) :
    0 < release_coefficient libm priv.decel_rate
          (release_push priv event_x event_y release_time) ∧
      axis_targets_boundary (release_push priv event_x event_y release_time).1 c.hadjust
        (release_coefficient libm priv.decel_rate
          (release_push priv event_x event_y release_time))
        (button_release_event_cb libm priv 1 (some (event_x, event_y)) release_time).dx ∧
      axis_targets_boundary (release_push priv event_x event_y release_time).2 c.vadjust
        (release_coefficient libm priv.decel_rate
          (release_push priv event_x event_y release_time))
        (button_release_event_cb libm priv 1 (some (event_x, event_y)) release_time).dy := by
  have ha : 0 < release_coefficient libm priv.decel_rate
      (release_push priv event_x event_y release_time) :=
    release_coefficient_pos libm priv.decel_rate _ hy (two_le_abs_clamp_velocity _) hlog hpow
  obtain ⟨hx, hy'⟩ :=
    button_release_kinetic_velocity libm priv c event_x event_y release_time hmode hc
  refine ⟨ha, ?_, ?_⟩
  · rw [hx]; exact axis_targets_boundary_of_pos _ _ _ hsx ha
  · rw [hy']; exact axis_targets_boundary_of_pos _ _ _ hsy ha

theorem release_targets_step_boundary_witness :
    (sample_release.mode = MxFingerScrollMode.kinetic ∧ 1 < sample_release.decel_rate ∧
      (∀ x : ℚ, 1 < x → 0 < linear_libm.logf x) ∧
      (∀ b e : ℚ, 1 < b → 0 < e → 1 < linear_libm.pow b e)) ∧
      0 < release_coefficient linear_libm sample_release.decel_rate
          (release_push sample_release 40 50 ⟨7, 50000⟩) := by
  have hlog : ∀ x : ℚ, 1 < x → 0 < linear_libm.logf x := by
    intro x hx
    show 0 < x - 1
    linarith
  have hpow : ∀ b e : ℚ, 1 < b → 0 < e → 1 < linear_libm.pow b e := by
    intro b e hb he
    show 1 < 1 + (b - 1) * e
    have : 0 < (b - 1) * e := mul_pos (by linarith) he
    linarith
  have hy : 1 < sample_release.decel_rate := by
    simp only [sample_release]; norm_num
  exact ⟨⟨rfl, hy, hlog, hpow⟩,
    (release_targets_step_boundary linear_libm sample_release
      ⟨⟨12, 0, 10000, 5, 100⟩, ⟨12, 0, 10000, 5, 100⟩⟩ 40 50 ⟨7, 50000⟩ rfl rfl hy
      (by norm_num) (by norm_num) hlog hpow).1⟩

theorem log_ratio_bounds :
    0 < Real.log (11 / 10) ∧
      (157 / 5 : ℝ) * Real.log (11 / 10) < Real.log 20 ∧
      Real.log 20 < (63 / 2 : ℝ) * Real.log (11 / 10) := by
  have hl : 0 < Real.log (11 / 10) := Real.log_pos (by norm_num)
  have h1 : Real.log ((11 / 10 : ℝ) ^ 314) < Real.log ((20 : ℝ) ^ 10) :=
    Real.log_lt_log (by positivity) (by norm_num)
  have h2 : Real.log ((20 : ℝ) ^ 10) < Real.log ((11 / 10 : ℝ) ^ 315) :=
    Real.log_lt_log (by positivity) (by norm_num)
  rw [Real.log_pow, Real.log_pow] at h1 h2
  push_cast at h1 h2
  refine ⟨hl, by linarith, by linarith⟩

theorem exact_frame_count_bounds (dy : ℝ) (hdy : |dy| ≤ 20) :
    (232 / 5 : ℝ) < exact_frame_count 20 dy (11 / 10) ∧
      exact_frame_count 20 dy (11 / 10) < 93 / 2 := by
  obtain ⟨hl, h1, h2⟩ := log_ratio_bounds
  have hm : max |(20 : ℝ)| |dy| = 20 := by
    rw [abs_of_pos (by norm_num : (0 : ℝ) < 20)]
    exact max_eq_left hdy
  unfold exact_frame_count
  rw [hm]
  constructor
  · have : (157 / 5 : ℝ) < Real.log 20 / Real.log (11 / 10) := by
      rw [lt_div_iff₀ hl]; exact h1
    linarith
  · have : Real.log 20 / Real.log (11 / 10) < (63 / 2 : ℝ) := by
      rw [div_lt_iff₀ hl]; exact h2
    linarith

theorem release_frame_count_bounds (libm : Libm) (dy : ℚ) (hdy : |dy| ≤ 20)
    (h20 : |((libm.logf 20 : ℚ) : ℝ) - Real.log 20| ≤ Real.log 20 / 1000)
    (h11 : |((libm.logf (11 / 10) : ℚ) : ℝ) - Real.log (11 / 10)| ≤ Real.log (11 / 10) / 1000) :
    (46 : ℝ) < ((release_frame_count libm 20 dy (11 / 10) : ℚ) : ℝ) ∧
      ((release_frame_count libm 20 dy (11 / 10) : ℚ) : ℝ) < 47 := by
  obtain ⟨hl, h1, h2⟩ := log_ratio_bounds
  have hm : max |(20 : ℚ)| |dy| = 20 := by
    rw [abs_of_pos (by norm_num : (0 : ℚ) < 20)]
    exact max_eq_left hdy
  obtain ⟨a1, a2⟩ := abs_le.mp h20
  obtain ⟨b1, b2⟩ := abs_le.mp h11
  have hpos : (0 : ℝ) < ((libm.logf (11 / 10) : ℚ) : ℝ) := by linarith
  unfold release_frame_count
  rw [hm]
  push_cast
  constructor
  · have : (31 : ℝ) < ((libm.logf 20 : ℚ) : ℝ) / ((libm.logf (11 / 10) : ℚ) : ℝ) := by
      rw [lt_div_iff₀ hpos]; linarith
    linarith
  · have : ((libm.logf 20 : ℚ) : ℝ) / ((libm.logf (11 / 10) : ℚ) : ℝ) < (32 : ℝ) := by
      rw [div_lt_iff₀ hpos]; linarith
    linarith

/-- C30, counterexample: for `dx = 20`, `dy = -2` and `decel_rate = 1.1` the
frame count `log (20) / log (1.1) + 15` is below 47, so it is not within 1
of 61. -/
theorem frame_count_near_61_fails :
    |(-2 : ℝ)| ≤ 20 ∧ exact_frame_count 20 (-2) (11 / 10) < 47 ∧
      ¬ |exact_frame_count 20 (-2) (11 / 10) - 61| ≤ 1 := by
  have hd : |(-2 : ℝ)| ≤ 20 := by norm_num
  obtain ⟨-, h2⟩ := exact_frame_count_bounds (-2) hd
  refine ⟨hd, by linarith, ?_⟩
  intro h
  have := (abs_le.mp h).1
  linarith

/-- C30, amended: for `dx = 20`, `|dy| <= 20` and `decel_rate = 1.1` the frame
count `n = log (20) / log (1.1) + 15` lies between 46.4 and 46.5, because
`1.1^31.4 < 20 < 1.1^31.5`; and the value the release handler computes with
any `logf` that is within a relative error of `1/1000` of the logarithm at 20
and at 1.1 lies between 46 and 47. -/
theorem frame_count_about_46 (dy : ℚ) (hdy : |dy| ≤ 20) :
    (232 / 5 : ℝ) < exact_frame_count 20 (dy : ℝ) (11 / 10) ∧
      exact_frame_count 20 (dy : ℝ) (11 / 10) < 93 / 2 ∧
      ∀ libm : Libm,
        |((libm.logf 20 : ℚ) : ℝ) - Real.log 20| ≤ Real.log 20 / 1000 →
        |((libm.logf (11 / 10) : ℚ) : ℝ) - Real.log (11 / 10)| ≤ Real.log (11 / 10) / 1000 →
        (46 : ℝ) < ((release_frame_count libm 20 dy (11 / 10) : ℚ) : ℝ) ∧
          ((release_frame_count libm 20 dy (11 / 10) : ℚ) : ℝ) < 47 := by
  have hd : |(dy : ℝ)| ≤ 20 := by
    have : ((|dy| : ℚ) : ℝ) ≤ ((20 : ℚ) : ℝ) := by exact_mod_cast hdy
    simpa using this
  obtain ⟨h1, h2⟩ := exact_frame_count_bounds (dy : ℝ) hd
  exact ⟨h1, h2, fun libm h20 h11 => release_frame_count_bounds libm dy hdy h20 h11⟩

theorem frame_count_about_46_witness :
    |(-2 : ℚ)| ≤ 20 ∧ (232 / 5 : ℝ) < exact_frame_count 20 ((-2 : ℚ) : ℝ) (11 / 10) ∧
      exact_frame_count 20 ((-2 : ℚ) : ℝ) (11 / 10) < 93 / 2 ∧
      ∃ libm : Libm,
        |((libm.logf 20 : ℚ) : ℝ) - Real.log 20| ≤ Real.log 20 / 1000 ∧
        |((libm.logf (11 / 10) : ℚ) : ℝ) - Real.log (11 / 10)| ≤ Real.log (11 / 10) / 1000 ∧
        (46 : ℝ) < ((release_frame_count libm 20 (-2) (11 / 10) : ℚ) : ℝ) ∧
        ((release_frame_count libm 20 (-2) (11 / 10) : ℚ) : ℝ) < 47 := by
  have hd : |(-2 : ℚ)| ≤ 20 := by norm_num
  have h := frame_count_about_46 (-2) hd
  have h20 : 0 < Real.log 20 := Real.log_pos (by norm_num)
  have h11 : 0 < Real.log (11 / 10) := Real.log_pos (by norm_num)
  obtain ⟨q1, hq1a, hq1b⟩ := exists_rat_btwn
    (show Real.log 20 - Real.log 20 / 1000 < Real.log 20 + Real.log 20 / 1000 by linarith)
  obtain ⟨q2, hq2a, hq2b⟩ := exists_rat_btwn
    (show Real.log (11 / 10) - Real.log (11 / 10) / 1000
      < Real.log (11 / 10) + Real.log (11 / 10) / 1000 by linarith)
  have e1 : (⟨fun x => if x = 20 then q1 else q2, fun _ _ => 0⟩ : Libm).logf 20 = q1 :=
    by simp
  have e2 : (⟨fun x => if x = 20 then q1 else q2, fun _ _ => 0⟩ : Libm).logf (11 / 10) = q2 :=
    by norm_num
  have a1 : |((((⟨fun x => if x = 20 then q1 else q2, fun _ _ => 0⟩ : Libm).logf 20 : ℚ)) : ℝ)
      - Real.log 20| ≤ Real.log 20 / 1000 := by
    rw [e1, abs_le]
    constructor <;> linarith
  have a2 : |((((⟨fun x => if x = 20 then q1 else q2, fun _ _ => 0⟩ : Libm).logf (11 / 10)
      : ℚ)) : ℝ) - Real.log (11 / 10)| ≤ Real.log (11 / 10) / 1000 := by
    rw [e2, abs_le]
    constructor <;> linarith
  exact ⟨hd, h.1, h.2.1, ⟨fun x => if x = 20 then q1 else q2, fun _ _ => 0⟩, a1, a2,
    h.2.2 _ a1 a2⟩

end MxFingerScroll

namespace MxStyle

/-- C18, evaluated at the failing input: for a regular file that libccss fails
to load, `mx_style_load_from_file` still returns TRUE, with no error, no
stylesheet and the directory added to the image search paths. The part of the
claim about a file that is not regular holds: the function then returns FALSE,
reports the invalid-file error and leaves the stylesheet and the image search
paths unchanged. -/
theorem load_reports_success_on_failure :
    (¬ loaded_successfully broken_env ⟨none, []⟩ "theme/broken.css" (some "theme") ∧
      mx_style_load_from_file broken_env ⟨none, []⟩ "theme/broken.css"
        = some ⟨⟨none, ["theme"]⟩, true, none, true⟩) ∧
    (∀ (σ : Type) (env : Env σ) (priv : MxStylePrivate σ) (filename : String),
      env.g_file_test_is_regular filename = false →
      mx_style_load_from_file env priv filename
        = some ⟨priv, false, some MxStyleError.invalid_file, false⟩) := by
  refine ⟨⟨?_, ?_⟩, ?_⟩
  · simp [loaded_successfully, broken_env]
  · simp [mx_style_load_from_file, mx_style_real_load_from_file, broken_env, image_path_loop]
  · intro σ env priv filename h
    simp [mx_style_load_from_file, mx_style_real_load_from_file, h]

end MxStyle
